import Mathlib

/-! BVH4HairBuilder2 (embree, kernels/xeon/bvh4hair/bvh4hair_builder2.cpp).

A shallow embedding of the hair BVH builder: the build-mode parser of the
constructor, the split dispatcher, the node builder `processTask`, the
sequential recursion `recurseTask`, leaf emission, the oriented-frame fit and
the top-level driver, followed by the properties proved about them.
-/

namespace Embree

/-! ## Build-mode string (constructor) -/

/-- The fields of `BVH4HairBuilder2` that the constructor initialises. -/
structure BVH4HairBuilder2 where
  minLeafSize : Nat
  maxLeafSize : Nat
  remainingReplications : Int
  enableAlignedObjectSplits : Bool
  enableAlignedSpatialSplits : Bool
  enableUnalignedObjectSplits : Bool
  enableStrandSplits : Bool
  enablePreSubdivision : Nat
  deriving DecidableEq, Repr

/-- The largest `size_t`, the value `maxLeafSize(inf)` is initialised with. -/
def sizeMax : Nat := 2 ^ 64 - 1

/-- State of the builder after the member initialisers and lines 29-36 of the
constructor; `maxLeafBlocks` is `BVH4Hair::maxLeafBlocks`. -/
def BVH4HairBuilder2.init (maxLeafBlocks : Nat) : BVH4HairBuilder2 :=
  { minLeafSize := 1
    maxLeafSize := if maxLeafBlocks < sizeMax then maxLeafBlocks else sizeMax
    remainingReplications := 0
    enableAlignedObjectSplits := false
    enableAlignedSpatialSplits := false
    enableUnalignedObjectSplits := false
    enableStrandSplits := false
    enablePreSubdivision := 0 }

/-- The `for (size_t i=0; i<g_hair_accel_mode.size();)` loop of the constructor.
The first argument is the part of the string from position `i` on; a pattern
`c₁ :: c₂ :: rest` is the test `substr(i,2) == "c₁c₂"` followed by `i+=2`. -/
def BVH4HairBuilder2.parseMode : List Char → BVH4HairBuilder2 → Except String BVH4HairBuilder2
  | [], b => .ok b
  | 'P' :: '0' :: rest, b => parseMode rest { b with enablePreSubdivision := 0 }
  | 'P' :: '1' :: rest, b => parseMode rest { b with enablePreSubdivision := 1 }
  | 'P' :: '2' :: rest, b => parseMode rest { b with enablePreSubdivision := 2 }
  | 'P' :: '3' :: rest, b => parseMode rest { b with enablePreSubdivision := 3 }
  | 'P' :: '4' :: rest, b => parseMode rest { b with enablePreSubdivision := 4 }
  | 'a' :: 'O' :: rest, b => parseMode rest { b with enableAlignedObjectSplits := true }
  | 'u' :: 'O' :: rest, b => parseMode rest { b with enableUnalignedObjectSplits := true }
  | 'a' :: 'u' :: 'O' :: rest, b =>
      parseMode rest { b with enableAlignedObjectSplits := true, enableUnalignedObjectSplits := true }
  | 'u' :: 'S' :: 'T' :: rest, b => parseMode rest { b with enableStrandSplits := true }
  | 'a' :: 'S' :: 'P' :: rest, b => parseMode rest { b with enableAlignedSpatialSplits := true }
  | _, _ => .error "invalid hair accel mode"

/-- The constructor `BVH4HairBuilder2::BVH4HairBuilder2`, as a function of the
global `g_hair_accel_mode` and of the constant `BVH4Hair::maxLeafBlocks`. -/
def BVH4HairBuilder2.new (maxLeafBlocks : Nat) (g_hair_accel_mode : String) :
    Except String BVH4HairBuilder2 :=
  BVH4HairBuilder2.parseMode g_hair_accel_mode.data (BVH4HairBuilder2.init maxLeafBlocks)

/-- The ten tokens of the build-mode language. -/
inductive Token
  | P0 | P1 | P2 | P3 | P4 | aO | uO | auO | uST | aSP
  deriving DecidableEq, Repr

/-- The characters of a token. -/
def Token.chars : Token → List Char
  | .P0 => ['P', '0']
  | .P1 => ['P', '1']
  | .P2 => ['P', '2']
  | .P3 => ['P', '3']
  | .P4 => ['P', '4']
  | .aO => ['a', 'O']
  | .uO => ['u', 'O']
  | .auO => ['a', 'u', 'O']
  | .uST => ['u', 'S', 'T']
  | .aSP => ['a', 'S', 'P']

/-- The string that is the concatenation of a list of tokens. -/
def Token.concat (ts : List Token) : String :=
  String.mk (ts.flatMap Token.chars)

/-- The digit of a `P`-token, `none` for the other tokens. -/
def Token.digit? : Token → Option Nat
  | .P0 => some 0
  | .P1 => some 1
  | .P2 => some 2
  | .P3 => some 3
  | .P4 => some 4
  | _ => none

/-- The digit of the last `P`-token of a token list, 0 when there is none. -/
def Token.lastDigit (ts : List Token) : Nat :=
  ((ts.reverse.filterMap Token.digit?).head?).getD 0

/-- The effect of one token on the builder, read off the token table of the
configuration interface. -/
def Token.apply (b : BVH4HairBuilder2) : Token → BVH4HairBuilder2
  | .P0 => { b with enablePreSubdivision := 0 }
  | .P1 => { b with enablePreSubdivision := 1 }
  | .P2 => { b with enablePreSubdivision := 2 }
  | .P3 => { b with enablePreSubdivision := 3 }
  | .P4 => { b with enablePreSubdivision := 4 }
  | .aO => { b with enableAlignedObjectSplits := true }
  | .uO => { b with enableUnalignedObjectSplits := true }
  | .auO => { b with enableAlignedObjectSplits := true, enableUnalignedObjectSplits := true }
  | .uST => { b with enableStrandSplits := true }
  | .aSP => { b with enableAlignedSpatialSplits := true }

/-! ## Floating-point values -/

/-- A `float` (or `double`) value: NaN, the two infinities, or a finite value.
A finite value is recorded as an integer multiple of a fixed unit (the unit
`2^-1074` covers every binary32 and binary64 value; the example environment
below uses whole numbers), so that `<`, `<=` and `==` on finite values are those
of the integers; `-0` and `+0` are both `fin 0`. -/
inductive Flt
  | nan
  | ninf
  | fin (z : Int)
  | pinf
  deriving DecidableEq, Repr

namespace Flt

/-- The constant `inf` of `constants.h` converted to `float`. -/
def inf : Flt := pinf

/-- The constant `neg_inf` of `constants.h` converted to `float`. -/
def neg_inf : Flt := ninf

/-- The comparison `a < b`; false when an operand is NaN. -/
def lt : Flt → Flt → Bool
  | nan, _ => false
  | _, nan => false
  | ninf, ninf => false
  | ninf, _ => true
  | fin _, ninf => false
  | fin a, fin b => decide (a < b)
  | fin _, pinf => true
  | pinf, _ => false

/-- The comparison `a == b`; false when an operand is NaN. -/
def eq : Flt → Flt → Bool
  | nan, _ => false
  | _, nan => false
  | a, b => decide (a = b)

/-- The comparison `a <= b`; false when an operand is NaN. -/
def le (a b : Flt) : Bool := lt a b || eq a b

/-- Modelled from the spec: the `min` of two floats of `common/math/math.h`
(not under src), with which the dispatcher "picks the minimum":
`a < b ? a : b`. -/
def min (a b : Flt) : Flt := if lt a b then a else b

/-- Whether a value is NaN. -/
def isNaN : Flt → Bool
  | nan => true
  | _ => false

end Flt

/-! ## Data model -/

/-- Modelled from the spec: the reference list `BezierRefList` (its container
is not under src), "the head of a singly-linked chain of blocks", each block
"a fixed-capacity array of references"; the head block comes first. -/
abbrev BezierRefList (Ref : Type) := List (List Ref)

/-- The references of a list in the order of `block_iterator_unsafe`. -/
def BezierRefList.iter {Ref : Type} (prims : BezierRefList Ref) : List Ref :=
  prims.flatten

/-- The value of `block_iterator_unsafe(prims).size()`. -/
def BezierRefList.size {Ref : Type} (prims : BezierRefList Ref) : Nat :=
  prims.iter.length

/-- Modelled from the spec: `PrimInfo` (not under src), the "count, axis-aligned
union of `bounds()` (`geomBounds`), and axis-aligned union of `center()`
(`centBounds`)" of a reference set. -/
structure PrimInfo (Box : Type) where
  num : Nat
  geomBounds : Box
  centBounds : Box

/-- The value of `pinfo.size()`. -/
def PrimInfo.size {Box : Type} (pinfo : PrimInfo Box) : Nat := pinfo.num

/-- Modelled from the spec: the oriented box `NAABBox3fa` (not under src), the
"pair (space, bounds)". -/
structure NAABBox3fa (Box Space : Type) where
  space : Space
  bounds : Box

/-- The four outputs `lprims_o, linfo_o, rprims_o, rinfo_o` of a split. -/
structure SplitOut (Ref Box : Type) where
  lprims : BezierRefList Ref
  linfo : PrimInfo Box
  rprims : BezierRefList Ref
  rinfo : PrimInfo Box

/-- An `ObjectPartition::Split` (not under src), seen through the two members
the builder calls: `splitSAH(intCost)` and `split(prims, ...)`. -/
structure ObjectPartition.Split (Ref Box : Type) where
  splitSAH : Flt → Flt
  split : BezierRefList Ref → SplitOut Ref Box

/-- A `SpatialSplit::Split` (not under src), seen through the two members the
builder calls: `splitSAH()` and `split(prims, ...)`. -/
structure SpatialSplit.Split (Ref Box : Type) where
  splitSAH : Flt
  split : BezierRefList Ref → SplitOut Ref Box

/-- A `StrandSplit` (not under src), seen through the two members the builder
calls: `splitSAH(intCost)` and `split(prims, ...)`. -/
structure StrandSplit (Ref Box : Type) where
  splitSAH : Flt → Flt
  split : BezierRefList Ref → SplitOut Ref Box

/-- The leaf primitive kind `bvh->primTy`: `Bezier1Type::type`,
`SceneBezier1i::type`, or any other type. -/
inductive PrimTy
  | bezier1
  | bezier1i
  | other
  deriving DecidableEq, Repr

/-- Modelled from the spec: the branching factor `BVH4Hair::N` (header not under
src), a "bounding-volume hierarchy of branching factor four". -/
def BVH4Hair.N : Nat := 4

/-- Everything the builder uses that is not defined in
`bvh4hair_builder2.cpp`: the builder's configuration, the constants of
`BVH4Hair`, float arithmetic, the geometry of references and boxes, and the
split routines. The theorems hold for every value of these. -/
structure Env (Ref Vec Box Space : Type) where
  /-- The builder fields set by the constructor. -/
  cfg : BVH4HairBuilder2
  /-- The constant `BVH4Hair::maxLeafBlocks`. -/
  maxLeafBlocks : Nat
  /-- The constant `BVH4Hair::maxBuildDepth`. -/
  maxBuildDepth : Nat
  /-- The constant `BVH4Hair::travCostAligned`. -/
  travCostAligned : Flt
  /-- The constant `BVH4Hair::travCostUnaligned`. -/
  travCostUnaligned : Flt
  /-- The constant `BVH4Hair::intCost`. -/
  intCost : Flt
  /-- The leaf primitive kind `bvh->primTy`. -/
  primTy : PrimTy
  /-- Whether `assert` is compiled in (no `NDEBUG`). -/
  assertions : Bool
  /-- Float addition. -/
  fadd : Flt → Flt → Flt
  /-- Float multiplication. -/
  fmul : Flt → Flt → Flt
  /-- The conversion `float(n)` of a `size_t`. -/
  floatOfSize : Nat → Flt
  /-- The value `g_hair_builder_replication_factor*numPrimitives` converted to
  the integer type of `remainingReplications`. -/
  replications : Nat → Int
  /-- The double constant `1E-9`. -/
  eps : Flt
  /-- The function `halfArea` on a `BBox3fa`. -/
  halfArea : Box → Flt
  /-- The empty box (`empty`). -/
  emptyBox : Box
  /-- The union of two boxes: `a.extend(b)`, `merge(a,b)`. -/
  extend : Box → Box → Box
  /-- A box grown by a point: `centBounds.extend(center)`. -/
  extendPoint : Box → Vec → Box
  /-- The identity space (`one`). -/
  one : Space
  /-- The member `Bezier1::bounds()`. -/
  bounds : Ref → Box
  /-- The member `Bezier1::bounds(space)`. -/
  boundsIn : Space → Ref → Box
  /-- The member `Bezier1::center()`. -/
  center : Ref → Vec
  /-- The chord length `length(p3 - p0)` of a reference. -/
  chordLength : Ref → Flt
  /-- The frame `clamp(frame(normalize(p3 - p0)).transposed())` of a reference. -/
  chordFrame : Ref → Space
  /-- The member `Bezier1::subdivide(bezier0,bezier1)`. -/
  subdivide : Ref → Ref × Ref
  /-- The capacity of a block of the reference list. -/
  blockSize : Nat
  /-- The routine `ObjectPartition::find(threadIndex,prims,space)`. -/
  objectFind : BezierRefList Ref → Space → ObjectPartition.Split Ref Box
  /-- The routine `SpatialSplit::find(threadIndex,prims,pinfo)`. -/
  spatialFind : BezierRefList Ref → PrimInfo Box → SpatialSplit.Split Ref Box
  /-- The routine `StrandSplit::find(threadIndex,prims)`. -/
  strandFind : BezierRefList Ref → StrandSplit Ref Box
  /-- The routine `FallBackSplit::find(threadIndex,alloc,prims,lprims_o,linfo_o,rprims_o,rinfo_o)`. -/
  fallbackFind : BezierRefList Ref → SplitOut Ref Box

/-- The five split kinds of the dispatcher, in the order of its `if` chain. -/
inductive SplitKind
  | fallback
  | alignedObject
  | alignedSpatial
  | unalignedObject
  | strand
  deriving DecidableEq, Repr

/-- What a child slot `*task.dst` receives: an encoded leaf with its copied
primitives (`indexed` for the `Bezier1i` form), or an encoded aligned or
unaligned node with the bounds set for its children. -/
inductive NodeRef (Ref Box Space : Type)
  | leaf (indexed : Bool) (prims : List Ref)
  | alignedNode (bounds : List Box)
  | unalignedNode (bounds : List (NAABBox3fa Box Space))

/-- A store `*task.dst = ref`. The slot `dst` is named by its path from
`bvh->root` (`[]` is the root, `p ++ [i]` is `node->child(i)` of the node stored
at `p`); `depth` is the depth of the task that stores. -/
structure Write (Ref Box Space : Type) where
  dst : List Nat
  depth : Nat
  ref : NodeRef Ref Box Space

/-- Calls recorded in the history of a run: a call of a `find` routine and the
application of a split. -/
inductive Event
  | find (k : SplitKind)
  | apply (k : SplitKind)
  deriving DecidableEq, Repr

/-- The mutable state of a build: the counter `remainingReplications`, the
stores made through the `dst` pointers (latest first), and the history of
split calls (latest first). The history is read by no operation. -/
structure State (Ref Box Space : Type) where
  remainingReplications : Int
  writes : List (Write Ref Box Space)
  history : List Event

/-- How a call can fail: a `std::runtime_error`, a failed `assert`, or the model
running out of fuel. -/
inductive Err
  | runtime (msg : String)
  | assertion (msg : String)
  | fuel
  deriving DecidableEq, Repr

/-- The tuple `BuildTask`: destination slot, depth, prim-info, reference list,
bounds. -/
structure BuildTask (Ref Box Space : Type) where
  dst : List Nat
  depth : Nat
  pinfo : PrimInfo Box
  prims : BezierRefList Ref
  bounds : NAABBox3fa Box Space

/-! ## Machine integers -/

/-- Modelled from the spec: the type of the counter `remainingReplications`
(declared in a header that is not under src), an "atomic integer"; it is taken
as `atomic_t`, a signed 64-bit word. This is the value of such a word. -/
def wrap64 (x : Int) : Int := (x + 2 ^ 63) % 2 ^ 64 - 2 ^ 63

/-- Subtraction of two `size_t` values. -/
def sizeSub (a b : Nat) : Nat := (a % 2 ^ 64 + (2 ^ 64 - b % 2 ^ 64)) % 2 ^ 64

/-- The new value stored by `atomic_add(&x, v)` for a `size_t` argument `v`,
which is converted to `atomic_t`. -/
def atomic_add (x : Int) (v : Nat) : Int := wrap64 (x + wrap64 (v : Int))

section Builder

variable {Ref Vec Box Space : Type}

/-! ## Split dispatcher -/

/-- The cost variables of `split` after lines 286-325: `leafSAH`, the four
candidate `...SAH` variables and `bestSAH`. -/
structure Candidates where
  leafSAH : Flt
  alignedObjectSAH : Flt
  alignedSpatialSAH : Flt
  unalignedObjectSAH : Flt
  strandSAH : Flt
  bestSAH : Flt
  deriving DecidableEq, Repr

/-- The test `enableSpatialSplits && enableAlignedSpatialSplits` of `split`,
with `enableSpatialSplits = remainingReplications > 0`. -/
def spatialEnabled (env : Env Ref Vec Box Space) (remainingReplications : Int) : Bool :=
  decide (remainingReplications > 0) && env.cfg.enableAlignedSpatialSplits

/-- Lines 286-325 of `split`: every enabled candidate is searched for and its
cost is folded into `bestSAH` with `min`; a candidate that is not computed
keeps the cost `inf`. The variable `leafSAH` is computed and never read. -/
def splitCandidates (env : Env Ref Vec Box Space) (remainingReplications : Int)
    (prims : BezierRefList Ref) (bounds : NAABBox3fa Box Space) (pinfo : PrimInfo Box) :
    Candidates :=
  let bestSAH := Flt.inf
  let leafSAH :=
    env.fmul (env.fmul env.intCost (env.floatOfSize pinfo.size)) (env.halfArea bounds.bounds)
  let alignedObjectSAH :=
    if env.cfg.enableAlignedObjectSplits then
      env.fadd (env.fmul env.travCostAligned (env.halfArea bounds.bounds))
        ((env.objectFind prims env.one).splitSAH env.intCost)
    else Flt.inf
  let bestSAH :=
    if env.cfg.enableAlignedObjectSplits then Flt.min bestSAH alignedObjectSAH else bestSAH
  let alignedSpatialSAH :=
    if spatialEnabled env remainingReplications then
      env.fadd (env.fmul env.travCostAligned (env.halfArea bounds.bounds))
        (env.fmul env.intCost (env.spatialFind prims pinfo).splitSAH)
    else Flt.inf
  let bestSAH :=
    if spatialEnabled env remainingReplications then Flt.min bestSAH alignedSpatialSAH
    else bestSAH
  let unalignedObjectSAH :=
    if env.cfg.enableUnalignedObjectSplits then
      env.fadd (env.fmul env.travCostUnaligned (env.halfArea bounds.bounds))
        ((env.objectFind prims bounds.space).splitSAH env.intCost)
    else Flt.inf
  let bestSAH :=
    if env.cfg.enableUnalignedObjectSplits then Flt.min bestSAH unalignedObjectSAH else bestSAH
  let strandSAH :=
    if env.cfg.enableStrandSplits then
      env.fadd (env.fmul env.travCostUnaligned (env.halfArea bounds.bounds))
        ((env.strandFind prims).splitSAH env.intCost)
    else Flt.inf
  let bestSAH :=
    if env.cfg.enableStrandSplits then Flt.min bestSAH strandSAH else bestSAH
  { leafSAH := leafSAH
    alignedObjectSAH := alignedObjectSAH
    alignedSpatialSAH := alignedSpatialSAH
    unalignedObjectSAH := unalignedObjectSAH
    strandSAH := strandSAH
    bestSAH := bestSAH }

/-- The `if` chain of lines 327-357 of `split`: the kind that is applied, or
`none` when the final `else` raises the internal error. -/
def splitChoice (c : Candidates) : Option SplitKind :=
  if Flt.eq c.bestSAH Flt.inf then some SplitKind.fallback
  else if Flt.eq c.bestSAH c.alignedObjectSAH then some SplitKind.alignedObject
  else if Flt.eq c.bestSAH c.alignedSpatialSAH then some SplitKind.alignedSpatial
  else if Flt.eq c.bestSAH c.unalignedObjectSAH then some SplitKind.unalignedObject
  else if Flt.eq c.bestSAH c.strandSAH then some SplitKind.strand
  else none

/-- The cost variable that the `if` chain of `split` compares `bestSAH` with for
a kind: `inf` for the fallback, the `...SAH` variable of the kind otherwise. -/
def Candidates.cost (c : Candidates) : SplitKind → Flt
  | SplitKind.fallback => Flt.inf
  | SplitKind.alignedObject => c.alignedObjectSAH
  | SplitKind.alignedSpatial => c.alignedSpatialSAH
  | SplitKind.unalignedObject => c.unalignedObjectSAH
  | SplitKind.strand => c.strandSAH

/-- The kinds whose branch of `split` executes `isAligned = false`. -/
def SplitKind.isUnaligned : SplitKind → Bool
  | SplitKind.unalignedObject => true
  | SplitKind.strand => true
  | _ => false

/-- The `find` calls made by lines 286-325 of `split`, latest first. -/
def findEvents (env : Env Ref Vec Box Space) (remainingReplications : Int) : List Event :=
  (if env.cfg.enableStrandSplits then [Event.find SplitKind.strand] else [])
  ++ (if env.cfg.enableUnalignedObjectSplits then [Event.find SplitKind.unalignedObject] else [])
  ++ (if spatialEnabled env remainingReplications then [Event.find SplitKind.alignedSpatial] else [])
  ++ (if env.cfg.enableAlignedObjectSplits then [Event.find SplitKind.alignedObject] else [])

/-- The function `BVH4HairBuilder2::split`. It returns the four outputs and the
new value of the reference parameter `isAligned`, or the internal error. -/
def split (env : Env Ref Vec Box Space) (st : State Ref Box Space)
    (prims : BezierRefList Ref) (bounds : NAABBox3fa Box Space) (pinfo : PrimInfo Box)
    (isAligned : Bool) :
    Except Err (SplitOut Ref Box × Bool) × State Ref Box Space :=
  let c := splitCandidates env st.remainingReplications prims bounds pinfo
  let st := { st with history := findEvents env st.remainingReplications ++ st.history }
  match splitChoice c with
  | some SplitKind.fallback =>
    (.ok (env.fallbackFind prims, isAligned),
      { st with history := Event.apply SplitKind.fallback :: st.history })
  | some SplitKind.alignedObject =>
    (.ok ((env.objectFind prims env.one).split prims, isAligned),
      { st with history := Event.apply SplitKind.alignedObject :: st.history })
  | some SplitKind.alignedSpatial =>
    let o := (env.spatialFind prims pinfo).split prims
    (.ok (o, isAligned),
      { st with
        remainingReplications :=
          atomic_add st.remainingReplications
            (sizeSub (sizeSub pinfo.size o.linfo.size) o.rinfo.size)
        history := Event.apply SplitKind.alignedSpatial :: st.history })
  | some SplitKind.unalignedObject =>
    (.ok ((env.objectFind prims bounds.space).split prims, false),
      { st with history := Event.apply SplitKind.unalignedObject :: st.history })
  | some SplitKind.strand =>
    (.ok ((env.strandFind prims).split prims, false),
      { st with history := Event.apply SplitKind.strand :: st.history })
  | none => (.error (Err.runtime "bvh4hair_builder: internal error"), st)

/-- The cost of a candidate as `split` computes it: the traversal cost times
`halfArea(bounds.bounds)` plus the split SAH of the kind (times `intCost` for
the spatial split). The fallback split has no cost; `inf` stands for it. -/
def candidateCost (env : Env Ref Vec Box Space) (prims : BezierRefList Ref)
    (bounds : NAABBox3fa Box Space) (pinfo : PrimInfo Box) : SplitKind → Flt
  | SplitKind.fallback => Flt.inf
  | SplitKind.alignedObject =>
    env.fadd (env.fmul env.travCostAligned (env.halfArea bounds.bounds))
      ((env.objectFind prims env.one).splitSAH env.intCost)
  | SplitKind.alignedSpatial =>
    env.fadd (env.fmul env.travCostAligned (env.halfArea bounds.bounds))
      (env.fmul env.intCost (env.spatialFind prims pinfo).splitSAH)
  | SplitKind.unalignedObject =>
    env.fadd (env.fmul env.travCostUnaligned (env.halfArea bounds.bounds))
      ((env.objectFind prims bounds.space).splitSAH env.intCost)
  | SplitKind.strand =>
    env.fadd (env.fmul env.travCostUnaligned (env.halfArea bounds.bounds))
      ((env.strandFind prims).splitSAH env.intCost)

/-- Whether `split` computes the candidate of a kind: aligned object if enabled,
aligned spatial if enabled and `remainingReplications > 0`, unaligned object if
enabled, strand if enabled. -/
def computed (env : Env Ref Vec Box Space) (remainingReplications : Int) : SplitKind → Bool
  | SplitKind.fallback => false
  | SplitKind.alignedObject => env.cfg.enableAlignedObjectSplits
  | SplitKind.alignedSpatial => spatialEnabled env remainingReplications
  | SplitKind.unalignedObject => env.cfg.enableUnalignedObjectSplits
  | SplitKind.strand => env.cfg.enableStrandSplits

/-- The outputs `lprims_o, linfo_o, rprims_o, rinfo_o` that the split of a given
kind produces in `split`. -/
def splitOutput (env : Env Ref Vec Box Space) (prims : BezierRefList Ref)
    (bounds : NAABBox3fa Box Space) (pinfo : PrimInfo Box) : SplitKind → SplitOut Ref Box
  | SplitKind.fallback => env.fallbackFind prims
  | SplitKind.alignedObject => (env.objectFind prims env.one).split prims
  | SplitKind.alignedSpatial => (env.spatialFind prims pinfo).split prims
  | SplitKind.unalignedObject => (env.objectFind prims bounds.space).split prims
  | SplitKind.strand => (env.strandFind prims).split prims

/-- The state that `split` leaves behind when it applies the kind `k`: only the
spatial branch changes `remainingReplications`. -/
def splitState (env : Env Ref Vec Box Space) (st : State Ref Box Space)
    (prims : BezierRefList Ref) (bounds : NAABBox3fa Box Space) (pinfo : PrimInfo Box)
    (k : SplitKind) : State Ref Box Space :=
  { remainingReplications :=
      if k = SplitKind.alignedSpatial then
        atomic_add st.remainingReplications
          (sizeSub (sizeSub pinfo.size (splitOutput env prims bounds pinfo k).linfo.size)
            (splitOutput env prims bounds pinfo k).rinfo.size)
      else st.remainingReplications
    writes := st.writes
    history := Event.apply k :: (findEvents env st.remainingReplications ++ st.history) }

/-- The cost of a kind as the tie rule sees it: the candidate cost when `split`
computes the candidate, `+inf` otherwise (and for the fallback). -/
def costVariable (env : Env Ref Vec Box Space) (remainingReplications : Int)
    (prims : BezierRefList Ref) (bounds : NAABBox3fa Box Space) (pinfo : PrimInfo Box)
    (k : SplitKind) : Flt :=
  if computed env remainingReplications k then candidateCost env prims bounds pinfo k
  else Flt.inf

/-- The tie rule in the fixed priority order: the fallback when the minimum `m`
is `+inf`, otherwise aligned object if its cost equals the minimum, otherwise
aligned spatial if its cost equals the minimum, otherwise unaligned object if
its cost equals the minimum, otherwise strand. -/
def firstInPriority (m : Flt) (cost : SplitKind → Flt) : SplitKind :=
  if m = Flt.inf then SplitKind.fallback
  else if cost SplitKind.alignedObject = m then SplitKind.alignedObject
  else if cost SplitKind.alignedSpatial = m then SplitKind.alignedSpatial
  else if cost SplitKind.unalignedObject = m then SplitKind.unalignedObject
  else SplitKind.strand

/-! ## Oriented-frame fit -/

/-- The inner loop of `computeHairSpaceBounds` (lines 208-214): the union of the
references' bounds in `space` and the sum of their half areas. -/
def spaceBoundsArea (env : Env Ref Vec Box Space) (space : Space) (prims : BezierRefList Ref) :
    Box × Flt :=
  prims.iter.foldl
    (fun acc j =>
      let cbounds := env.boundsIn space j
      (env.extend acc.1 cbounds, env.fadd acc.2 (env.halfArea cbounds)))
    (env.emptyBox, Flt.fin 0)

/-- The variables `bestArea`, `bestSpace`, `bestBounds` of
`computeHairSpaceBounds`. -/
structure BestFrame (Box Space : Type) where
  bestArea : Flt
  bestSpace : Space
  bestBounds : Box

/-- One iteration of the outer loop of `computeHairSpaceBounds` (lines 202-220)
for the reference `i` met at counter value `k`. -/
def frameStep (env : Env Ref Vec Box Space) (prims : BezierRefList Ref) (N : Nat)
    (best : BestFrame Box Space) (k : Nat) (i : Ref) : BestFrame Box Space :=
  if k % ((N + 3) / 4) ≠ 0 then best
  else if Flt.lt (env.chordLength i) env.eps then best
  else
    let space := env.chordFrame i
    let ba := spaceBoundsArea env space prims
    if Flt.le ba.2 best.bestArea then
      { bestArea := ba.2, bestSpace := space, bestBounds := ba.1 }
    else best

/-- The function `BVH4HairBuilder2::computeHairSpaceBounds`. -/
def computeHairSpaceBounds (env : Env Ref Vec Box Space) (prims : BezierRefList Ref) :
    NAABBox3fa Box Space :=
  let N := prims.size
  if N = 0 then { space := env.one, bounds := env.emptyBox }
  else
    let best := prims.iter.enum.foldl (fun best ki => frameStep env prims N best ki.1 ki.2)
      { bestArea := Flt.inf, bestSpace := env.one, bestBounds := env.emptyBox }
    if Flt.eq best.bestArea Flt.inf then
      { space := env.one
        bounds := prims.iter.foldl (fun b j => env.extend b (env.bounds j)) env.emptyBox }
    else { space := best.bestSpace, bounds := best.bestBounds }

/-! ## Leaf emission -/

/-- The function `BVH4HairBuilder2::leaf`: the encoded leaf, and the reference
list as it is left behind (every block taken and freed). The progress output
and its counter `numGeneratedPrims` are left out. With `assert` compiled in,
the inline `Bezier1` branch fails when the iterator is not exhausted after the
copy. -/
def leaf (env : Env Ref Vec Box Space) (prims : BezierRefList Ref) :
    Except Err (NodeRef Ref Box Space) × BezierRefList Ref :=
  let N := prims.size
  let N := if N > env.maxLeafBlocks then env.maxLeafBlocks else N
  match env.primTy with
  | PrimTy.bezier1 =>
    if env.assertions && !(prims.iter.drop N).isEmpty then
      (.error (Err.assertion "!iter"), prims)
    else (.ok (NodeRef.leaf false (prims.iter.take N)), [])
  | PrimTy.bezier1i => (.ok (NodeRef.leaf true (prims.iter.take N)), [])
  | PrimTy.other => (.error (Err.runtime "unknown primitive type"), prims)

/-! ## Node builder -/

/-- One slot `i` of the arrays `cpinfo`, `cbounds`, `cprims` of `processTask`. -/
structure Child (Ref Box Space : Type) where
  pinfo : PrimInfo Box
  bounds : NAABBox3fa Box Space
  prims : BezierRefList Ref

/-- The variables `bestArea` and `bestChild` of the child search, with the
slot `bestChild` points to. -/
structure BestChild (Ref Box Space : Type) where
  bestArea : Flt
  bestChild : Option (Nat × Child Ref Box Space)

/-- The loop of lines 383-390 of `processTask`: the child to split, `none` for
`bestChild == -1`. -/
def findBestChild (env : Env Ref Vec Box Space) (children : List (Child Ref Box Space)) :
    Option (Nat × Child Ref Box Space) :=
  (children.enum.foldl
    (fun (best : BestChild Ref Box Space) ic =>
      let A := env.halfArea ic.2.bounds.bounds
      if ic.2.pinfo.size ≤ env.cfg.minLeafSize then best
      else if Flt.lt best.bestArea A then { bestArea := A, bestChild := some ic }
      else best)
    { bestArea := Flt.neg_inf, bestChild := none }).bestChild

/-- Lines 397-401 of `processTask`: the right part goes into the next free slot
`numChildren`, the left part into the slot `bestChild`, and the bounds of both
are recomputed. -/
def splitChildren (env : Env Ref Vec Box Space) (children : List (Child Ref Box Space))
    (bestChild : Nat) (o : SplitOut Ref Box) : List (Child Ref Box Space) :=
  let right : Child Ref Box Space :=
    { pinfo := o.rinfo, bounds := computeHairSpaceBounds env o.rprims, prims := o.rprims }
  let left : Child Ref Box Space :=
    { pinfo := o.linfo, bounds := computeHairSpaceBounds env o.lprims, prims := o.lprims }
  children.set bestChild left ++ [right]

/-- The `do ... while (numChildren < BVH4Hair::N)` loop of `processTask`;
`slots` is `BVH4Hair::N - numChildren`, the number of free slots, which is
positive when the body is entered. -/
def splitLoop (env : Env Ref Vec Box Space) :
    Nat → State Ref Box Space → List (Child Ref Box Space) → Bool →
      Except Err (List (Child Ref Box Space) × Bool) × State Ref Box Space
  | 0, st, children, isAligned => (.ok (children, isAligned), st)
  | slots + 1, st, children, isAligned =>
    match findBestChild env children with
    | none => (.ok (children, isAligned), st)
    | some (bestChild, c) =>
      match split env st c.prims c.bounds c.pinfo isAligned with
      | (.error e, st) => (.error e, st)
      | (.ok (o, isAligned), st) =>
        splitLoop env slots st (splitChildren env children bestChild o) isAligned

/-- The test of line 363 of `processTask` for an enforced leaf. -/
def enforcedLeaf (env : Env Ref Vec Box Space) (task : BuildTask Ref Box Space) : Prop :=
  task.pinfo.size ≤ env.cfg.minLeafSize ∨ task.depth ≥ env.maxBuildDepth

instance (env : Env Ref Vec Box Space) (task : BuildTask Ref Box Space) :
    Decidable (enforcedLeaf env task) := by
  unfold enforcedLeaf
  infer_instance

/-- The initial child list of `processTask` (lines 374-377): slot 0 holds the
task's own list, bounds and prim-info. -/
def initialChildren (task : BuildTask Ref Box Space) : List (Child Ref Box Space) :=
  [{ pinfo := task.pinfo, bounds := task.bounds, prims := task.prims }]

/-- Whether an encoded reference is a leaf. -/
def NodeRef.isLeaf : NodeRef Ref Box Space → Bool
  | NodeRef.leaf _ _ => true
  | _ => false

/-- Whether an encoded reference is an aligned node. -/
def NodeRef.isAlignedNode : NodeRef Ref Box Space → Bool
  | NodeRef.alignedNode _ => true
  | _ => false

/-- Whether an encoded reference is an unaligned node. -/
def NodeRef.isUnalignedNode : NodeRef Ref Box Space → Bool
  | NodeRef.unalignedNode _ => true
  | _ => false

/-- The child tasks `task_o[0..numTasks_o)` of an aligned node (lines 409-413). -/
def alignedTasks (env : Env Ref Vec Box Space) (task : BuildTask Ref Box Space)
    (children : List (Child Ref Box Space)) : List (BuildTask Ref Box Space) :=
  children.enum.map fun ic =>
    { dst := task.dst ++ [ic.1], depth := task.depth + 1, pinfo := ic.2.pinfo,
      prims := ic.2.prims, bounds := computeHairSpaceBounds env ic.2.prims }

/-- The child tasks `task_o[0..numTasks_o)` of an unaligned node (lines 421-424). -/
def unalignedTasks (task : BuildTask Ref Box Space)
    (children : List (Child Ref Box Space)) : List (BuildTask Ref Box Space) :=
  children.enum.map fun ic =>
    { dst := task.dst ++ [ic.1], depth := task.depth + 1, pinfo := ic.2.pinfo,
      prims := ic.2.prims, bounds := ic.2.bounds }

/-- The node that `processTask` stores for a child list. -/
def nodeRef (children : List (Child Ref Box Space)) (isAligned : Bool) : NodeRef Ref Box Space :=
  if isAligned then NodeRef.alignedNode (children.map fun c => c.pinfo.geomBounds)
  else NodeRef.unalignedNode (children.map fun c => c.bounds)

/-- The child tasks that `processTask` returns for a child list. -/
def nodeTasks (env : Env Ref Vec Box Space) (task : BuildTask Ref Box Space)
    (children : List (Child Ref Box Space)) (isAligned : Bool) : List (BuildTask Ref Box Space) :=
  if isAligned then alignedTasks env task children else unalignedTasks task children

/-- The function `BVH4HairBuilder2::processTask`: the child tasks
`task_o[0..numTasks_o)`, with the store through `task.dst` added to the state. -/
def processTask (env : Env Ref Vec Box Space) (st : State Ref Box Space)
    (task : BuildTask Ref Box Space) :
    Except Err (List (BuildTask Ref Box Space)) × State Ref Box Space :=
  if enforcedLeaf env task then
    match leaf env task.prims with
    | (.error e, _) => (.error e, st)
    | (.ok ref, _) =>
      (.ok [], { st with writes := { dst := task.dst, depth := task.depth, ref := ref } :: st.writes })
  else
    match splitLoop env (BVH4Hair.N - 1) st (initialChildren task) true with
    | (.error e, st) => (.error e, st)
    | (.ok (children, isAligned), st) =>
      if isAligned then
        (.ok (alignedTasks env task children),
          { st with writes :=
              { dst := task.dst, depth := task.depth,
                ref := NodeRef.alignedNode (children.map fun c => c.pinfo.geomBounds) }
              :: st.writes })
      else
        (.ok (unalignedTasks task children),
          { st with writes :=
              { dst := task.dst, depth := task.depth,
                ref := NodeRef.unalignedNode (children.map fun c => c.bounds) }
              :: st.writes })

/-- The function `BVH4HairBuilder2::recurseTask`. The recursion depth is
bounded by `fuel`; `Err.fuel` reports that the bound was reached. -/
def recurseTask (env : Env Ref Vec Box Space) :
    Nat → State Ref Box Space → BuildTask Ref Box Space → Except Err Unit × State Ref Box Space
  | 0, st, _ => (.error Err.fuel, st)
  | fuel + 1, st, task =>
    match processTask env st task with
    | (.error e, st) => (.error e, st)
    | (.ok tasks, st) =>
      tasks.foldl
        (fun (r : Except Err Unit × State Ref Box Space) t =>
          match r with
          | (.error e, st) => (.error e, st)
          | (.ok _, st) => recurseTask env fuel st t)
        (.ok (), st)

/-! ## Top-level driver -/

/-- One geometry of the scene, as `build` reads it: whether its type is
`BEZIER_CURVES`, whether it is enabled, its vertex count, and the references
`Bezier1(p0,p1,p2,p3,0,1,i,j)` of its curves `j = 0, 1, ...`. -/
structure Geometry (Ref : Type) where
  isBezierCurves : Bool
  isEnabled : Bool
  numVertices : Nat
  curves : List Ref

/-- The scene: the counter `scene->numCurves` and the geometries
`scene->get(i)`. -/
structure Scene (Ref : Type) where
  numCurves : Nat
  geometries : List (Geometry Ref)

/-- The insertion of lines 134-138 of `subdivideAndAdd`: the reference goes
into the head block, or into a fresh block linked in front of it when there is
no head block or the head block is full. -/
def insertRef (env : Env Ref Vec Box Space) (prims : BezierRefList Ref) (bezier : Ref) :
    BezierRefList Ref :=
  match prims with
  | [] => (if 0 < env.blockSize then [bezier] else []) :: []
  | block :: rest =>
    if block.length < env.blockSize then (block ++ [bezier]) :: rest
    else (if 0 < env.blockSize then [bezier] else []) :: block :: rest

/-- The function `BVH4HairBuilder2::subdivideAndAdd`: the returned bounds and
the reference list after the insertions. -/
def subdivideAndAdd (env : Env Ref Vec Box Space) :
    Nat → BezierRefList Ref → Ref → Box × BezierRefList Ref
  | 0, prims, bezier => (env.bounds bezier, insertRef env prims bezier)
  | depth + 1, prims, bezier =>
    let halves := env.subdivide bezier
    let r0 := subdivideAndAdd env depth prims halves.1
    let r1 := subdivideAndAdd env depth r0.2 halves.2
    (env.extend r0.1 r1.1, r1.2)

/-- The member `PrimInfo::add(bounds, center)`. -/
def PrimInfo.add (env : Env Ref Vec Box Space) (pinfo : PrimInfo Box) (bounds : Box)
    (center : Vec) : PrimInfo Box :=
  { num := pinfo.num + 1
    geomBounds := env.extend pinfo.geomBounds bounds
    centBounds := env.extendPoint pinfo.centBounds center }

/-- The state of one worker of `task_build_parallel`: the build state, the
counter `numActiveTasks` and the task queue `tasks`. -/
structure Worker (Ref Box Space : Type) where
  st : State Ref Box Space
  numActiveTasks : Int
  tasks : List (BuildTask Ref Box Space)

/-- Modelled from the spec: taking the top of the task heap (`pop_heap` with the
order of `BuildTask`, not under src), "a max-heap keyed by reference count
(largest first)" where "ties are broken by insertion order (FIFO)". The queue is
kept in insertion order. -/
def popLargest : List (BuildTask Ref Box Space) →
    Option (BuildTask Ref Box Space × List (BuildTask Ref Box Space))
  | [] => none
  | t :: ts =>
    match popLargest ts with
    | none => some (t, [])
    | some (m, rest) =>
      if t.pinfo.size < m.pinfo.size then some (m, t :: rest) else some (t, ts)

/-- The function `BVH4HairBuilder2::task_build_parallel` run by a single worker.
`fuel` bounds the number of iterations of the `while` loop and `recFuel` the
depth of each `recurseTask`. -/
def task_build_parallel (env : Env Ref Vec Box Space) (recFuel : Nat) :
    Nat → Worker Ref Box Space → Except Err Unit × Worker Ref Box Space
  | 0, w => (.error Err.fuel, w)
  | fuel + 1, w =>
    if w.numActiveTasks = 0 then (.ok (), w)
    else
      match popLargest w.tasks with
      | none => task_build_parallel env recFuel fuel w
      | some (task, tasks) =>
        if task.pinfo.size < 512 then
          match recurseTask env recFuel w.st task with
          | (.error e, st) =>
            (.error e, { st := st, numActiveTasks := w.numActiveTasks - 1, tasks := tasks })
          | (.ok _, st) =>
            task_build_parallel env recFuel fuel
              { st := st, numActiveTasks := w.numActiveTasks - 1, tasks := tasks }
        else
          match processTask env w.st task with
          | (.error e, st) =>
            (.error e, { st := st, numActiveTasks := w.numActiveTasks, tasks := tasks })
          | (.ok ctasks, st) =>
            task_build_parallel env recFuel fuel
              { st := st, numActiveTasks := w.numActiveTasks + ctasks.length - 1,
                tasks := tasks ++ ctasks }

/-- The fields of the BVH that `build` writes: `bounds`, `numPrimitives`,
`numVertices`, and the stores below `root` kept in the build state. -/
structure BVH4Hair (Ref Box Space : Type) where
  bounds : Box
  numPrimitives : Nat
  numVertices : Nat
  st : State Ref Box Space

/-- The content of `bvh->root`: the latest store through the root slot, `none`
for the empty sentinel. -/
def BVH4Hair.root (bvh : BVH4Hair Ref Box Space) : Option (NodeRef Ref Box Space) :=
  (bvh.st.writes.find? fun w => w.dst.isEmpty).map fun w => w.ref

/-- Modelled from the spec: the BVH after `bvh->init` (not under src), whose
root is "the empty leaf sentinel" and whose bounds are empty. -/
def BVH4Hair.init (env : Env Ref Vec Box Space) : BVH4Hair Ref Box Space :=
  { bounds := env.emptyBox, numPrimitives := 0, numVertices := 0,
    st := { remainingReplications := env.cfg.remainingReplications, writes := [], history := [] } }

/-- The loop of lines 82-98 of `build` over the geometries: the bounds, the
vertex count and the initial reference list. -/
def initialCurves (env : Env Ref Vec Box Space) (scene : Scene Ref) :
    Box × Nat × BezierRefList Ref :=
  scene.geometries.foldl
    (fun acc geom =>
      if !geom.isBezierCurves then acc
      else if !geom.isEnabled then acc
      else
        geom.curves.foldl
          (fun (acc : Box × Nat × BezierRefList Ref) bezier =>
            let r := subdivideAndAdd env env.cfg.enablePreSubdivision acc.2.2 bezier
            (env.extend acc.1 r.1, acc.2.1, r.2))
          (acc.1, acc.2.1 + geom.numVertices, acc.2.2))
    (env.emptyBox, 0, [])

/-- The loop of lines 101-103 of `build`: the prim-info of the initial list. -/
def initialPrimInfo (env : Env Ref Vec Box Space) (prims : BezierRefList Ref) : PrimInfo Box :=
  prims.iter.foldl (fun pinfo i => PrimInfo.add env pinfo (env.bounds i) (env.center i))
    { num := 0, geomBounds := env.emptyBox, centBounds := env.emptyBox }

/-- The root task of line 111 of `build`. -/
def rootTask (env : Env Ref Vec Box Space) (scene : Scene Ref) : BuildTask Ref Box Space :=
  let prims := (initialCurves env scene).2.2
  let pinfo := initialPrimInfo env prims
  { dst := [], depth := 0, pinfo := pinfo, prims := prims,
    bounds := { space := env.one, bounds := pinfo.geomBounds } }

/-- The function `BVH4HairBuilder2::build` with the task loop run by a single
worker; `fuel` bounds the iterations of the task loop. The verbose output is
left out. -/
def build (env : Env Ref Vec Box Space) (scene : Scene Ref) (fuel : Nat) :
    Except Err Unit × BVH4Hair Ref Box Space :=
  let numPrimitives := (scene.numCurves <<< env.cfg.enablePreSubdivision) % 2 ^ 64
  let bvh := BVH4Hair.init env
  if numPrimitives = 0 then (.ok (), bvh)
  else
    let curves := initialCurves env scene
    let task := rootTask env scene
    let st : State Ref Box Space :=
      { bvh.st with remainingReplications := env.replications numPrimitives }
    let r := task_build_parallel env (env.maxBuildDepth + 1) fuel
      { st := st, numActiveTasks := 1, tasks := [task] }
    (r.1,
      { bounds := curves.1
        numPrimitives := scene.numCurves
        numVertices := if env.primTy = PrimTy.bezier1i then curves.2.1 else 0
        st := r.2.st })

end Builder

/-- No spatial split has been searched for or applied in the history of a
state. -/
def noSpatial {Ref Box Space : Type} (st : State Ref Box Space) : Prop :=
  ∀ e ∈ st.history,
    e ≠ Event.find SplitKind.alignedSpatial ∧ e ≠ Event.apply SplitKind.alignedSpatial

/-- The number of references held by the leaves stored so far: the references
that have reached the leaves. -/
def leafRefs {Ref Box Space : Type} (writes : List (Write Ref Box Space)) : Nat :=
  (writes.map fun w =>
    match w.ref with
    | NodeRef.leaf _ prims => prims.length
    | _ => 0).sum

/-- The prim-infos of a split output count the references of its two lists. -/
def SplitOut.consistent {Ref Box : Type} (o : SplitOut Ref Box) : Prop :=
  o.linfo.size = o.lprims.size ∧ o.rinfo.size = o.rprims.size

/-! ## An example environment

References are numbers, a box is summarised by its half area, there is one
space. The split routines cut a list in two halves in iteration order; the
spatial split puts every reference on both sides. -/

/-- Exact addition of example values. -/
def exampleAdd : Flt → Flt → Flt
  | Flt.fin a, Flt.fin b => Flt.fin (a + b)
  | Flt.nan, _ => Flt.nan
  | _, Flt.nan => Flt.nan
  | Flt.pinf, Flt.ninf => Flt.nan
  | Flt.ninf, Flt.pinf => Flt.nan
  | Flt.pinf, _ => Flt.pinf
  | _, Flt.pinf => Flt.pinf
  | Flt.ninf, _ => Flt.ninf
  | _, Flt.ninf => Flt.ninf

/-- Exact multiplication of example values; the factors used are positive. -/
def exampleMul : Flt → Flt → Flt
  | Flt.fin a, Flt.fin b => Flt.fin (a * b)
  | Flt.nan, _ => Flt.nan
  | _, Flt.nan => Flt.nan
  | Flt.fin a, x => if a = 0 then Flt.nan else x
  | x, Flt.fin b => if b = 0 then Flt.nan else x
  | Flt.pinf, x => x
  | Flt.ninf, Flt.pinf => Flt.ninf
  | Flt.ninf, Flt.ninf => Flt.pinf

/-- The prim-info of an example list: its count, and unit boxes. -/
def examplePrimInfo (prims : BezierRefList Nat) : PrimInfo Int :=
  { num := prims.size, geomBounds := 1, centBounds := 1 }

/-- The example object, strand and fallback split: the first half of the
references in iteration order goes left, the rest goes right. -/
def exampleHalve (prims : BezierRefList Nat) : SplitOut Nat Int :=
  { lprims := [prims.iter.take (prims.size / 2)]
    linfo := examplePrimInfo [prims.iter.take (prims.size / 2)]
    rprims := [prims.iter.drop (prims.size / 2)]
    rinfo := examplePrimInfo [prims.iter.drop (prims.size / 2)] }

/-- The example spatial split: every reference straddles the plane and goes to
both sides. -/
def exampleDuplicate (prims : BezierRefList Nat) : SplitOut Nat Int :=
  { lprims := prims, linfo := examplePrimInfo prims
    rprims := prims, rinfo := examplePrimInfo prims }

/-- The example environment for a builder configuration `cfg`, a split SAH
`sah` returned by every `find`, and a replication budget `budget`. Costs are 1,
`maxLeafBlocks` is 4, `maxBuildDepth` is 8, leaves are inline `Bezier1`. -/
def exampleEnv (cfg : BVH4HairBuilder2) (sah : Flt) (budget : Int) : Env Nat Unit Int Unit :=
  { cfg := cfg
    maxLeafBlocks := 4
    maxBuildDepth := 8
    travCostAligned := Flt.fin 1
    travCostUnaligned := Flt.fin 1
    intCost := Flt.fin 1
    primTy := PrimTy.bezier1
    assertions := true
    fadd := exampleAdd
    fmul := exampleMul
    floatOfSize := fun n => Flt.fin n
    replications := fun _ => budget
    eps := Flt.fin 0
    halfArea := fun b => Flt.fin b
    emptyBox := 0
    extend := fun a b => max a b
    extendPoint := fun a _ => a
    one := ()
    bounds := fun _ => 1
    boundsIn := fun _ _ => 1
    center := fun _ => ()
    chordLength := fun _ => Flt.fin 1
    chordFrame := fun _ => ()
    subdivide := fun r => (2 * r, 2 * r + 1)
    blockSize := 4
    objectFind := fun _ _ => { splitSAH := fun _ => sah, split := exampleHalve }
    spatialFind := fun _ _ => { splitSAH := sah, split := exampleDuplicate }
    strandFind := fun _ => { splitSAH := fun _ => sah, split := exampleHalve }
    fallbackFind := exampleHalve }

/-- A builder configuration with the given split kinds enabled, as the
constructor leaves it. -/
def exampleCfg (aO aSP uO uST : Bool) : BVH4HairBuilder2 :=
  { BVH4HairBuilder2.init 4 with
    enableAlignedObjectSplits := aO
    enableAlignedSpatialSplits := aSP
    enableUnalignedObjectSplits := uO
    enableStrandSplits := uST }

/-- An example task at depth 0 for the root slot over a single block. -/
def exampleTask (block : List Nat) : BuildTask Nat Int Unit :=
  { dst := [], depth := 0, pinfo := examplePrimInfo [block], prims := [block],
    bounds := { space := (), bounds := 1 } }

/-- An example state with the given value of `remainingReplications`. -/
def exampleState (remainingReplications : Int) : State Nat Int Unit :=
  { remainingReplications := remainingReplications, writes := [], history := [] }

/-- The example environment with all four split kinds enabled, split SAH 3 and a
replication budget of 1: every candidate costs `1 * 1 + 3 = 4`. -/
def exampleEnvAll : Env Nat Unit Int Unit :=
  exampleEnv (exampleCfg true true true true) (Flt.fin 3) 1

/-- The example environment with only aligned object splits enabled. -/
def exampleEnvAligned : Env Nat Unit Int Unit :=
  exampleEnv (exampleCfg true false false false) (Flt.fin 3) 0

/-- The example environment with only unaligned object and strand splits
enabled. -/
def exampleEnvUnaligned : Env Nat Unit Int Unit :=
  exampleEnv (exampleCfg false false true true) (Flt.fin 3) 0

/-- The example environment with only aligned spatial splits enabled and a
replication budget of 1. -/
def exampleEnvSpatial : Env Nat Unit Int Unit :=
  exampleEnv (exampleCfg false true false false) (Flt.fin 3) 1

/-- An example scene with one enabled curve set of the given curves. -/
def exampleScene (curves : List Nat) : Scene Nat :=
  { numCurves := curves.length
    geometries := [{ isBezierCurves := true, isEnabled := true,
                     numVertices := 4 * curves.length, curves := curves }] }

/-- The example environment of boundary scenario S5: aligned object and aligned
spatial splits enabled, replication budget 0. -/
def exampleEnvNoBudget : Env Nat Unit Int Unit :=
  exampleEnv (exampleCfg true true false false) (Flt.fin 3) 0

/-- The two child tasks that the example split of the task over `[1, 2]`
produces. -/
def exampleChildTasks : List (BuildTask Nat Int Unit) :=
  [{ dst := [0], depth := 1, pinfo := examplePrimInfo [[1]], prims := [[1]],
     bounds := { space := (), bounds := 1 } },
   { dst := [1], depth := 1, pinfo := examplePrimInfo [[2]], prims := [[2]],
     bounds := { space := (), bounds := 1 } }]

/-- The example environment with indexed `Bezier1i` leaves. -/
def exampleEnvIndexed : Env Nat Unit Int Unit :=
  { exampleEnvAligned with primTy := PrimTy.bezier1i }

/-- The example environment built without assertions (`NDEBUG`). -/
def exampleEnvRelease : Env Nat Unit Int Unit :=
  { exampleEnvAligned with assertions := false }

/-- An example task at depth `maxBuildDepth = 8` over a single block. -/
def exampleDeepTask (block : List Nat) : BuildTask Nat Int Unit :=
  { exampleTask block with dst := [0, 0, 0, 0, 0, 0, 0, 0], depth := 8 }

section SubdivideDefs

variable {Ref Vec Box Space : Type}

/-- The segments of a curve after `depth` rounds of subdivision, in the order in
which `subdivideAndAdd` inserts them. -/
def segments (env : Env Ref Vec Box Space) : Nat → Ref → List Ref
  | 0, bezier => [bezier]
  | depth + 1, bezier =>
    segments env depth (env.subdivide bezier).1 ++ segments env depth (env.subdivide bezier).2

/-- The union of the `bounds()` of the references of a list, from left to
right; the empty box for no reference. -/
def boundsUnion (env : Env Ref Vec Box Space) : List Ref → Box
  | [] => env.emptyBox
  | r :: rs => rs.foldl (fun b j => env.extend b (env.bounds j)) (env.bounds r)

/-- The total number of curves of the geometries of a scene. -/
def Scene.curveCount (scene : Scene Ref) : Nat :=
  (scene.geometries.map fun geom => geom.curves.length).sum

end SubdivideDefs

section FrameDefs

variable {Ref Vec Box Space : Type}

/-- The references that pass the stride test of line 203 of
`computeHairSpaceBounds`, with their iteration indices: the frame candidates. -/
def frameCandidates (prims : BezierRefList Ref) : List (Nat × Ref) :=
  prims.iter.enum.filter fun ki => ki.1 % ((prims.size + 3) / 4) = 0

/-- The candidates that pass the chord test of line 206 (`length(p3 - p0) < 1E-9`
is false), in iteration order. -/
def qualifiedCandidates (env : Env Ref Vec Box Space) (prims : BezierRefList Ref) : List Ref :=
  ((frameCandidates prims).map Prod.snd).filter fun i => !Flt.lt (env.chordLength i) env.eps

/-- The total half area of a list in the frame of a reference: the variable
`area` after the inner loop. -/
def totalHalfArea (env : Env Ref Vec Box Space) (prims : BezierRefList Ref) (i : Ref) : Flt :=
  (spaceBoundsArea env (env.chordFrame i) prims).2

/-- The frame of a reference with the bounds of a list in that frame. -/
def frameBounds (env : Env Ref Vec Box Space) (prims : BezierRefList Ref) (i : Ref) :
    NAABBox3fa Box Space :=
  { space := env.chordFrame i, bounds := (spaceBoundsArea env (env.chordFrame i) prims).1 }

/-- The identity frame with the world-space union of the `bounds()` of a list. -/
def worldBounds (env : Env Ref Vec Box Space) (prims : BezierRefList Ref) :
    NAABBox3fa Box Space :=
  { space := env.one
    bounds := prims.iter.foldl (fun b j => env.extend b (env.bounds j)) env.emptyBox }

/-- Lines 216-220 of `computeHairSpaceBounds` for a candidate that has passed the
chord test. -/
def candidateStep (env : Env Ref Vec Box Space) (prims : BezierRefList Ref)
    (best : BestFrame Box Space) (i : Ref) : BestFrame Box Space :=
  if Flt.le (totalHalfArea env prims i) best.bestArea then
    { bestArea := totalHalfArea env prims i, bestSpace := env.chordFrame i,
      bestBounds := (spaceBoundsArea env (env.chordFrame i) prims).1 }
  else best

/-- The initial values of `bestArea`, `bestSpace`, `bestBounds`. -/
def initialBest (env : Env Ref Vec Box Space) : BestFrame Box Space :=
  { bestArea := Flt.inf, bestSpace := env.one, bestBounds := env.emptyBox }

/-- The union of the bounds of a list in a space, from the empty box. -/
def unionIn (env : Env Ref Vec Box Space) (space : Space) (prims : BezierRefList Ref) : Box :=
  prims.iter.foldl (fun b j => env.extend b (env.boundsIn space j)) env.emptyBox

/-- Modelled from the spec: the rounded-up quotient written with ceiling
brackets in the spec, on natural numbers. -/
def ceilDiv (a b : Nat) : Nat := (a + b - 1) / b

/-- An example environment with many frames. A reference `r` has chord length
`r / 100` and the frame `r`; a box is summarised by its half area, and the box
of any reference in the frame `s` is `s % 100`, with a box of 50 or more having
an infinite half area. The threshold of the chord test is 1, the identity frame
is 0, and the world-space box of a reference is 1. -/
def exampleFrameEnv : Env Nat Unit Int Nat :=
  { cfg := exampleCfg true false false false
    maxLeafBlocks := 4
    maxBuildDepth := 8
    travCostAligned := Flt.fin 1
    travCostUnaligned := Flt.fin 1
    intCost := Flt.fin 1
    primTy := PrimTy.bezier1
    assertions := true
    fadd := exampleAdd
    fmul := exampleMul
    floatOfSize := fun n => Flt.fin n
    replications := fun _ => 0
    eps := Flt.fin 1
    halfArea := fun b => if 50 ≤ b then Flt.pinf else Flt.fin b
    emptyBox := 0
    extend := fun a b => max a b
    extendPoint := fun a _ => a
    one := 0
    bounds := fun _ => 1
    boundsIn := fun s _ => ((s % 100 : Nat) : Int)
    center := fun _ => ()
    chordLength := fun r => Flt.fin ((r / 100 : Nat) : Int)
    chordFrame := fun r => r
    subdivide := fun r => (2 * r, 2 * r + 1)
    blockSize := 4
    objectFind := fun _ _ => { splitSAH := fun _ => Flt.fin 3, split := exampleHalve }
    spatialFind := fun _ _ => { splitSAH := Flt.fin 3, split := exampleDuplicate }
    strandFind := fun _ => { splitSAH := fun _ => Flt.fin 3, split := exampleHalve }
    fallbackFind := exampleHalve }

end FrameDefs

section NodeChildDefs

variable {Ref Vec Box Space : Type}

/-- The number of children that an encoded node holds; 0 for a leaf. -/
def NodeRef.numChildren : NodeRef Ref Box Space → Nat
  | NodeRef.leaf _ _ => 0
  | NodeRef.alignedNode bounds => bounds.length
  | NodeRef.unalignedNode bounds => bounds.length

/-- The child that a split puts into the slot `bestChild`. -/
def leftChild (env : Env Ref Vec Box Space) (o : SplitOut Ref Box) : Child Ref Box Space :=
  { pinfo := o.linfo, bounds := computeHairSpaceBounds env o.lprims, prims := o.lprims }

/-- The child that a split puts into the next free slot. -/
def rightChild (env : Env Ref Vec Box Space) (o : SplitOut Ref Box) : Child Ref Box Space :=
  { pinfo := o.rinfo, bounds := computeHairSpaceBounds env o.rprims, prims := o.rprims }

/-- The example environment with aligned object splits only in which the half
area of every box is NaN. -/
def exampleEnvNaN : Env Nat Unit Int Unit :=
  { exampleEnvAligned with halfArea := fun _ => Flt.nan }

end NodeChildDefs

section LeafSizeDefs

variable {Ref Vec Box Space : Type}

/-- Every leaf stored so far holds between 1 and `maxLeafBlocks` references. -/
def leavesFilled (env : Env Ref Vec Box Space) (st : State Ref Box Space) : Prop :=
  ∀ w ∈ st.writes, ∀ indexed prims, w.ref = NodeRef.leaf indexed prims →
    1 ≤ prims.length ∧ prims.length ≤ env.maxLeafBlocks

/-- Every leaf stored so far holds at most `maxLeafBlocks` references. -/
def leavesBounded (env : Env Ref Vec Box Space) (st : State Ref Box Space) : Prop :=
  ∀ w ∈ st.writes, ∀ indexed prims, w.ref = NodeRef.leaf indexed prims →
    prims.length ≤ env.maxLeafBlocks

/-- An example split that returns an empty right side: every reference goes
left. -/
def exampleAllLeft (prims : BezierRefList Nat) : SplitOut Nat Int :=
  { lprims := prims, linfo := examplePrimInfo prims
    rprims := [], rinfo := examplePrimInfo [] }

/-- The example environment with aligned object splits only whose object split
puts every reference on the left side. -/
def exampleEnvLopsided : Env Nat Unit Int Unit :=
  { exampleEnvAligned with
    objectFind := fun _ _ => { splitSAH := fun _ => Flt.fin 3, split := exampleAllLeft } }

/-- The example environment of boundary scenario S6: all four split kinds are
enabled, the replication budget is 1, and every `find` returns the split SAH
`+inf`, as for curves that are all equal. -/
def exampleEnvIdentical : Env Nat Unit Int Unit :=
  exampleEnv (exampleCfg true true true true) Flt.pinf 1

end LeafSizeDefs

section OrderDefs

variable {Ref Vec Box Space : Type}

/-- The references that an encoded leaf holds; none for a node. -/
def NodeRef.prims : NodeRef Ref Box Space → List Ref
  | NodeRef.leaf _ prims => prims
  | _ => []

/-- The state before any store, with a replication counter of 0. -/
def State.initial : State Ref Box Space :=
  { remainingReplications := 0, writes := [], history := [] }

end OrderDefs

section PoolDefs

variable {Ref Box Space : Type}

/-- The point at which one worker of `task_build_parallel` stands, with the local
variables `task` and `ctasks` it holds there. -/
inductive Pc (Ref Box Space : Type)
  /-- Before the test of `while (numActiveTasks)` (line 151). -/
  | loopHead
  /-- The test was true; before `taskMutex.lock()` (line 153). -/
  | entered
  /-- Holding the mutex; before the test `tasks.size() == 0` (line 154). -/
  | locked
  /-- Holding the mutex, with the top of the heap taken (after line 162). -/
  | popped (task : BuildTask Ref Box Space)
  /-- After `taskMutex.unlock()` (line 163); before the size test (line 166). -/
  | taken (task : BuildTask Ref Box Space)
  /-- After `atomic_add(&numActiveTasks,-1)` (line 167); in `recurseTask`. -/
  | recursing (task : BuildTask Ref Box Space)
  /-- In `processTask` (line 176). -/
  | processing (task : BuildTask Ref Box Space)
  /-- After `processTask` has returned the child tasks; before `taskMutex.lock()`
  (line 177). -/
  | processed (ctasks : List (BuildTask Ref Box Space))
  /-- Holding the mutex, at the test of the `for` loop (line 178), with the
  child tasks that are still to be pushed. -/
  | pushing (ctasks : List (BuildTask Ref Box Space))
  /-- After `atomic_add(&numActiveTasks,+1)` (line 179) for the child `c`; before
  `push_back` (line 180). -/
  | counted (c : BuildTask Ref Box Space) (ctasks : List (BuildTask Ref Box Space))
  /-- After the final `atomic_add(&numActiveTasks,-1)` (line 183); before
  `taskMutex.unlock()` (line 184). -/
  | decremented
  /-- The `while` loop is left. -/
  | finished

/-- The state that the workers of `task_build_parallel` share, and the points at
which they stand. -/
structure Pool (Ref Box Space : Type) where
  numActiveTasks : Int
  tasks : List (BuildTask Ref Box Space)
  mutex : Option Nat
  workers : List (Pc Ref Box Space)

/-- The pool when `build` starts the workers (lines 117-120): `numActiveTasks` is
1, the queue holds the root task, and each of the `threadCount` workers is at
the head of its loop. -/
def Pool.initial (task : BuildTask Ref Box Space) (threadCount : Nat) : Pool Ref Box Space :=
  { numActiveTasks := 1, tasks := [task], mutex := none,
    workers := List.replicate threadCount Pc.loopHead }

/-- One statement of `task_build_parallel` executed by the worker `i`; `none`
when the worker cannot move, because it waits for the mutex or has left the
loop. The child tasks `ctasks` are what `processTask` returns when the worker is
in `processTask`: they are given from outside, since `processTask` and
`recurseTask` run concurrently with the other workers and do not touch
`numActiveTasks` or the queue. -/
def Pool.step (p : Pool Ref Box Space) (i : Nat) (ctasks : List (BuildTask Ref Box Space)) :
    Option (Pool Ref Box Space) :=
  match p.workers[i]? with
  | none => none
  | some Pc.loopHead =>
    if p.numActiveTasks = 0 then some { p with workers := p.workers.set i Pc.finished }
    else some { p with workers := p.workers.set i Pc.entered }
  | some Pc.entered =>
    match p.mutex with
    | some _ => none
    | none => some { p with mutex := some i, workers := p.workers.set i Pc.locked }
  | some Pc.locked =>
    match popLargest p.tasks with
    | none => some { p with mutex := none, workers := p.workers.set i Pc.loopHead }
    | some (task, rest) =>
      some { p with tasks := rest, workers := p.workers.set i (Pc.popped task) }
  | some (Pc.popped task) =>
    some { p with mutex := none, workers := p.workers.set i (Pc.taken task) }
  | some (Pc.taken task) =>
    if task.pinfo.size < 512 then
      some { p with numActiveTasks := p.numActiveTasks - 1
                    workers := p.workers.set i (Pc.recursing task) }
    else some { p with workers := p.workers.set i (Pc.processing task) }
  | some (Pc.recursing _) => some { p with workers := p.workers.set i Pc.loopHead }
  | some (Pc.processing _) => some { p with workers := p.workers.set i (Pc.processed ctasks) }
  | some (Pc.processed cs) =>
    match p.mutex with
    | some _ => none
    | none => some { p with mutex := some i, workers := p.workers.set i (Pc.pushing cs) }
  | some (Pc.pushing []) =>
    some { p with numActiveTasks := p.numActiveTasks - 1
                  workers := p.workers.set i Pc.decremented }
  | some (Pc.pushing (c :: cs)) =>
    some { p with numActiveTasks := p.numActiveTasks + 1
                  workers := p.workers.set i (Pc.counted c cs) }
  | some (Pc.counted c cs) =>
    some { p with tasks := p.tasks ++ [c], workers := p.workers.set i (Pc.pushing cs) }
  | some Pc.decremented =>
    some { p with mutex := none, workers := p.workers.set i Pc.loopHead }
  | some Pc.finished => none

/-- A run of the workers under a schedule: the list of the workers that move, in
order, each with the child tasks that its `processTask` returns if it is in
`processTask`. A move of a worker that cannot move is skipped. -/
def Pool.run (p : Pool Ref Box Space) :
    List (Nat × List (BuildTask Ref Box Space)) → Pool Ref Box Space
  | [] => p
  | (i, ctasks) :: schedule =>
    match p.step i ctasks with
    | none => p.run schedule
    | some p' => p'.run schedule

/-- The number of tasks that `numActiveTasks` counts for a worker at a point,
besides the queued ones: the task it has taken, until the counter is
decremented for it, and the child it has counted and not yet pushed. -/
def Pc.weight : Pc Ref Box Space → Int
  | Pc.popped _ => 1
  | Pc.taken _ => 1
  | Pc.processing _ => 1
  | Pc.processed _ => 1
  | Pc.pushing _ => 1
  | Pc.counted _ _ => 2
  | _ => 0

/-- Whether a worker at a point holds a task that it has taken and not finished
with. -/
def Pc.busy : Pc Ref Box Space → Bool
  | Pc.popped _ => true
  | Pc.taken _ => true
  | Pc.recursing _ => true
  | Pc.processing _ => true
  | Pc.processed _ => true
  | Pc.pushing _ => true
  | Pc.counted _ _ => true
  | _ => false

/-- The counter counts the queued tasks and what the workers hold. -/
def Pool.balanced (p : Pool Ref Box Space) : Prop :=
  p.numActiveTasks = p.tasks.length + (p.workers.map Pc.weight).sum

/-- Whether a worker at a point is in `recurseTask`. -/
def Pc.isRecursing : Pc Ref Box Space → Bool
  | Pc.recursing _ => true
  | _ => false

end PoolDefs

/-! ## Lemmas on the build-mode parser -/

theorem parseMode_token (t : Token) (rest : List Char) (b : BVH4HairBuilder2) :
    BVH4HairBuilder2.parseMode (t.chars ++ rest) b
      = BVH4HairBuilder2.parseMode rest (t.apply b) := by
  cases t <;> simp [Token.chars, Token.apply, BVH4HairBuilder2.parseMode]

theorem parseMode_tokens (ts : List Token) (b : BVH4HairBuilder2) :
    BVH4HairBuilder2.parseMode (ts.flatMap Token.chars) b = .ok (ts.foldl Token.apply b) := by
  induction ts generalizing b with
  | nil => simp [BVH4HairBuilder2.parseMode]
  | cons t ts ih => simp [List.flatMap_cons, parseMode_token, ih]

theorem parseMode_ok_tokens (s : List Char) (b b' : BVH4HairBuilder2)
    (h : BVH4HairBuilder2.parseMode s b = .ok b') : ∃ ts : List Token, s = ts.flatMap Token.chars := by
  induction s, b using BVH4HairBuilder2.parseMode.induct with
  | case1 b => exact ⟨[], rfl⟩
  | case2 b rest ih =>
    simp only [BVH4HairBuilder2.parseMode] at h
    obtain ⟨ts, hts⟩ := ih h
    exact ⟨Token.P0 :: ts, by simp [Token.chars, hts]⟩
  | case3 b rest ih =>
    simp only [BVH4HairBuilder2.parseMode] at h
    obtain ⟨ts, hts⟩ := ih h
    exact ⟨Token.P1 :: ts, by simp [Token.chars, hts]⟩
  | case4 b rest ih =>
    simp only [BVH4HairBuilder2.parseMode] at h
    obtain ⟨ts, hts⟩ := ih h
    exact ⟨Token.P2 :: ts, by simp [Token.chars, hts]⟩
  | case5 b rest ih =>
    simp only [BVH4HairBuilder2.parseMode] at h
    obtain ⟨ts, hts⟩ := ih h
    exact ⟨Token.P3 :: ts, by simp [Token.chars, hts]⟩
  | case6 b rest ih =>
    simp only [BVH4HairBuilder2.parseMode] at h
    obtain ⟨ts, hts⟩ := ih h
    exact ⟨Token.P4 :: ts, by simp [Token.chars, hts]⟩
  | case7 b rest ih =>
    simp only [BVH4HairBuilder2.parseMode] at h
    obtain ⟨ts, hts⟩ := ih h
    exact ⟨Token.aO :: ts, by simp [Token.chars, hts]⟩
  | case8 b rest ih =>
    simp only [BVH4HairBuilder2.parseMode] at h
    obtain ⟨ts, hts⟩ := ih h
    exact ⟨Token.uO :: ts, by simp [Token.chars, hts]⟩
  | case9 b rest ih =>
    simp only [BVH4HairBuilder2.parseMode] at h
    obtain ⟨ts, hts⟩ := ih h
    exact ⟨Token.auO :: ts, by simp [Token.chars, hts]⟩
  | case10 b rest ih =>
    simp only [BVH4HairBuilder2.parseMode] at h
    obtain ⟨ts, hts⟩ := ih h
    exact ⟨Token.uST :: ts, by simp [Token.chars, hts]⟩
  | case11 b rest ih =>
    simp only [BVH4HairBuilder2.parseMode] at h
    obtain ⟨ts, hts⟩ := ih h
    exact ⟨Token.aSP :: ts, by simp [Token.chars, hts]⟩
  | case12 s b h1 h2 h3 h4 h5 h6 h7 h8 h9 h10 h11 =>
    rw [BVH4HairBuilder2.parseMode.eq_12 s b h1 h2 h3 h4 h5 h6 h7 h8 h9 h10 h11] at h
    cases h

theorem parseMode_error_msg (s : List Char) (b : BVH4HairBuilder2) (e : String)
    (h : BVH4HairBuilder2.parseMode s b = .error e) : e = "invalid hair accel mode" := by
  induction s, b using BVH4HairBuilder2.parseMode.induct with
  | case12 s b h1 h2 h3 h4 h5 h6 h7 h8 h9 h10 h11 =>
    rw [BVH4HairBuilder2.parseMode.eq_12 s b h1 h2 h3 h4 h5 h6 h7 h8 h9 h10 h11] at h
    cases h
    rfl
  | case1 b => simp [BVH4HairBuilder2.parseMode] at h
  | _ b rest ih =>
    simp only [BVH4HairBuilder2.parseMode] at h
    exact ih h

theorem foldl_apply_alignedObject (ts : List Token) (b : BVH4HairBuilder2) :
    (ts.foldl Token.apply b).enableAlignedObjectSplits
      = (b.enableAlignedObjectSplits || decide (Token.aO ∈ ts ∨ Token.auO ∈ ts)) := by
  induction ts generalizing b with
  | nil => simp
  | cons t ts ih => cases t <;> cases hb : b.enableAlignedObjectSplits <;> simp [ih, Token.apply, hb]

theorem foldl_apply_unalignedObject (ts : List Token) (b : BVH4HairBuilder2) :
    (ts.foldl Token.apply b).enableUnalignedObjectSplits
      = (b.enableUnalignedObjectSplits || decide (Token.uO ∈ ts ∨ Token.auO ∈ ts)) := by
  induction ts generalizing b with
  | nil => simp
  | cons t ts ih =>
    cases t <;> cases hb : b.enableUnalignedObjectSplits <;> simp [ih, Token.apply, hb]

theorem foldl_apply_strand (ts : List Token) (b : BVH4HairBuilder2) :
    (ts.foldl Token.apply b).enableStrandSplits
      = (b.enableStrandSplits || decide (Token.uST ∈ ts)) := by
  induction ts generalizing b with
  | nil => simp
  | cons t ts ih => cases t <;> cases hb : b.enableStrandSplits <;> simp [ih, Token.apply, hb]

theorem foldl_apply_alignedSpatial (ts : List Token) (b : BVH4HairBuilder2) :
    (ts.foldl Token.apply b).enableAlignedSpatialSplits
      = (b.enableAlignedSpatialSplits || decide (Token.aSP ∈ ts)) := by
  induction ts generalizing b with
  | nil => simp
  | cons t ts ih =>
    cases t <;> cases hb : b.enableAlignedSpatialSplits <;> simp [ih, Token.apply, hb]

theorem foldl_apply_preSubdivision (ts : List Token) (b : BVH4HairBuilder2) :
    (ts.foldl Token.apply b).enablePreSubdivision
      = ((ts.reverse.filterMap Token.digit?).head?).getD b.enablePreSubdivision := by
  induction ts generalizing b with
  | nil => simp
  | cons t ts ih =>
    rw [List.foldl_cons, ih, List.reverse_cons, List.filterMap_append]
    cases hts : List.filterMap Token.digit? ts.reverse with
    | nil => cases t <;> simp [Token.apply, Token.digit?]
    | cons d ds => simp

theorem foldl_apply_fixed (ts : List Token) (b : BVH4HairBuilder2) :
    (ts.foldl Token.apply b).minLeafSize = b.minLeafSize ∧
    (ts.foldl Token.apply b).maxLeafSize = b.maxLeafSize ∧
    (ts.foldl Token.apply b).remainingReplications = b.remainingReplications := by
  induction ts generalizing b with
  | nil => simp
  | cons t ts ih => cases t <;> simp [ih, Token.apply]

/-! ## Lemmas on float comparisons -/

theorem Flt.min_inf_left (a : Flt) : Flt.min Flt.inf a = a := by
  cases a <;> rfl

theorem Flt.min_inf_right (a : Flt) (ha : a.isNaN = false) : Flt.min a Flt.inf = a := by
  cases a <;> simp_all [Flt.min, Flt.inf, Flt.lt, Flt.isNaN]

theorem Flt.min_isNaN (a b : Flt) (ha : a.isNaN = false) (hb : b.isNaN = false) :
    (Flt.min a b).isNaN = false := by
  unfold Flt.min
  split <;> assumption

theorem Flt.min_le_left (a b : Flt) (ha : a.isNaN = false) (hb : b.isNaN = false) :
    Flt.le (Flt.min a b) a = true := by
  cases a <;> cases b <;> simp_all [Flt.min, Flt.le, Flt.lt, Flt.eq, Flt.isNaN]
  rename_i x y
  by_cases h : x < y
  · simp [h, Flt.lt, Flt.eq]
  · simp [h, Flt.lt, Flt.eq]; omega

theorem Flt.min_le_right (a b : Flt) (ha : a.isNaN = false) (hb : b.isNaN = false) :
    Flt.le (Flt.min a b) b = true := by
  cases a <;> cases b <;> simp_all [Flt.min, Flt.le, Flt.lt, Flt.eq, Flt.isNaN]
  rename_i x y
  by_cases h : x < y
  · simp [h, Flt.lt, Flt.eq]
  · simp [h, Flt.lt, Flt.eq]

theorem Flt.min_eq_or (a b : Flt) : Flt.min a b = a ∨ Flt.min a b = b := by
  unfold Flt.min
  split
  · exact Or.inl rfl
  · exact Or.inr rfl

theorem Flt.le_trans (a b c : Flt) (h1 : Flt.le a b = true) (h2 : Flt.le b c = true) :
    Flt.le a c = true := by
  cases a <;> cases b <;> cases c <;> simp_all [Flt.le, Flt.lt, Flt.eq]
  omega

theorem Flt.eq_true_iff (a b : Flt) : Flt.eq a b = true ↔ a = b ∧ a.isNaN = false := by
  cases a <;> cases b <;> simp [Flt.eq, Flt.isNaN]

theorem Flt.inf_le (a : Flt) (h : Flt.le Flt.inf a = true) : a = Flt.inf := by
  cases a <;> simp_all [Flt.le, Flt.lt, Flt.eq, Flt.inf]

theorem Flt.le_inf (a : Flt) (ha : a.isNaN = false) : Flt.le a Flt.inf = true := by
  cases a <;> simp_all [Flt.le, Flt.lt, Flt.eq, Flt.inf, Flt.isNaN]

theorem Flt.le_antisymm (a b : Flt) (h1 : Flt.le a b = true) (h2 : Flt.le b a = true) :
    a = b := by
  cases a <;> cases b <;> simp_all [Flt.le, Flt.lt, Flt.eq]
  omega

theorem Flt.isNaN_of_le (a b : Flt) (h : Flt.le a b = true) :
    a.isNaN = false ∧ b.isNaN = false := by
  cases a <;> cases b <;> simp_all [Flt.le, Flt.lt, Flt.eq, Flt.isNaN]

theorem Flt.le_refl (a : Flt) (ha : a.isNaN = false) : Flt.le a a = true := by
  cases a <;> simp_all [Flt.le, Flt.lt, Flt.eq, Flt.isNaN]

/-! ## Lemmas on the split dispatcher -/

section SplitLemmas

variable {Ref Vec Box Space : Type}

theorem Flt.inf_isNaN : Flt.inf.isNaN = false := rfl

theorem splitCandidates_alignedObjectSAH (env : Env Ref Vec Box Space) (rem : Int)
    (prims : BezierRefList Ref) (bounds : NAABBox3fa Box Space) (pinfo : PrimInfo Box) :
    (splitCandidates env rem prims bounds pinfo).alignedObjectSAH
      = if computed env rem SplitKind.alignedObject
        then candidateCost env prims bounds pinfo SplitKind.alignedObject else Flt.inf := rfl

theorem splitCandidates_alignedSpatialSAH (env : Env Ref Vec Box Space) (rem : Int)
    (prims : BezierRefList Ref) (bounds : NAABBox3fa Box Space) (pinfo : PrimInfo Box) :
    (splitCandidates env rem prims bounds pinfo).alignedSpatialSAH
      = if computed env rem SplitKind.alignedSpatial
        then candidateCost env prims bounds pinfo SplitKind.alignedSpatial else Flt.inf := rfl

theorem splitCandidates_unalignedObjectSAH (env : Env Ref Vec Box Space) (rem : Int)
    (prims : BezierRefList Ref) (bounds : NAABBox3fa Box Space) (pinfo : PrimInfo Box) :
    (splitCandidates env rem prims bounds pinfo).unalignedObjectSAH
      = if computed env rem SplitKind.unalignedObject
        then candidateCost env prims bounds pinfo SplitKind.unalignedObject else Flt.inf := rfl

theorem splitCandidates_strandSAH (env : Env Ref Vec Box Space) (rem : Int)
    (prims : BezierRefList Ref) (bounds : NAABBox3fa Box Space) (pinfo : PrimInfo Box) :
    (splitCandidates env rem prims bounds pinfo).strandSAH
      = if computed env rem SplitKind.strand
        then candidateCost env prims bounds pinfo SplitKind.strand else Flt.inf := rfl

/-- The value of `bestSAH` as a nest of `min` over the four cost variables, when
no computed candidate is NaN. -/
theorem splitCandidates_bestSAH (env : Env Ref Vec Box Space) (rem : Int)
    (prims : BezierRefList Ref) (bounds : NAABBox3fa Box Space) (pinfo : PrimInfo Box)
    (hnan : ∀ k, computed env rem k = true →
      (candidateCost env prims bounds pinfo k).isNaN = false) :
    (splitCandidates env rem prims bounds pinfo).bestSAH
      = Flt.min (Flt.min (Flt.min (splitCandidates env rem prims bounds pinfo).alignedObjectSAH
          (splitCandidates env rem prims bounds pinfo).alignedSpatialSAH)
          (splitCandidates env rem prims bounds pinfo).unalignedObjectSAH)
          (splitCandidates env rem prims bounds pinfo).strandSAH := by
  have h1 := hnan SplitKind.alignedObject
  have h2 := hnan SplitKind.alignedSpatial
  have h3 := hnan SplitKind.unalignedObject
  have h4 := hnan SplitKind.strand
  simp only [computed, candidateCost] at h1 h2 h3 h4
  simp only [splitCandidates]
  by_cases e1 : env.cfg.enableAlignedObjectSplits = true <;>
  by_cases e2 : spatialEnabled env rem = true <;>
  by_cases e3 : env.cfg.enableUnalignedObjectSplits = true <;>
  by_cases e4 : env.cfg.enableStrandSplits = true <;>
  simp_all [Flt.min_inf_left, Flt.min_inf_right, Flt.min_isNaN, Flt.inf_isNaN]
  exact (Flt.min_inf_right _ (Flt.min_isNaN _ _ (Flt.min_isNaN _ _ h1 h2) h3)).symm

/-- Non-NaN candidates give non-NaN cost variables. -/
theorem splitCandidates_isNaN (env : Env Ref Vec Box Space) (rem : Int)
    (prims : BezierRefList Ref) (bounds : NAABBox3fa Box Space) (pinfo : PrimInfo Box)
    (hnan : ∀ k, computed env rem k = true →
      (candidateCost env prims bounds pinfo k).isNaN = false) :
    (splitCandidates env rem prims bounds pinfo).alignedObjectSAH.isNaN = false ∧
    (splitCandidates env rem prims bounds pinfo).alignedSpatialSAH.isNaN = false ∧
    (splitCandidates env rem prims bounds pinfo).unalignedObjectSAH.isNaN = false ∧
    (splitCandidates env rem prims bounds pinfo).strandSAH.isNaN = false := by
  refine ⟨?_, ?_, ?_, ?_⟩
  · rw [splitCandidates_alignedObjectSAH]; split
    · exact hnan _ ‹_›
    · rfl
  · rw [splitCandidates_alignedSpatialSAH]; split
    · exact hnan _ ‹_›
    · rfl
  · rw [splitCandidates_unalignedObjectSAH]; split
    · exact hnan _ ‹_›
    · rfl
  · rw [splitCandidates_strandSAH]; split
    · exact hnan _ ‹_›
    · rfl

/-- The minimum of four non-NaN values is one of them and below each. -/
theorem Flt.min4 (a b c d : Flt) (ha : a.isNaN = false) (hb : b.isNaN = false)
    (hc : c.isNaN = false) (hd : d.isNaN = false) :
    (Flt.min (Flt.min (Flt.min a b) c) d).isNaN = false ∧
    Flt.le (Flt.min (Flt.min (Flt.min a b) c) d) a = true ∧
    Flt.le (Flt.min (Flt.min (Flt.min a b) c) d) b = true ∧
    Flt.le (Flt.min (Flt.min (Flt.min a b) c) d) c = true ∧
    Flt.le (Flt.min (Flt.min (Flt.min a b) c) d) d = true ∧
    (Flt.min (Flt.min (Flt.min a b) c) d = a ∨ Flt.min (Flt.min (Flt.min a b) c) d = b ∨
      Flt.min (Flt.min (Flt.min a b) c) d = c ∨ Flt.min (Flt.min (Flt.min a b) c) d = d) := by
  have hab := Flt.min_isNaN a b ha hb
  have habc := Flt.min_isNaN _ c hab hc
  have habcd := Flt.min_isNaN _ d habc hd
  have l3 := Flt.min_le_left _ d habc hd
  have l2 := Flt.min_le_left _ c hab hc
  refine ⟨habcd, ?_, ?_, ?_, Flt.min_le_right _ d habc hd, ?_⟩
  · exact Flt.le_trans _ _ _ l3 (Flt.le_trans _ _ _ l2 (Flt.min_le_left a b ha hb))
  · exact Flt.le_trans _ _ _ l3 (Flt.le_trans _ _ _ l2 (Flt.min_le_right a b ha hb))
  · exact Flt.le_trans _ _ _ l3 (Flt.min_le_right _ c hab hc)
  · rcases Flt.min_eq_or (Flt.min (Flt.min a b) c) d with h | h
    · rcases Flt.min_eq_or (Flt.min a b) c with h' | h'
      · rcases Flt.min_eq_or a b with h'' | h''
        · left; rw [h, h', h'']
        · right; left; rw [h, h', h'']
      · right; right; left; rw [h, h']
    · right; right; right; exact h

theorem splitCandidates_cost (env : Env Ref Vec Box Space) (rem : Int)
    (prims : BezierRefList Ref) (bounds : NAABBox3fa Box Space) (pinfo : PrimInfo Box)
    (k : SplitKind) :
    (splitCandidates env rem prims bounds pinfo).cost k
      = if computed env rem k then candidateCost env prims bounds pinfo k else Flt.inf := by
  cases k
  · simp [Candidates.cost, computed]
  · exact splitCandidates_alignedObjectSAH env rem prims bounds pinfo
  · exact splitCandidates_alignedSpatialSAH env rem prims bounds pinfo
  · exact splitCandidates_unalignedObjectSAH env rem prims bounds pinfo
  · exact splitCandidates_strandSAH env rem prims bounds pinfo

/-- With no NaN candidate the `if` chain selects a kind whose cost variable
equals `bestSAH`, and `bestSAH` is below every cost variable. -/
theorem splitChoice_min (env : Env Ref Vec Box Space) (rem : Int)
    (prims : BezierRefList Ref) (bounds : NAABBox3fa Box Space) (pinfo : PrimInfo Box)
    (hnan : ∀ k, computed env rem k = true →
      (candidateCost env prims bounds pinfo k).isNaN = false) :
    ∃ k, splitChoice (splitCandidates env rem prims bounds pinfo) = some k ∧
      (splitCandidates env rem prims bounds pinfo).cost k
        = (splitCandidates env rem prims bounds pinfo).bestSAH ∧
      (k = SplitKind.fallback ↔ (splitCandidates env rem prims bounds pinfo).bestSAH = Flt.inf) ∧
      ∀ j, Flt.le ((splitCandidates env rem prims bounds pinfo).cost k)
        ((splitCandidates env rem prims bounds pinfo).cost j) = true := by
  obtain ⟨n1, n2, n3, n4⟩ := splitCandidates_isNaN env rem prims bounds pinfo hnan
  have hb := splitCandidates_bestSAH env rem prims bounds pinfo hnan
  generalize splitCandidates env rem prims bounds pinfo = c at *
  obtain ⟨nb, l1, l2, l3, l4, hor⟩ := Flt.min4 _ _ _ _ n1 n2 n3 n4
  rw [← hb] at nb l1 l2 l3 l4 hor
  have hle : ∀ j, Flt.le c.bestSAH (c.cost j) = true := by
    intro j
    cases j
    · exact Flt.le_inf _ nb
    · exact l1
    · exact l2
    · exact l3
    · exact l4
  unfold splitChoice
  by_cases t0 : Flt.eq c.bestSAH Flt.inf = true
  · refine ⟨SplitKind.fallback, by simp [t0], ?_, ?_, ?_⟩
    · exact ((Flt.eq_true_iff _ _).1 t0).1.symm
    · simp [((Flt.eq_true_iff _ _).1 t0).1]
    · intro j; simpa [Candidates.cost, ← ((Flt.eq_true_iff _ _).1 t0).1] using hle j
  · have hne : c.bestSAH ≠ Flt.inf := fun h => t0 ((Flt.eq_true_iff _ _).2 ⟨h, nb⟩)
    by_cases t1 : Flt.eq c.bestSAH c.alignedObjectSAH = true
    · have e := ((Flt.eq_true_iff _ _).1 t1).1
      refine ⟨SplitKind.alignedObject, by simp [t0, t1], e.symm, by simpa using hne, ?_⟩
      intro j; simpa [Candidates.cost, ← e] using hle j
    · by_cases t2 : Flt.eq c.bestSAH c.alignedSpatialSAH = true
      · have e := ((Flt.eq_true_iff _ _).1 t2).1
        refine ⟨SplitKind.alignedSpatial, by simp [t0, t1, t2], e.symm, by simpa using hne, ?_⟩
        intro j; simpa [Candidates.cost, ← e] using hle j
      · by_cases t3 : Flt.eq c.bestSAH c.unalignedObjectSAH = true
        · have e := ((Flt.eq_true_iff _ _).1 t3).1
          refine ⟨SplitKind.unalignedObject, by simp [t0, t1, t2, t3], e.symm,
            by simpa using hne, ?_⟩
          intro j; simpa [Candidates.cost, ← e] using hle j
        · by_cases t4 : Flt.eq c.bestSAH c.strandSAH = true
          · have e := ((Flt.eq_true_iff _ _).1 t4).1
            refine ⟨SplitKind.strand, by simp [t0, t1, t2, t3, t4], e.symm,
              by simpa using hne, ?_⟩
            intro j; simpa [Candidates.cost, ← e] using hle j
          · exfalso
            rcases hor with h | h | h | h
            · exact t1 ((Flt.eq_true_iff _ _).2 ⟨h, nb⟩)
            · exact t2 ((Flt.eq_true_iff _ _).2 ⟨h, nb⟩)
            · exact t3 ((Flt.eq_true_iff _ _).2 ⟨h, nb⟩)
            · exact t4 ((Flt.eq_true_iff _ _).2 ⟨h, nb⟩)

/-- The result of `split` when the `if` chain selects the kind `k`. -/
theorem split_of_choice (env : Env Ref Vec Box Space) (st : State Ref Box Space)
    (prims : BezierRefList Ref) (bounds : NAABBox3fa Box Space) (pinfo : PrimInfo Box)
    (isAligned : Bool) (k : SplitKind)
    (h : splitChoice (splitCandidates env st.remainingReplications prims bounds pinfo) = some k) :
    split env st prims bounds pinfo isAligned
      = (.ok (splitOutput env prims bounds pinfo k, isAligned && !k.isUnaligned),
          splitState env st prims bounds pinfo k) := by
  unfold split splitState
  simp only [h]
  cases k <;> simp [splitOutput, SplitKind.isUnaligned]

/-- The result of `split` when the `if` chain reaches its final `else`. -/
theorem split_of_none (env : Env Ref Vec Box Space) (st : State Ref Box Space)
    (prims : BezierRefList Ref) (bounds : NAABBox3fa Box Space) (pinfo : PrimInfo Box)
    (isAligned : Bool)
    (h : splitChoice (splitCandidates env st.remainingReplications prims bounds pinfo) = none) :
    split env st prims bounds pinfo isAligned
      = (.error (Err.runtime "bvh4hair_builder: internal error"),
          { st with history := findEvents env st.remainingReplications ++ st.history }) := by
  unfold split
  simp only [h]

/-- A kind selected by the `if` chain is the fallback or was computed: the cost
variable of a candidate that is not computed is `inf`, which `bestSAH` does not
equal once the fallback test has failed. -/
theorem splitChoice_computed (env : Env Ref Vec Box Space) (rem : Int)
    (prims : BezierRefList Ref) (bounds : NAABBox3fa Box Space) (pinfo : PrimInfo Box)
    (k : SplitKind) (h : splitChoice (splitCandidates env rem prims bounds pinfo) = some k) :
    k = SplitKind.fallback ∨ computed env rem k = true := by
  by_cases hf : k = SplitKind.fallback
  · exact Or.inl hf
  · right
    by_contra hc
    have hcost := splitCandidates_cost env rem prims bounds pinfo k
    simp only [hc] at hcost
    generalize splitCandidates env rem prims bounds pinfo = c at h hcost
    unfold splitChoice at h
    by_cases t0 : Flt.eq c.bestSAH Flt.inf = true
    · simp [t0] at h; exact hf h.symm
    · simp only [t0] at h
      have key : Flt.eq c.bestSAH (c.cost k) = false := by
        simpa [hcost] using t0
      cases k <;> simp_all [Candidates.cost] <;> (split_ifs at h <;> simp at h)

/-- The generic invariant rule of the split loop of `processTask`: a property of
(state, children, isAligned) kept by every applied split holds when the loop
ends, and a failing loop stops with the internal error of `split`. -/
theorem splitLoop_invariant (env : Env Ref Vec Box Space)
    (I : State Ref Box Space → List (Child Ref Box Space) → Bool → Prop)
    (E : State Ref Box Space → Prop)
    (hstep : ∀ st cs al i c k, I st cs al → findBestChild env cs = some (i, c) →
      splitChoice (splitCandidates env st.remainingReplications c.prims c.bounds c.pinfo) = some k →
      I (splitState env st c.prims c.bounds c.pinfo k)
        (splitChildren env cs i (splitOutput env c.prims c.bounds c.pinfo k))
        (al && !k.isUnaligned))
    (herr : ∀ st cs al i c, I st cs al → findBestChild env cs = some (i, c) →
      splitChoice (splitCandidates env st.remainingReplications c.prims c.bounds c.pinfo) = none →
      E { st with history := findEvents env st.remainingReplications ++ st.history })
    (slots : Nat) (st : State Ref Box Space) (cs : List (Child Ref Box Space)) (al : Bool)
    (h : I st cs al) :
    (∀ cs' al' st', splitLoop env slots st cs al = (.ok (cs', al'), st') → I st' cs' al') ∧
    (∀ e st', splitLoop env slots st cs al = (.error e, st') →
      E st' ∧ e = Err.runtime "bvh4hair_builder: internal error") := by
  induction slots generalizing st cs al with
  | zero =>
    constructor
    · intro cs' al' st' hr
      simp only [splitLoop, Prod.mk.injEq, Except.ok.injEq] at hr
      obtain ⟨⟨rfl, rfl⟩, rfl⟩ := hr
      exact h
    · intro e st' hr
      simp [splitLoop] at hr
  | succ slots ih =>
    cases hf : findBestChild env cs with
    | none =>
      constructor
      · intro cs' al' st' hr
        simp only [splitLoop, hf, Prod.mk.injEq, Except.ok.injEq] at hr
        obtain ⟨⟨rfl, rfl⟩, rfl⟩ := hr
        exact h
      · intro e st' hr
        simp [splitLoop, hf] at hr
    | some ic =>
      obtain ⟨i, c⟩ := ic
      cases hc : splitChoice (splitCandidates env st.remainingReplications c.prims c.bounds c.pinfo) with
      | none =>
        have hs := split_of_none env st c.prims c.bounds c.pinfo al hc
        constructor
        · intro cs' al' st' hr
          simp [splitLoop, hf, hs] at hr
        · intro e st' hr
          simp only [splitLoop, hf, hs, Prod.mk.injEq, Except.error.injEq] at hr
          obtain ⟨rfl, rfl⟩ := hr
          exact ⟨herr st cs al i c h hf hc, rfl⟩
      | some k =>
        have hs := split_of_choice env st c.prims c.bounds c.pinfo al k hc
        have h' := hstep st cs al i c k h hf hc
        have := ih _ _ _ h'
        simp only [splitLoop, hf, hs]
        exact this

end SplitLemmas

/-! ## Lemmas on the node builder -/

section NodeLemmas

variable {Ref Vec Box Space : Type}

theorem processTask_leaf (env : Env Ref Vec Box Space) (st : State Ref Box Space)
    (task : BuildTask Ref Box Space) (h : enforcedLeaf env task) :
    processTask env st task
      = match (leaf env task.prims).1 with
        | .error e => (.error e, st)
        | .ok ref =>
          (.ok [], { st with writes := { dst := task.dst, depth := task.depth, ref := ref } :: st.writes }) := by
  unfold processTask
  simp only [h, if_true]
  rcases hl : leaf env task.prims with ⟨r, p⟩
  cases r <;> rfl

theorem processTask_node (env : Env Ref Vec Box Space) (st st1 : State Ref Box Space)
    (task : BuildTask Ref Box Space) (h : ¬ enforcedLeaf env task)
    (cs : List (Child Ref Box Space)) (al : Bool)
    (hl : splitLoop env (BVH4Hair.N - 1) st (initialChildren task) true = (.ok (cs, al), st1)) :
    processTask env st task
      = (.ok (nodeTasks env task cs al),
          { st1 with writes :=
              { dst := task.dst, depth := task.depth, ref := nodeRef cs al } :: st1.writes }) := by
  unfold processTask
  simp only [h, if_false, hl]
  cases al <;> simp [nodeTasks, nodeRef]

theorem processTask_node_error (env : Env Ref Vec Box Space) (st st1 : State Ref Box Space)
    (task : BuildTask Ref Box Space) (h : ¬ enforcedLeaf env task) (e : Err)
    (hl : splitLoop env (BVH4Hair.N - 1) st (initialChildren task) true = (.error e, st1)) :
    processTask env st task = (.error e, st1) := by
  unfold processTask
  simp only [h, if_false, hl]

/-- The three ways `processTask` runs: an enforced leaf, a split loop that ends
and a node, or a split loop that fails. -/
theorem processTask_cases (env : Env Ref Vec Box Space) (st : State Ref Box Space)
    (task : BuildTask Ref Box Space) :
    (enforcedLeaf env task ∧
      ((∃ e, (leaf env task.prims).1 = .error e ∧ processTask env st task = (.error e, st)) ∨
       (∃ ref, (leaf env task.prims).1 = .ok ref ∧
        processTask env st task
          = (.ok [], { st with writes :=
              { dst := task.dst, depth := task.depth, ref := ref } :: st.writes })))) ∨
    (¬ enforcedLeaf env task ∧ ∃ cs al st1,
      splitLoop env (BVH4Hair.N - 1) st (initialChildren task) true = (.ok (cs, al), st1) ∧
      processTask env st task
        = (.ok (nodeTasks env task cs al),
            { st1 with writes :=
                { dst := task.dst, depth := task.depth, ref := nodeRef cs al } :: st1.writes })) ∨
    (¬ enforcedLeaf env task ∧ ∃ e st1,
      splitLoop env (BVH4Hair.N - 1) st (initialChildren task) true = (.error e, st1) ∧
      processTask env st task = (.error e, st1)) := by
  by_cases h : enforcedLeaf env task
  · left
    refine ⟨h, ?_⟩
    have hp := processTask_leaf env st task h
    cases hl : (leaf env task.prims).1 with
    | error e => left; exact ⟨e, rfl, by rw [hp, hl]⟩
    | ok ref => right; exact ⟨ref, rfl, by rw [hp, hl]⟩
  · right
    rcases hl : splitLoop env (BVH4Hair.N - 1) st (initialChildren task) true with ⟨r, st1⟩
    cases r with
    | error e => right; exact ⟨h, e, st1, rfl, processTask_node_error env st st1 task h e hl⟩
    | ok v =>
      obtain ⟨cs, al⟩ := v
      left
      exact ⟨h, cs, al, st1, rfl, processTask_node env st st1 task h cs al hl⟩

/-- A leaf returned by `leaf` holds the first `min N maxLeafBlocks` references of
the list in iteration order. -/
theorem leaf_ok (env : Env Ref Vec Box Space) (prims : BezierRefList Ref)
    (ref : NodeRef Ref Box Space) (h : (leaf env prims).1 = .ok ref) :
    ∃ indexed, ref = NodeRef.leaf indexed (prims.iter.take (min prims.size env.maxLeafBlocks)) := by
  have hN : (if prims.size > env.maxLeafBlocks then env.maxLeafBlocks else prims.size)
      = min prims.size env.maxLeafBlocks := by
    split <;> omega
  unfold leaf at h
  simp only [hN] at h
  cases hty : env.primTy with
  | bezier1 =>
    simp only [hty] at h
    split at h
    · simp at h
    · simp only [Except.ok.injEq] at h
      exact ⟨false, h.symm⟩
  | bezier1i =>
    simp only [hty, Except.ok.injEq] at h
    exact ⟨true, h.symm⟩
  | other => simp [hty] at h

theorem splitChildren_length (env : Env Ref Vec Box Space) (cs : List (Child Ref Box Space))
    (i : Nat) (o : SplitOut Ref Box) : (splitChildren env cs i o).length = cs.length + 1 := by
  simp [splitChildren]

theorem splitState_writes (env : Env Ref Vec Box Space) (st : State Ref Box Space)
    (prims : BezierRefList Ref) (bounds : NAABBox3fa Box Space) (pinfo : PrimInfo Box)
    (k : SplitKind) : (splitState env st prims bounds pinfo k).writes = st.writes := rfl

theorem apply_not_mem_findEvents (env : Env Ref Vec Box Space) (rem : Int) (k : SplitKind) :
    Event.apply k ∉ findEvents env rem := by
  unfold findEvents
  intro h
  simp only [List.mem_append] at h
  rcases h with ((h | h) | h) | h <;> (split at h <;> simp at h)

theorem nodeRef_isUnalignedNode (cs : List (Child Ref Box Space)) (al : Bool) :
    (nodeRef cs al).isUnalignedNode = !al := by
  cases al <;> rfl

theorem nodeRef_isAlignedNode (cs : List (Child Ref Box Space)) (al : Bool) :
    (nodeRef cs al).isAlignedNode = al := by
  cases al <;> rfl

theorem nodeRef_isLeaf (cs : List (Child Ref Box Space)) (al : Bool) :
    (nodeRef cs al).isLeaf = false := by
  cases al <;> rfl

/-- A property of the state kept by every applied split, by the failing
dispatcher and by a store is kept by `processTask`. -/
theorem processTask_preserves (env : Env Ref Vec Box Space) (J : State Ref Box Space → Prop)
    (hsplit : ∀ st prims bounds pinfo k, J st →
      splitChoice (splitCandidates env st.remainingReplications prims bounds pinfo) = some k →
      J (splitState env st prims bounds pinfo k))
    (herr : ∀ st prims bounds pinfo, J st →
      splitChoice (splitCandidates env st.remainingReplications prims bounds pinfo) = none →
      J { st with history := findEvents env st.remainingReplications ++ st.history })
    (hwrite : ∀ st w, J st → J { st with writes := w :: st.writes })
    (st : State Ref Box Space) (task : BuildTask Ref Box Space) (h : J st) :
    J (processTask env st task).2 := by
  have inv := splitLoop_invariant env (fun s _ _ => J s) J
    (fun s _ _ _ c k hs _ hc => hsplit s c.prims c.bounds c.pinfo k hs hc)
    (fun s _ _ _ c hs _ hc => herr s c.prims c.bounds c.pinfo hs hc)
    (BVH4Hair.N - 1) st (initialChildren task) true h
  rcases processTask_cases env st task with ⟨_, ⟨e, _, hp⟩ | ⟨ref, _, hp⟩⟩ |
    ⟨_, cs, al, st1, hloop, hp⟩ | ⟨_, e, st1, hloop, hp⟩
  · rw [hp]; exact h
  · rw [hp]; exact hwrite st _ h
  · rw [hp]; exact hwrite st1 _ (inv.1 cs al st1 hloop)
  · rw [hp]; exact (inv.2 e st1 hloop).1

/-- The loop of `recurseTask` over the child tasks keeps what each call keeps. -/
theorem foldl_tasks_preserves (f : State Ref Box Space → BuildTask Ref Box Space →
      Except Err Unit × State Ref Box Space) (J : State Ref Box Space → Prop)
    (hf : ∀ s t, J s → J (f s t).2)
    (tasks : List (BuildTask Ref Box Space)) (r : Except Err Unit × State Ref Box Space)
    (h : J r.2) :
    J (tasks.foldl
      (fun (r : Except Err Unit × State Ref Box Space) t =>
        match r with
        | (.error e, st) => (.error e, st)
        | (.ok _, st) => f st t) r).2 := by
  induction tasks generalizing r with
  | nil => exact h
  | cons t ts ih =>
    rw [List.foldl_cons]
    apply ih
    obtain ⟨r1, s1⟩ := r
    cases r1 with
    | error e => exact h
    | ok u => exact hf s1 t h

/-- A property of the state kept by `processTask` is kept by `recurseTask`. -/
theorem recurseTask_preserves (env : Env Ref Vec Box Space) (J : State Ref Box Space → Prop)
    (hproc : ∀ st task, J st → J (processTask env st task).2)
    (fuel : Nat) (st : State Ref Box Space) (task : BuildTask Ref Box Space) (h : J st) :
    J (recurseTask env fuel st task).2 := by
  induction fuel generalizing st task with
  | zero => exact h
  | succ fuel ih =>
    have hp := hproc st task h
    unfold recurseTask
    rcases hr : processTask env st task with ⟨r, st1⟩
    rw [hr] at hp
    cases r with
    | error e => exact hp
    | ok tasks =>
      exact foldl_tasks_preserves (recurseTask env fuel) J (fun s t hs => ih s t hs) tasks _ hp

/-- A property of the state kept by `processTask` is kept by the task loop. -/
theorem task_build_parallel_preserves (env : Env Ref Vec Box Space)
    (J : State Ref Box Space → Prop)
    (hproc : ∀ st task, J st → J (processTask env st task).2)
    (recFuel fuel : Nat) (w : Worker Ref Box Space) (h : J w.st) :
    J (task_build_parallel env recFuel fuel w).2.st := by
  induction fuel generalizing w with
  | zero => exact h
  | succ fuel ih =>
    unfold task_build_parallel
    split
    · exact h
    · split
      · exact ih w h
      · rename_i task tasks _
        split
        · have hr := recurseTask_preserves env J hproc recFuel w.st task h
          rcases hrr : recurseTask env recFuel w.st task with ⟨r, st1⟩
          rw [hrr] at hr
          cases r with
          | error e => exact hr
          | ok u => exact ih _ hr
        · have hp := hproc w.st task h
          rcases hrr : processTask env w.st task with ⟨r, st1⟩
          rw [hrr] at hp
          cases r with
          | error e => exact hp
          | ok ctasks => exact ih _ hp

/-- With the counter at 0 (or below) the spatial candidate is not computed. -/
theorem computed_spatial_of_nonpos (env : Env Ref Vec Box Space) (rem : Int) (h : rem ≤ 0) :
    computed env rem SplitKind.alignedSpatial = false := by
  have : ¬ (rem > 0) := by omega
  simp [computed, spatialEnabled, this]

/-- A state with the counter at 0 and no spatial event stays so under
`processTask`. -/
theorem processTask_noSpatial (env : Env Ref Vec Box Space)
    (st : State Ref Box Space) (task : BuildTask Ref Box Space)
    (h : st.remainingReplications = 0 ∧ noSpatial st) :
    (processTask env st task).2.remainingReplications = 0 ∧
      noSpatial (processTask env st task).2 := by
  have hfind : ∀ e ∈ findEvents env 0,
      e ≠ Event.find SplitKind.alignedSpatial ∧ e ≠ Event.apply SplitKind.alignedSpatial := by
    intro e he
    unfold findEvents at he
    have hs : spatialEnabled env 0 = false := by simp [spatialEnabled]
    simp only [hs, List.mem_append] at he
    rcases he with ((he | he) | he) | he
    · split at he <;> simp at he; subst he; simp
    · split at he <;> simp at he; subst he; simp
    · simp at he
    · split at he <;> simp at he; subst he; simp
  refine processTask_preserves env
    (fun s => s.remainingReplications = 0 ∧ noSpatial s) ?_ ?_ ?_ st task h
  · intro s prims bounds pinfo k ⟨hr, hn⟩ hc
    have hk : k ≠ SplitKind.alignedSpatial := by
      rintro rfl
      rcases splitChoice_computed env _ prims bounds pinfo _ hc with hf | hcomp
      · cases hf
      · rw [computed_spatial_of_nonpos env _ (by omega)] at hcomp
        cases hcomp
    refine ⟨by simp [splitState, hk, hr], ?_⟩
    intro e he
    simp only [splitState, List.mem_cons, List.mem_append] at he
    rcases he with rfl | he | he
    · simp [hk]
    · rw [hr] at he; exact hfind e he
    · exact hn e he
  · intro s prims bounds pinfo ⟨hr, hn⟩ _
    refine ⟨hr, ?_⟩
    intro e he
    simp only [List.mem_append] at he
    rcases he with he | he
    · rw [hr] at he; exact hfind e he
    · exact hn e he
  · intro s w hs
    exact hs

/-- The loop of `recurseTask` over child tasks that satisfy `T`: an invariant `J`
of the state is kept, and a potential `Ψ` of the state grows by at most the
sum of the measures `μ` of the tasks. -/
theorem foldl_tasks_bound (f : State Ref Box Space → BuildTask Ref Box Space →
      Except Err Unit × State Ref Box Space) (J : State Ref Box Space → Prop)
    (T : BuildTask Ref Box Space → Prop) (Ψ : State Ref Box Space → Int)
    (μ : BuildTask Ref Box Space → Int) (hμ : ∀ t, T t → 0 ≤ μ t)
    (hf : ∀ s t, J s → T t → J (f s t).2 ∧ Ψ (f s t).2 ≤ Ψ s + μ t)
    (tasks : List (BuildTask Ref Box Space)) (hT : ∀ t ∈ tasks, T t)
    (r : Except Err Unit × State Ref Box Space) (h : J r.2) :
    J (tasks.foldl
      (fun (r : Except Err Unit × State Ref Box Space) t =>
        match r with
        | (.error e, st) => (.error e, st)
        | (.ok _, st) => f st t) r).2 ∧
    Ψ (tasks.foldl
      (fun (r : Except Err Unit × State Ref Box Space) t =>
        match r with
        | (.error e, st) => (.error e, st)
        | (.ok _, st) => f st t) r).2 ≤ Ψ r.2 + (tasks.map μ).sum := by
  induction tasks generalizing r with
  | nil => exact ⟨h, by simp⟩
  | cons t ts ih =>
    rw [List.foldl_cons]
    have hts : ∀ t ∈ ts, T t := fun t ht => hT t (List.mem_cons_of_mem _ ht)
    have hsum : 0 ≤ (ts.map μ).sum := by
      apply List.sum_nonneg
      intro x hx
      obtain ⟨t', ht', rfl⟩ := List.mem_map.1 hx
      exact hμ t' (hts t' ht')
    obtain ⟨r1, s1⟩ := r
    cases r1 with
    | error e =>
      obtain ⟨i1, i2⟩ := ih hts (.error e, s1) h
      refine ⟨i1, ?_⟩
      have := hμ t (hT t (List.mem_cons_self _ _))
      simp only [List.map_cons, List.sum_cons] at *
      omega
    | ok u =>
      obtain ⟨j1, j2⟩ := hf s1 t h (hT t (List.mem_cons_self _ _))
      obtain ⟨i1, i2⟩ := ih hts (f s1 t) j1
      refine ⟨i1, ?_⟩
      simp only [List.map_cons, List.sum_cons] at *
      omega

/-- The generic rule of `recurseTask`: an invariant `J` of the state and `T` of the
tasks kept by `processTask` is kept by the recursion, and a potential `Ψ` that
`processTask` trades against the measures `μ` of the child tasks grows by at
most the measure of the root task. -/
theorem recurseTask_bound (env : Env Ref Vec Box Space) (J : State Ref Box Space → Prop)
    (T : BuildTask Ref Box Space → Prop) (Ψ : State Ref Box Space → Int)
    (μ : BuildTask Ref Box Space → Int) (hμ : ∀ t, T t → 0 ≤ μ t)
    (hproc : ∀ st task, J st → T task →
      J (processTask env st task).2 ∧
      (∀ tasks, (processTask env st task).1 = .ok tasks →
        (∀ c ∈ tasks, T c) ∧
        Ψ (processTask env st task).2 + (tasks.map μ).sum ≤ Ψ st + μ task) ∧
      (∀ e, (processTask env st task).1 = .error e →
        Ψ (processTask env st task).2 ≤ Ψ st + μ task))
    (fuel : Nat) (st : State Ref Box Space) (task : BuildTask Ref Box Space)
    (h : J st) (hT : T task) :
    J (recurseTask env fuel st task).2 ∧
      Ψ (recurseTask env fuel st task).2 ≤ Ψ st + μ task := by
  induction fuel generalizing st task with
  | zero =>
    have := hμ task hT
    exact ⟨h, by simp only [recurseTask]; omega⟩
  | succ fuel ih =>
    obtain ⟨hJ, hok, herr⟩ := hproc st task h hT
    unfold recurseTask
    rcases hr : processTask env st task with ⟨r, st1⟩
    rw [hr] at hJ hok herr
    cases r with
    | error e => exact ⟨hJ, herr e rfl⟩
    | ok tasks =>
      obtain ⟨hTc, hΨ⟩ := hok tasks rfl
      obtain ⟨i1, i2⟩ := foldl_tasks_bound (recurseTask env fuel) J T Ψ μ hμ
        (fun s t hs ht => ih s t hs ht) tasks hTc (.ok (), st1) hJ
      exact ⟨i1, by simp only at i2 hΨ ⊢; omega⟩

/-- The split loop adds at most one child per free slot and removes none. -/
theorem splitLoop_length (env : Env Ref Vec Box Space) (slots : Nat)
    (st : State Ref Box Space) (cs : List (Child Ref Box Space)) (al : Bool)
    (cs' : List (Child Ref Box Space)) (al' : Bool) (st' : State Ref Box Space)
    (h : splitLoop env slots st cs al = (.ok (cs', al'), st')) :
    cs.length ≤ cs'.length ∧ cs'.length ≤ cs.length + slots := by
  induction slots generalizing st cs al with
  | zero =>
    simp only [splitLoop, Prod.mk.injEq, Except.ok.injEq] at h
    obtain ⟨⟨rfl, rfl⟩, rfl⟩ := h
    omega
  | succ slots ih =>
    cases hf : findBestChild env cs with
    | none =>
      simp only [splitLoop, hf, Prod.mk.injEq, Except.ok.injEq] at h
      obtain ⟨⟨rfl, rfl⟩, rfl⟩ := h
      omega
    | some ic =>
      obtain ⟨i, c⟩ := ic
      cases hc : splitChoice (splitCandidates env st.remainingReplications c.prims c.bounds c.pinfo) with
      | none =>
        simp [splitLoop, hf, split_of_none env st c.prims c.bounds c.pinfo al hc] at h
      | some k =>
        simp only [splitLoop, hf, split_of_choice env st c.prims c.bounds c.pinfo al k hc] at h
        have := ih _ _ _ h
        rw [splitChildren_length] at this
        omega

theorem initialPrimInfo_num (env : Env Ref Vec Box Space) (prims : BezierRefList Ref) :
    (initialPrimInfo env prims).num = prims.size := by
  unfold initialPrimInfo BezierRefList.size
  have : ∀ (l : List Ref) (p : PrimInfo Box),
      (l.foldl (fun pinfo i => PrimInfo.add env pinfo (env.bounds i) (env.center i)) p).num
        = p.num + l.length := by
    intro l
    induction l with
    | nil => intro p; simp
    | cons a l ih =>
      intro p
      rw [List.foldl_cons, ih]
      simp only [PrimInfo.add, List.length_cons]
      omega
  rw [this]
  simp

/-- With no NaN candidate the split loop does not fail. -/
theorem splitLoop_ok (env : Env Ref Vec Box Space)
    (hnan : ∀ rem prims bounds pinfo k, computed env rem k = true →
      (candidateCost env prims bounds pinfo k).isNaN = false)
    (slots : Nat) (st : State Ref Box Space) (cs : List (Child Ref Box Space)) (al : Bool) :
    ∃ cs' al' st', splitLoop env slots st cs al = (.ok (cs', al'), st') := by
  induction slots generalizing st cs al with
  | zero => exact ⟨cs, al, st, rfl⟩
  | succ slots ih =>
    cases hf : findBestChild env cs with
    | none => exact ⟨cs, al, st, by simp [splitLoop, hf]⟩
    | some ic =>
      obtain ⟨i, c⟩ := ic
      obtain ⟨k, hk, _⟩ := splitChoice_min env st.remainingReplications c.prims c.bounds c.pinfo
        (hnan st.remainingReplications c.prims c.bounds c.pinfo)
      obtain ⟨cs', al', st', h⟩ := ih (splitState env st c.prims c.bounds c.pinfo k)
        (splitChildren env cs i (splitOutput env c.prims c.bounds c.pinfo k))
        (al && !k.isUnaligned)
      exact ⟨cs', al', st', by
        simp only [splitLoop, hf, split_of_choice env st c.prims c.bounds c.pinfo al k hk]
        exact h⟩

theorem nodeTasks_length (env : Env Ref Vec Box Space) (task : BuildTask Ref Box Space)
    (cs : List (Child Ref Box Space)) (al : Bool) :
    (nodeTasks env task cs al).length = cs.length := by
  cases al <;> simp [nodeTasks, alignedTasks, unalignedTasks]

theorem findBestChild_mem (env : Env Ref Vec Box Space) (cs : List (Child Ref Box Space))
    (ic : Nat × Child Ref Box Space) (h : findBestChild env cs = some ic) : ic ∈ cs.enum := by
  unfold findBestChild at h
  have key : ∀ (l : List (Nat × Child Ref Box Space)) (b : BestChild Ref Box Space),
      (∀ x, b.bestChild = some x → x ∈ cs.enum) → (∀ x ∈ l, x ∈ cs.enum) →
      ∀ x, (l.foldl
        (fun (best : BestChild Ref Box Space) ic =>
          let A := env.halfArea ic.2.bounds.bounds
          if ic.2.pinfo.size ≤ env.cfg.minLeafSize then best
          else if Flt.lt best.bestArea A then { bestArea := A, bestChild := some ic }
          else best) b).bestChild = some x → x ∈ cs.enum := by
    intro l
    induction l with
    | nil => intro b hb _ x hx; exact hb x hx
    | cons y l ih =>
      intro b hb hl x hx
      rw [List.foldl_cons] at hx
      refine ih _ ?_ (fun z hz => hl z (List.mem_cons_of_mem _ hz)) x hx
      intro z hz
      simp only at hz
      split at hz
      · exact hb z hz
      · split at hz
        · simp only [Option.some.injEq] at hz
          rw [← hz]
          exact hl y (List.mem_cons_self _ _)
        · exact hb z hz
  exact key cs.enum _ (by intro x hx; simp at hx) (fun x hx => hx) ic h

theorem sum_map_set (f : Child Ref Box Space → Nat) (cs : List (Child Ref Box Space))
    (i : Nat) (c c' : Child Ref Box Space) (h : cs[i]? = some c) :
    ((cs.set i c').map f).sum + f c = (cs.map f).sum + f c' := by
  induction cs generalizing i with
  | nil => simp at h
  | cons a cs ih =>
    cases i with
    | zero =>
      simp only [List.getElem?_cons_zero, Option.some.injEq] at h
      subst h
      simp only [List.set_cons_zero, List.map_cons, List.sum_cons]
      omega
    | succ i =>
      simp only [List.getElem?_cons_succ] at h
      have := ih i h
      simp only [List.set_cons_succ, List.map_cons, List.sum_cons]
      omega

theorem nodeTasks_sizes (env : Env Ref Vec Box Space) (task : BuildTask Ref Box Space)
    (cs : List (Child Ref Box Space)) (al : Bool) :
    (nodeTasks env task cs al).map (fun t => ((t.prims.size : Nat) : Int))
      = cs.map (fun c => ((c.prims.size : Nat) : Int)) ∧
    (∀ t ∈ nodeTasks env task cs al, ∃ c ∈ cs, t.pinfo = c.pinfo ∧ t.prims = c.prims) := by
  have h1 : ∀ (g : Nat × Child Ref Box Space → BuildTask Ref Box Space),
      (∀ ic, (g ic).prims = ic.2.prims) →
      (cs.enum.map g).map (fun t => ((t.prims.size : Nat) : Int))
        = cs.map (fun c => ((c.prims.size : Nat) : Int)) := by
    intro g hg
    rw [List.map_map]
    have : ((fun t : BuildTask Ref Box Space => ((t.prims.size : Nat) : Int)) ∘ g)
        = (fun c : Child Ref Box Space => ((c.prims.size : Nat) : Int)) ∘ Prod.snd := by
      funext ic
      simp [hg ic]
    rw [this, ← List.map_map, List.enum_map_snd]
  constructor
  · cases al
    · exact h1 _ (fun _ => rfl)
    · exact h1 _ (fun _ => rfl)
  · intro t ht
    cases al
    · simp only [nodeTasks, unalignedTasks, Bool.false_eq_true, if_false, List.mem_map] at ht
      obtain ⟨ic, hic, rfl⟩ := ht
      exact ⟨ic.2, List.snd_mem_of_mem_enum hic, rfl, rfl⟩
    · simp only [nodeTasks, alignedTasks, if_true, List.mem_map] at ht
      obtain ⟨ic, hic, rfl⟩ := ht
      exact ⟨ic.2, List.snd_mem_of_mem_enum hic, rfl, rfl⟩

end NodeLemmas

/-! ## The split dispatcher applies the cheapest candidate -/

section Claims

variable {Ref Vec Box Space : Type}

/-- C1. For every node input and every combination of enabled split kinds, when
no computed candidate cost is NaN, `split` returns normally and applies one
kind `k`: the cost of `k` is less than or equal to the cost of every computed
candidate, a kind other than the fallback was computed, and the fallback is
applied exactly when every computed candidate costs `+inf`. -/
theorem split_applies_cheapest (env : Env Ref Vec Box Space) (st : State Ref Box Space)
    (prims : BezierRefList Ref) (bounds : NAABBox3fa Box Space) (pinfo : PrimInfo Box)
    (isAligned : Bool)
    (hnan : ∀ k, computed env st.remainingReplications k = true →
      (candidateCost env prims bounds pinfo k).isNaN = false) :
    ∃ k : SplitKind,
      (split env st prims bounds pinfo isAligned).1
        = .ok (splitOutput env prims bounds pinfo k, isAligned && !k.isUnaligned) ∧
      (split env st prims bounds pinfo isAligned).2
        = splitState env st prims bounds pinfo k ∧
      (∀ j, computed env st.remainingReplications j = true →
        Flt.le (candidateCost env prims bounds pinfo k) (candidateCost env prims bounds pinfo j)
          = true) ∧
      (k ≠ SplitKind.fallback → computed env st.remainingReplications k = true) ∧
      (k = SplitKind.fallback ↔
        ∀ j, computed env st.remainingReplications j = true →
          candidateCost env prims bounds pinfo j = Flt.inf) := by
  obtain ⟨k, hk, hcost, hfb, hle⟩ :=
    splitChoice_min env st.remainingReplications prims bounds pinfo hnan
  have hcomp : k ≠ SplitKind.fallback → computed env st.remainingReplications k = true := by
    intro hne
    by_contra hc
    have h1 := splitCandidates_cost env st.remainingReplications prims bounds pinfo k
    simp only [hc] at h1
    exact hne (hfb.2 (by rw [← hcost, h1]; rfl))
  have hkcost : (splitCandidates env st.remainingReplications prims bounds pinfo).cost k
      = candidateCost env prims bounds pinfo k := by
    by_cases hf : k = SplitKind.fallback
    · subst hf; rfl
    · rw [splitCandidates_cost, hcomp hf]; rfl
  refine ⟨k, ?_, ?_, ?_, hcomp, ?_⟩
  · rw [split_of_choice env st prims bounds pinfo isAligned k hk]
  · rw [split_of_choice env st prims bounds pinfo isAligned k hk]
  · intro j hj
    have := hle j
    rw [hkcost, splitCandidates_cost, hj] at this
    exact this
  · constructor
    · intro hf j hj
      have := hle j
      rw [hcost, hfb.1 hf, splitCandidates_cost, hj] at this
      exact Flt.inf_le _ this
    · intro hall
      by_contra hf
      have h1 := hall k (hcomp hf)
      rw [← hkcost, hcost] at h1
      exact hf (hfb.2 h1)

/-- A run of C1 with all four kinds enabled, two references and every candidate
at cost 4. -/
theorem split_applies_cheapest_witness :
    (∀ k, computed exampleEnvAll (exampleState 1).remainingReplications k = true →
      (candidateCost exampleEnvAll (exampleTask [1, 2]).prims (exampleTask [1, 2]).bounds
        (exampleTask [1, 2]).pinfo k).isNaN = false) ∧
    ∃ k : SplitKind,
      (split exampleEnvAll (exampleState 1) (exampleTask [1, 2]).prims
          (exampleTask [1, 2]).bounds (exampleTask [1, 2]).pinfo true).1
        = .ok (splitOutput exampleEnvAll (exampleTask [1, 2]).prims (exampleTask [1, 2]).bounds
            (exampleTask [1, 2]).pinfo k, true && !k.isUnaligned) ∧
      (split exampleEnvAll (exampleState 1) (exampleTask [1, 2]).prims
          (exampleTask [1, 2]).bounds (exampleTask [1, 2]).pinfo true).2
        = splitState exampleEnvAll (exampleState 1) (exampleTask [1, 2]).prims
            (exampleTask [1, 2]).bounds (exampleTask [1, 2]).pinfo k ∧
      (∀ j, computed exampleEnvAll (exampleState 1).remainingReplications j = true →
        Flt.le
          (candidateCost exampleEnvAll (exampleTask [1, 2]).prims (exampleTask [1, 2]).bounds
            (exampleTask [1, 2]).pinfo k)
          (candidateCost exampleEnvAll (exampleTask [1, 2]).prims (exampleTask [1, 2]).bounds
            (exampleTask [1, 2]).pinfo j) = true) ∧
      (k ≠ SplitKind.fallback →
        computed exampleEnvAll (exampleState 1).remainingReplications k = true) ∧
      (k = SplitKind.fallback ↔
        ∀ j, computed exampleEnvAll (exampleState 1).remainingReplications j = true →
          candidateCost exampleEnvAll (exampleTask [1, 2]).prims (exampleTask [1, 2]).bounds
            (exampleTask [1, 2]).pinfo j = Flt.inf) :=
  ⟨fun k _ => by cases k <;> rfl,
    split_applies_cheapest exampleEnvAll (exampleState 1) (exampleTask [1, 2]).prims
      (exampleTask [1, 2]).bounds (exampleTask [1, 2]).pinfo true
      (fun k _ => by cases k <;> rfl)⟩

/-- C2. For every build-mode string that is a concatenation of the tokens
`P0`..`P4`, `aO`, `uO`, `auO`, `uST`, `aSP`, the constructor succeeds and leaves:
the presubdivision depth equal to the digit of the last `P`-token (0 when there
is none), aligned object splits enabled iff `aO` or `auO` occurs, unaligned
object splits enabled iff `uO` or `auO` occurs, strand splits enabled iff `uST`
occurs, aligned spatial splits enabled iff `aSP` occurs; the empty string
leaves every split kind disabled and depth 0. -/
theorem constructor_tokens (maxLeafBlocks : Nat) (ts : List Token) :
    (∃ b, BVH4HairBuilder2.new maxLeafBlocks (Token.concat ts) = .ok b ∧
      b.enablePreSubdivision = Token.lastDigit ts ∧
      (b.enableAlignedObjectSplits = true ↔ Token.aO ∈ ts ∨ Token.auO ∈ ts) ∧
      (b.enableUnalignedObjectSplits = true ↔ Token.uO ∈ ts ∨ Token.auO ∈ ts) ∧
      (b.enableStrandSplits = true ↔ Token.uST ∈ ts) ∧
      (b.enableAlignedSpatialSplits = true ↔ Token.aSP ∈ ts) ∧
      b.minLeafSize = 1 ∧ b.remainingReplications = 0) ∧
    (∃ b, BVH4HairBuilder2.new maxLeafBlocks "" = .ok b ∧
      b.enablePreSubdivision = 0 ∧ b.enableAlignedObjectSplits = false ∧
      b.enableUnalignedObjectSplits = false ∧ b.enableStrandSplits = false ∧
      b.enableAlignedSpatialSplits = false) := by
  constructor
  · refine ⟨ts.foldl Token.apply (BVH4HairBuilder2.init maxLeafBlocks), ?_, ?_, ?_, ?_, ?_, ?_, ?_, ?_⟩
    · exact parseMode_tokens ts _
    · rw [foldl_apply_preSubdivision]; rfl
    · rw [foldl_apply_alignedObject]; simp [BVH4HairBuilder2.init]
    · rw [foldl_apply_unalignedObject]; simp [BVH4HairBuilder2.init]
    · rw [foldl_apply_strand]; simp [BVH4HairBuilder2.init]
    · rw [foldl_apply_alignedSpatial]; simp [BVH4HairBuilder2.init]
    · rw [(foldl_apply_fixed ts _).1]; rfl
    · rw [(foldl_apply_fixed ts _).2.2]; rfl
  · exact ⟨BVH4HairBuilder2.init maxLeafBlocks, rfl, rfl, rfl, rfl, rfl, rfl⟩

/-- C3. The constructor raises the error "invalid hair accel mode" if and only
if the build-mode string is not a concatenation of the tokens `P0`..`P4`, `aO`,
`uO`, `auO`, `uST`, `aSP`; it raises no other error. -/
theorem constructor_error_iff (maxLeafBlocks : Nat) (mode : String) :
    (BVH4HairBuilder2.new maxLeafBlocks mode = .error "invalid hair accel mode"
      ↔ ¬ ∃ ts : List Token, mode = Token.concat ts) ∧
    (∀ e, BVH4HairBuilder2.new maxLeafBlocks mode = .error e → e = "invalid hair accel mode") := by
  constructor
  · constructor
    · rintro h ⟨ts, rfl⟩
      have := parseMode_tokens ts (BVH4HairBuilder2.init maxLeafBlocks)
      unfold BVH4HairBuilder2.new Token.concat at h
      rw [this] at h
      cases h
    · intro h
      cases hr : BVH4HairBuilder2.new maxLeafBlocks mode with
      | error e =>
        rw [parseMode_error_msg mode.data _ e hr]
      | ok b =>
        exfalso
        obtain ⟨ts, hts⟩ := parseMode_ok_tokens mode.data _ b hr
        exact h ⟨ts, by cases mode; simp_all [Token.concat]⟩
  · intro e h
    exact parseMode_error_msg mode.data _ e h

/-- C4. When `m` is the minimum of the candidate costs (a candidate that is not
computed costs `+inf`), so also when several candidate costs are equal to the
minimum, the split that `split` applies is the first of them in the fixed
priority order fallback, aligned object,
aligned spatial, unaligned object, strand: the fallback when the minimum is
`+inf`, otherwise aligned object if its cost equals the minimum, otherwise
aligned spatial if its cost equals the minimum, otherwise unaligned object if
its cost equals the minimum, otherwise strand. -/
theorem split_tie_priority (env : Env Ref Vec Box Space) (st : State Ref Box Space)
    (prims : BezierRefList Ref) (bounds : NAABBox3fa Box Space) (pinfo : PrimInfo Box)
    (isAligned : Bool) (m : Flt)
    (hmin : ∀ j, Flt.le m (costVariable env st.remainingReplications prims bounds pinfo j) = true)
    (hatt : ∃ j, costVariable env st.remainingReplications prims bounds pinfo j = m) :
    split env st prims bounds pinfo isAligned
      = (.ok (splitOutput env prims bounds pinfo
            (firstInPriority m (costVariable env st.remainingReplications prims bounds pinfo)),
          isAligned &&
            !(firstInPriority m
              (costVariable env st.remainingReplications prims bounds pinfo)).isUnaligned),
        splitState env st prims bounds pinfo
          (firstInPriority m (costVariable env st.remainingReplications prims bounds pinfo))) := by
  have hnan : ∀ k, computed env st.remainingReplications k = true →
      (candidateCost env prims bounds pinfo k).isNaN = false := by
    intro k hk
    have := (Flt.isNaN_of_le _ _ (hmin k)).2
    simpa [costVariable, hk] using this
  obtain ⟨k, hk, hcost, hfb, hle⟩ :=
    splitChoice_min env st.remainingReplications prims bounds pinfo hnan
  have hcv : ∀ j, (splitCandidates env st.remainingReplications prims bounds pinfo).cost j
      = costVariable env st.remainingReplications prims bounds pinfo j :=
    fun j => splitCandidates_cost env st.remainingReplications prims bounds pinfo j
  obtain ⟨j0, hj0⟩ := hatt
  have hbm : (splitCandidates env st.remainingReplications prims bounds pinfo).bestSAH = m := by
    apply Flt.le_antisymm
    · have := hle j0
      rwa [hcost, hcv, hj0] at this
    · have := hmin k
      rwa [← hcv, hcost] at this
  have hmn : m.isNaN = false := by
    cases hm : m
    · have := hmin j0
      rw [hm] at this
      simp [Flt.le, Flt.lt, Flt.eq] at this
    all_goals rfl
  have he : ∀ x, (Flt.eq m x = true) ↔ x = m := by
    intro x
    rw [Flt.eq_true_iff]
    exact ⟨fun h => h.1.symm, fun h => ⟨h.symm, hmn⟩⟩
  have hfirst : firstInPriority m (costVariable env st.remainingReplications prims bounds pinfo)
      = k := by
    have h1 := hcv SplitKind.alignedObject
    have h2 := hcv SplitKind.alignedSpatial
    have h3 := hcv SplitKind.unalignedObject
    have h4 := hcv SplitKind.strand
    simp only [Candidates.cost] at h1 h2 h3 h4
    unfold splitChoice at hk
    rw [hbm, h1, h2, h3, h4] at hk
    unfold firstInPriority
    by_cases t0 : m = Flt.inf
    · have : Flt.eq m Flt.inf = true := (he _).2 t0.symm
      simp only [this, if_true, Option.some.injEq] at hk
      simp [t0, ← hk]
    · have : ¬ (Flt.eq m Flt.inf = true) := fun h => t0 ((he _).1 h).symm
      simp only [this, if_false, he] at hk
      simp only [t0, if_false]
      split_ifs at hk ⊢ <;> simp_all
  rw [hfirst]
  exact split_of_choice env st prims bounds pinfo isAligned k hk

/-- A run of C4 in which all four candidates tie at the minimum 4: the aligned
object split is applied. -/
theorem split_tie_priority_witness :
    (∀ j, Flt.le (Flt.fin 4)
      (costVariable exampleEnvAll (exampleState 1).remainingReplications
        (exampleTask [1, 2]).prims (exampleTask [1, 2]).bounds (exampleTask [1, 2]).pinfo j)
      = true) ∧
    (∃ j, costVariable exampleEnvAll (exampleState 1).remainingReplications
        (exampleTask [1, 2]).prims (exampleTask [1, 2]).bounds (exampleTask [1, 2]).pinfo j
      = Flt.fin 4) ∧
    firstInPriority (Flt.fin 4)
        (costVariable exampleEnvAll (exampleState 1).remainingReplications
          (exampleTask [1, 2]).prims (exampleTask [1, 2]).bounds (exampleTask [1, 2]).pinfo)
      = SplitKind.alignedObject ∧
    split exampleEnvAll (exampleState 1) (exampleTask [1, 2]).prims (exampleTask [1, 2]).bounds
        (exampleTask [1, 2]).pinfo true
      = (.ok (splitOutput exampleEnvAll (exampleTask [1, 2]).prims (exampleTask [1, 2]).bounds
            (exampleTask [1, 2]).pinfo
            (firstInPriority (Flt.fin 4)
              (costVariable exampleEnvAll (exampleState 1).remainingReplications
                (exampleTask [1, 2]).prims (exampleTask [1, 2]).bounds
                (exampleTask [1, 2]).pinfo)),
          true &&
            !(firstInPriority (Flt.fin 4)
              (costVariable exampleEnvAll (exampleState 1).remainingReplications
                (exampleTask [1, 2]).prims (exampleTask [1, 2]).bounds
                (exampleTask [1, 2]).pinfo)).isUnaligned),
        splitState exampleEnvAll (exampleState 1) (exampleTask [1, 2]).prims
          (exampleTask [1, 2]).bounds (exampleTask [1, 2]).pinfo
          (firstInPriority (Flt.fin 4)
            (costVariable exampleEnvAll (exampleState 1).remainingReplications
              (exampleTask [1, 2]).prims (exampleTask [1, 2]).bounds
              (exampleTask [1, 2]).pinfo))) :=
  ⟨fun j => by cases j <;> rfl, ⟨SplitKind.alignedObject, rfl⟩, by decide,
    split_tie_priority exampleEnvAll (exampleState 1) (exampleTask [1, 2]).prims
      (exampleTask [1, 2]).bounds (exampleTask [1, 2]).pinfo true (Flt.fin 4)
      (fun j => by cases j <;> rfl) ⟨SplitKind.alignedObject, rfl⟩⟩

/-- C5. When unaligned object splits and strand splits are disabled, in
particular when only aligned object splits (`aO`) are enabled, `split` never
sets `isAligned` to false, and every store of `processTask`, for every task and
state, is a leaf or an aligned node, never an unaligned node. -/
theorem processTask_aligned_only (env : Env Ref Vec Box Space)
    (hUO : env.cfg.enableUnalignedObjectSplits = false)
    (hST : env.cfg.enableStrandSplits = false) :
    (∀ st prims bounds pinfo isAligned o al st',
      split env st prims bounds pinfo isAligned = (.ok (o, al), st') → al = isAligned) ∧
    (∀ st task tasks st', processTask env st task = (.ok tasks, st') →
      ∃ ref, st'.writes = { dst := task.dst, depth := task.depth, ref := ref } :: st.writes ∧
        ref.isUnalignedNode = false ∧
        (¬ enforcedLeaf env task → ref.isAlignedNode = true)) := by
  have hk : ∀ rem prims bounds pinfo k,
      splitChoice (splitCandidates env rem prims bounds pinfo) = some k →
      k.isUnaligned = false := by
    intro rem prims bounds pinfo k h
    rcases splitChoice_computed env rem prims bounds pinfo k h with rfl | hc
    · rfl
    · cases k <;> simp_all [computed, SplitKind.isUnaligned]
  constructor
  · intro st prims bounds pinfo isAligned o al st' h
    cases hc : splitChoice (splitCandidates env st.remainingReplications prims bounds pinfo) with
    | none => rw [split_of_none env st prims bounds pinfo isAligned hc] at h; simp at h
    | some k =>
      rw [split_of_choice env st prims bounds pinfo isAligned k hc] at h
      simp only [Prod.mk.injEq, Except.ok.injEq] at h
      rw [← h.1.2, hk _ _ _ _ k hc]
      simp
  · intro st task tasks st' h
    rcases processTask_cases env st task with ⟨hl, ⟨e, _, hp⟩ | ⟨ref, hleaf, hp⟩⟩ |
      ⟨hl, cs, al, st1, hloop, hp⟩ | ⟨hl, e, st1, _, hp⟩
    · rw [hp] at h; simp at h
    · rw [hp] at h
      simp only [Prod.mk.injEq, Except.ok.injEq] at h
      obtain ⟨indexed, rfl⟩ := leaf_ok env task.prims ref hleaf
      exact ⟨NodeRef.leaf indexed _, by rw [← h.2], rfl, fun hn => absurd hl hn⟩
    · have inv := (splitLoop_invariant env
        (fun s _ a => a = true ∧ s.writes = st.writes) (fun _ => True)
        (by
          intro s cs' a i c k ⟨ha, hw⟩ _ hc
          exact ⟨by rw [ha, hk _ _ _ _ k hc]; rfl, hw⟩)
        (by intros; trivial)
        (BVH4Hair.N - 1) st (initialChildren task) true ⟨rfl, rfl⟩).1 cs al st1 hloop
      rw [hp] at h
      simp only [Prod.mk.injEq, Except.ok.injEq] at h
      refine ⟨nodeRef cs al, by rw [← h.2, inv.2], ?_, fun _ => ?_⟩
      · rw [inv.1]; rfl
      · rw [inv.1]; rfl
    · rw [hp] at h; simp at h

/-- A run of C5: with only `aO` enabled the task over two references gets an
aligned node. -/
theorem processTask_aligned_only_witness :
    exampleEnvAligned.cfg.enableUnalignedObjectSplits = false ∧
    exampleEnvAligned.cfg.enableStrandSplits = false ∧
    processTask exampleEnvAligned (exampleState 0) (exampleTask [1, 2])
      = (.ok exampleChildTasks,
          { remainingReplications := 0
            writes := [{ dst := [], depth := 0, ref := NodeRef.alignedNode [1, 1] }]
            history := [Event.apply SplitKind.alignedObject,
              Event.find SplitKind.alignedObject] }) ∧
    ∃ ref : NodeRef Nat Int Unit,
      [{ dst := [], depth := 0, ref := NodeRef.alignedNode [1, 1] }]
        = ({ dst := (exampleTask [1, 2]).dst, depth := (exampleTask [1, 2]).depth, ref := ref }
            : Write Nat Int Unit) :: (exampleState 0).writes ∧
      ref.isUnalignedNode = false ∧
      (¬ enforcedLeaf exampleEnvAligned (exampleTask [1, 2]) → ref.isAlignedNode = true) :=
  ⟨rfl, rfl, rfl,
    (processTask_aligned_only exampleEnvAligned rfl rfl).2 (exampleState 0) (exampleTask [1, 2])
      exampleChildTasks
      { remainingReplications := 0
        writes := [{ dst := [], depth := 0, ref := NodeRef.alignedNode [1, 1] }]
        history := [Event.apply SplitKind.alignedObject, Event.find SplitKind.alignedObject] }
      rfl⟩

/-- C6, the claim fails: with only unaligned object splits and strand splits
enabled and every candidate `+inf`, the fallback split is applied and
`processTask` stores an aligned node. -/
theorem processTask_unaligned_only_fails :
    (exampleCfg false false true true).enableAlignedObjectSplits = false ∧
    (exampleCfg false false true true).enableAlignedSpatialSplits = false ∧
    (exampleCfg false false true true).enableUnalignedObjectSplits = true ∧
    (exampleCfg false false true true).enableStrandSplits = true ∧
    processTask (exampleEnv (exampleCfg false false true true) Flt.pinf 0) (exampleState 0)
        (exampleTask [1, 2])
      = (.ok [{ dst := [0], depth := 1, pinfo := examplePrimInfo [[1]], prims := [[1]],
                bounds := { space := (), bounds := 1 } },
              { dst := [1], depth := 1, pinfo := examplePrimInfo [[2]], prims := [[2]],
                bounds := { space := (), bounds := 1 } }],
          { remainingReplications := 0
            writes := [{ dst := [], depth := 0, ref := NodeRef.alignedNode [1, 1] }]
            history := [Event.apply SplitKind.fallback, Event.find SplitKind.strand,
              Event.find SplitKind.unalignedObject] }) := by
  refine ⟨rfl, rfl, rfl, rfl, ?_⟩
  rfl

/-- C6, amended. When aligned object splits and aligned spatial splits are
disabled (only `uO` and `uST` may be enabled), an interior node that
`processTask` emits is an unaligned node exactly when one of the splits applied
for it is not the fallback split, and an aligned node exactly when every split
applied for it is the fallback split. -/
theorem processTask_unaligned_unless_fallback (env : Env Ref Vec Box Space)
    (hAO : env.cfg.enableAlignedObjectSplits = false)
    (hASP : env.cfg.enableAlignedSpatialSplits = false)
    (st : State Ref Box Space) (task : BuildTask Ref Box Space)
    (tasks : List (BuildTask Ref Box Space)) (st' : State Ref Box Space)
    (hn : ¬ enforcedLeaf env task)
    (h : processTask env st task = (.ok tasks, st')) :
    ∃ ref evs,
      st'.writes = { dst := task.dst, depth := task.depth, ref := ref } :: st.writes ∧
      st'.history = evs ++ st.history ∧
      ref.isLeaf = false ∧
      (ref.isUnalignedNode = true ↔ ∃ k, k ≠ SplitKind.fallback ∧ Event.apply k ∈ evs) ∧
      (ref.isAlignedNode = true ↔ ∀ k, Event.apply k ∈ evs → k = SplitKind.fallback) := by
  have hk : ∀ rem prims bounds pinfo k,
      splitChoice (splitCandidates env rem prims bounds pinfo) = some k →
      (k.isUnaligned = false ↔ k = SplitKind.fallback) := by
    intro rem prims bounds pinfo k h
    rcases splitChoice_computed env rem prims bounds pinfo k h with rfl | hc
    · simp [SplitKind.isUnaligned]
    · cases k <;> simp_all [computed, SplitKind.isUnaligned, spatialEnabled]
  rcases processTask_cases env st task with ⟨hl, _⟩ |
    ⟨_, cs, al, st1, hloop, hp⟩ | ⟨_, e, st1, _, hp⟩
  · exact absurd hl hn
  · have inv := (splitLoop_invariant env
      (fun s _ a => ∃ evs, s.history = evs ++ st.history ∧ s.writes = st.writes ∧
        (a = true ↔ ∀ k, Event.apply k ∈ evs → k = SplitKind.fallback))
      (fun _ => True)
      (by
        intro s cs' a i c k ⟨evs, hh, hw, ha⟩ _ hc
        refine ⟨Event.apply k :: (findEvents env s.remainingReplications ++ evs), ?_, hw, ?_⟩
        · simp [splitState, hh]
        · have hkk := hk _ _ _ _ k hc
          constructor
          · intro hand
            simp only [Bool.and_eq_true, Bool.not_eq_true'] at hand
            intro k' hmem
            simp only [List.mem_cons, Event.apply.injEq, List.mem_append] at hmem
            rcases hmem with rfl | hmem | hmem
            · exact hkk.1 hand.2
            · exact absurd hmem (apply_not_mem_findEvents env _ k')
            · exact ha.1 hand.1 k' hmem
          · intro hall
            simp only [Bool.and_eq_true, Bool.not_eq_true']
            constructor
            · apply ha.2
              intro k' hmem
              exact hall k' (by simp [hmem])
            · exact hkk.2 (hall k (by simp)))
      (by intros; trivial)
      (BVH4Hair.N - 1) st (initialChildren task) true
      ⟨[], rfl, rfl, by simp⟩).1 cs al st1 hloop
    obtain ⟨evs, hh, hw, ha⟩ := inv
    rw [hp] at h
    simp only [Prod.mk.injEq, Except.ok.injEq] at h
    refine ⟨nodeRef cs al, evs, by rw [← h.2, hw], by rw [← h.2, hh], nodeRef_isLeaf cs al, ?_, ?_⟩
    · rw [nodeRef_isUnalignedNode]
      constructor
      · intro hal
        by_contra hex
        have : al = true := ha.2 (by
          intro k hmem
          by_contra hne
          exact hex ⟨k, hne, hmem⟩)
        simp [this] at hal
      · rintro ⟨k, hne, hmem⟩
        cases hal : al
        · rfl
        · exact absurd (ha.1 hal k hmem) hne
    · rw [nodeRef_isAlignedNode]
      exact ha
  · rw [hp] at h; simp at h

/-- A run of C6 as amended: with only `uO` and `uST` enabled and finite
candidates, the unaligned object split is applied and the node is unaligned. -/
theorem processTask_unaligned_unless_fallback_witness :
    exampleEnvUnaligned.cfg.enableAlignedObjectSplits = false ∧
    exampleEnvUnaligned.cfg.enableAlignedSpatialSplits = false ∧
    ¬ enforcedLeaf exampleEnvUnaligned (exampleTask [1, 2]) ∧
    processTask exampleEnvUnaligned (exampleState 0) (exampleTask [1, 2])
      = (.ok exampleChildTasks,
          { remainingReplications := 0
            writes := [{ dst := [], depth := 0,
                         ref := NodeRef.unalignedNode
                           [{ space := (), bounds := 1 }, { space := (), bounds := 1 }] }]
            history := [Event.apply SplitKind.unalignedObject, Event.find SplitKind.strand,
              Event.find SplitKind.unalignedObject] }) ∧
    ∃ (ref : NodeRef Nat Int Unit) (evs : List Event),
      [{ dst := [], depth := 0,
         ref := NodeRef.unalignedNode
           [{ space := (), bounds := 1 }, { space := (), bounds := 1 }] }]
        = ({ dst := (exampleTask [1, 2]).dst, depth := (exampleTask [1, 2]).depth, ref := ref }
            : Write Nat Int Unit) :: (exampleState 0).writes ∧
      [Event.apply SplitKind.unalignedObject, Event.find SplitKind.strand,
          Event.find SplitKind.unalignedObject] = evs ++ (exampleState 0).history ∧
      ref.isLeaf = false ∧
      (ref.isUnalignedNode = true ↔ ∃ k, k ≠ SplitKind.fallback ∧ Event.apply k ∈ evs) ∧
      (ref.isAlignedNode = true ↔ ∀ k, Event.apply k ∈ evs → k = SplitKind.fallback) :=
  ⟨rfl, rfl, by decide, rfl,
    processTask_unaligned_unless_fallback exampleEnvUnaligned rfl rfl (exampleState 0)
      (exampleTask [1, 2]) exampleChildTasks
      { remainingReplications := 0
        writes := [{ dst := [], depth := 0,
                     ref := NodeRef.unalignedNode
                       [{ space := (), bounds := 1 }, { space := (), bounds := 1 }] }]
        history := [Event.apply SplitKind.unalignedObject, Event.find SplitKind.strand,
          Event.find SplitKind.unalignedObject] }
      (by decide) rfl⟩

/-- C7. If `remainingReplications` is 0 when the build starts, then at every
point of the build (for every bound on the number of iterations of the task
loop) the counter is still 0 and the history holds no search for and no
application of a spatial split; the same holds for every `recurseTask` started
in such a state. With the counter at 0 `split` does not compute the spatial
candidate. -/
theorem no_spatial_without_budget (env : Env Ref Vec Box Space) (scene : Scene Ref)
    (fuel : Nat) (h0 : env.cfg.remainingReplications = 0)
    (hrep : env.replications ((scene.numCurves <<< env.cfg.enablePreSubdivision) % 2 ^ 64) = 0) :
    ((build env scene fuel).2.st.remainingReplications = 0 ∧
      noSpatial (build env scene fuel).2.st) ∧
    (∀ recFuel st task, st.remainingReplications = 0 → noSpatial st →
      (recurseTask env recFuel st task).2.remainingReplications = 0 ∧
        noSpatial (recurseTask env recFuel st task).2) ∧
    (∀ prims bounds pinfo,
      computed env 0 SplitKind.alignedSpatial = false ∧
      (splitCandidates env 0 prims bounds pinfo).alignedSpatialSAH = Flt.inf) := by
  refine ⟨?_, ?_, ?_⟩
  · unfold build
    simp only
    split
    · exact ⟨h0, by intro e he; simp [BVH4Hair.init] at he⟩
    · exact task_build_parallel_preserves env
        (fun s => s.remainingReplications = 0 ∧ noSpatial s)
        (fun s t hs => processTask_noSpatial env s t hs) _ fuel _
        ⟨hrep, by intro e he; simp [BVH4Hair.init] at he⟩
  · intro recFuel st task hr hn
    exact recurseTask_preserves env
      (fun s => s.remainingReplications = 0 ∧ noSpatial s)
      (fun s t hs => processTask_noSpatial env s t hs) recFuel st task ⟨hr, hn⟩
  · intro prims bounds pinfo
    refine ⟨computed_spatial_of_nonpos env 0 (le_refl 0), ?_⟩
    rw [splitCandidates_alignedSpatialSAH, computed_spatial_of_nonpos env 0 (le_refl 0)]
    simp

/-- A run of C7: boundary scenario S5 on three curves, replication budget 0 with
`aO` and `aSP` enabled. -/
theorem no_spatial_without_budget_witness :
    exampleEnvNoBudget.cfg.remainingReplications = 0 ∧
    exampleEnvNoBudget.replications
      (((exampleScene [1, 2, 3]).numCurves <<< exampleEnvNoBudget.cfg.enablePreSubdivision)
        % 2 ^ 64) = 0 ∧
    (build exampleEnvNoBudget (exampleScene [1, 2, 3]) 2).1 = .ok () ∧
    leafRefs (build exampleEnvNoBudget (exampleScene [1, 2, 3]) 2).2.st.writes = 3 ∧
    ((build exampleEnvNoBudget (exampleScene [1, 2, 3]) 2).2.st.remainingReplications = 0 ∧
      noSpatial (build exampleEnvNoBudget (exampleScene [1, 2, 3]) 2).2.st) :=
  ⟨rfl, rfl, rfl, rfl,
    (no_spatial_without_budget exampleEnvNoBudget (exampleScene [1, 2, 3]) 2 rfl rfl).1⟩

end Claims

/-! ## Leaf emission: truncation and the assertion of line 252 -/

section LeafLemmas

variable {Ref Vec Box Space : Type}

/-- What `leaf` does on every list: it returns the leaf of the first
`min N maxLeafBlocks` references and leaves the list empty, or it raises
"unknown primitive type", or (inline `Bezier1` kind, assertions compiled in,
more than `maxLeafBlocks` references) it fails the assertion `!iter`. -/
theorem leaf_cases (env : Env Ref Vec Box Space) (prims : BezierRefList Ref) :
    (env.primTy ≠ PrimTy.other ∧
      ¬ (env.primTy = PrimTy.bezier1 ∧ env.assertions = true ∧ env.maxLeafBlocks < prims.size) ∧
      leaf env prims
        = (.ok (NodeRef.leaf (decide (env.primTy = PrimTy.bezier1i))
            (prims.iter.take (min prims.size env.maxLeafBlocks))), [])) ∨
    (env.primTy = PrimTy.other ∧
      leaf env prims = (.error (Err.runtime "unknown primitive type"), prims)) ∨
    (env.primTy = PrimTy.bezier1 ∧ env.assertions = true ∧ env.maxLeafBlocks < prims.size ∧
      leaf env prims = (.error (Err.assertion "!iter"), prims)) := by
  have hN : (if prims.size > env.maxLeafBlocks then env.maxLeafBlocks else prims.size)
      = min prims.size env.maxLeafBlocks := by
    split <;> omega
  have hdrop : (List.drop (min prims.size env.maxLeafBlocks) prims.iter).isEmpty = true
      ↔ ¬ env.maxLeafBlocks < prims.size := by
    rw [List.isEmpty_iff, List.drop_eq_nil_iff]
    simp only [BezierRefList.size]
    omega
  unfold leaf
  simp only [hN]
  cases hty : env.primTy with
  | bezier1 =>
    by_cases ha : env.assertions = true
    · by_cases hlt : env.maxLeafBlocks < prims.size
      · right; right
        have : (List.drop (min prims.size env.maxLeafBlocks) prims.iter).isEmpty = false := by
          cases h : (List.drop (min prims.size env.maxLeafBlocks) prims.iter).isEmpty
          · rfl
          · exact absurd hlt (hdrop.1 h)
        simp [ha, this, hlt]
      · left
        have := hdrop.2 hlt
        simp [ha, this, hlt]
    · left
      simp [ha]
  | bezier1i => left; simp
  | other => right; left; simp

end LeafLemmas

/-- C11, the code fails the claim: with assertions compiled in and the inline
`Bezier1` leaf kind, `leaf` on five references with `maxLeafBlocks = 4` does not
return the leaf of the first four references: it fails the assertion `!iter`
of line 252, and the list is not freed. Without that assertion (a build with
`NDEBUG`) the same call returns the truncated leaf and leaves the list empty. -/
theorem leaf_overflow_fails :
    exampleEnvAligned.maxLeafBlocks = 4 ∧
    leaf exampleEnvAligned [[1, 2, 3, 4, 5]]
      = (.error (Err.assertion "!iter"), [[1, 2, 3, 4, 5]]) ∧
    leaf exampleEnvRelease [[1, 2, 3, 4, 5]] = (.ok (NodeRef.leaf false [1, 2, 3, 4]), []) := by
  refine ⟨rfl, rfl, rfl⟩

/-- C12, the code fails the claim: a task at depth `maxBuildDepth` with five
references and `maxLeafBlocks = 4` is an enforced leaf, and `processTask` does
not recover from the overflow: with the inline `Bezier1` kind the assertion
`!iter` fails after the truncated copy and nothing is stored, while the sibling
branch for the indexed `Bezier1i` kind, which has no such assertion, stores the
truncated leaf. -/
theorem leaf_overflow_not_recovered :
    enforcedLeaf exampleEnvAligned (exampleDeepTask [1, 2, 3, 4, 5]) ∧
    processTask exampleEnvAligned (exampleState 0) (exampleDeepTask [1, 2, 3, 4, 5])
      = (.error (Err.assertion "!iter"), exampleState 0) ∧
    processTask exampleEnvIndexed (exampleState 0) (exampleDeepTask [1, 2, 3, 4, 5])
      = (.ok [],
          { remainingReplications := 0
            writes := [{ dst := [0, 0, 0, 0, 0, 0, 0, 0], depth := 8,
                         ref := NodeRef.leaf true [1, 2, 3, 4] }]
            history := [] }) := by
  refine ⟨by decide, rfl, rfl⟩

/-! ## Presubdivision and the initial reference list -/

section SubdivideLemmas

variable {Ref Vec Box Space : Type}

theorem segments_length (env : Env Ref Vec Box Space) (depth : Nat) (bezier : Ref) :
    (segments env depth bezier).length = 2 ^ depth := by
  induction depth generalizing bezier with
  | zero => rfl
  | succ d ih =>
    simp only [segments, List.length_append, ih]
    rw [pow_succ]
    omega

theorem insertRef_perm (env : Env Ref Vec Box Space) (hblock : 1 ≤ env.blockSize)
    (prims : BezierRefList Ref) (bezier : Ref) :
    List.Perm (insertRef env prims bezier).iter (prims.iter ++ [bezier]) := by
  have hb : 0 < env.blockSize := hblock
  cases prims with
  | nil => simp [insertRef, hb, BezierRefList.iter]
  | cons block rest =>
    by_cases hfull : block.length < env.blockSize
    · simp only [insertRef, hfull, if_true, BezierRefList.iter, List.flatten_cons,
        List.append_assoc]
      exact List.Perm.append_left block List.perm_append_comm
    · simp only [insertRef, hfull, hb, if_true, if_false, BezierRefList.iter, List.flatten_cons]
      exact List.perm_append_comm

theorem subdivideAndAdd_perm (env : Env Ref Vec Box Space) (hblock : 1 ≤ env.blockSize)
    (depth : Nat) (prims : BezierRefList Ref) (bezier : Ref) :
    List.Perm (subdivideAndAdd env depth prims bezier).2.iter
      (prims.iter ++ segments env depth bezier) := by
  induction depth generalizing prims bezier with
  | zero => exact insertRef_perm env hblock prims bezier
  | succ d ih =>
    simp only [subdivideAndAdd, segments]
    refine (ih _ _).trans ?_
    rw [← List.append_assoc]
    exact List.Perm.append_right _ (ih _ _)

theorem foldl_extend_assoc (env : Env Ref Vec Box Space)
    (hassoc : ∀ a b c, env.extend (env.extend a b) c = env.extend a (env.extend b c))
    (a b : Box) (rs : List Ref) :
    rs.foldl (fun b j => env.extend b (env.bounds j)) (env.extend a b)
      = env.extend a (rs.foldl (fun b j => env.extend b (env.bounds j)) b) := by
  induction rs generalizing b with
  | nil => rfl
  | cons r rs ih => simp only [List.foldl_cons, hassoc, ih]

theorem boundsUnion_append (env : Env Ref Vec Box Space)
    (hassoc : ∀ a b c, env.extend (env.extend a b) c = env.extend a (env.extend b c))
    (l1 l2 : List Ref) (h1 : l1 ≠ []) (h2 : l2 ≠ []) :
    boundsUnion env (l1 ++ l2) = env.extend (boundsUnion env l1) (boundsUnion env l2) := by
  cases l1 with
  | nil => exact absurd rfl h1
  | cons a l1 =>
    cases l2 with
    | nil => exact absurd rfl h2
    | cons b l2 =>
      simp only [boundsUnion, List.cons_append, List.foldl_append, List.foldl_cons]
      exact foldl_extend_assoc env hassoc _ _ l2

theorem subdivideAndAdd_bounds (env : Env Ref Vec Box Space)
    (hassoc : ∀ a b c, env.extend (env.extend a b) c = env.extend a (env.extend b c))
    (depth : Nat) (prims : BezierRefList Ref) (bezier : Ref) :
    (subdivideAndAdd env depth prims bezier).1 = boundsUnion env (segments env depth bezier) := by
  induction depth generalizing prims bezier with
  | zero => rfl
  | succ d ih =>
    have hne : ∀ b, segments env d b ≠ [] := by
      intro b h
      have := segments_length env d b
      rw [h] at this
      simp at this
      exact absurd this.symm (by positivity)
    simp only [subdivideAndAdd, segments]
    rw [boundsUnion_append env hassoc _ _ (hne _) (hne _), ih, ih]

theorem subdivideAndAdd_size (env : Env Ref Vec Box Space) (hblock : 1 ≤ env.blockSize)
    (depth : Nat) (prims : BezierRefList Ref) (bezier : Ref) :
    (subdivideAndAdd env depth prims bezier).2.size = prims.size + 2 ^ depth := by
  have := (subdivideAndAdd_perm env hblock depth prims bezier).length_eq
  simpa [BezierRefList.size, segments_length] using this

/-- The number of references of the initial list of `build`: `2 ^ depth` for every
curve of every enabled curve set. -/
theorem initialCurves_size (env : Env Ref Vec Box Space) (hblock : 1 ≤ env.blockSize)
    (scene : Scene Ref) :
    (initialCurves env scene).2.2.size
      = ((scene.geometries.filter fun geom => geom.isBezierCurves && geom.isEnabled).map
          fun geom => geom.curves.length).sum * 2 ^ env.cfg.enablePreSubdivision := by
  unfold initialCurves
  have inner : ∀ (curves : List Ref) (acc : Box × Nat × BezierRefList Ref),
      (curves.foldl
        (fun (acc : Box × Nat × BezierRefList Ref) bezier =>
          let r := subdivideAndAdd env env.cfg.enablePreSubdivision acc.2.2 bezier
          (env.extend acc.1 r.1, acc.2.1, r.2)) acc).2.2.size
        = acc.2.2.size + curves.length * 2 ^ env.cfg.enablePreSubdivision := by
    intro curves
    induction curves with
    | nil => intro acc; simp
    | cons c cs ih =>
      intro acc
      rw [List.foldl_cons, ih]
      simp only [subdivideAndAdd_size env hblock, List.length_cons]
      ring
  have outer : ∀ (geoms : List (Geometry Ref)) (acc : Box × Nat × BezierRefList Ref),
      (geoms.foldl
        (fun acc geom =>
          if !geom.isBezierCurves then acc
          else if !geom.isEnabled then acc
          else
            geom.curves.foldl
              (fun (acc : Box × Nat × BezierRefList Ref) bezier =>
                let r := subdivideAndAdd env env.cfg.enablePreSubdivision acc.2.2 bezier
                (env.extend acc.1 r.1, acc.2.1, r.2))
              (acc.1, acc.2.1 + geom.numVertices, acc.2.2)) acc).2.2.size
        = acc.2.2.size
          + ((geoms.filter fun geom => geom.isBezierCurves && geom.isEnabled).map
              fun geom => geom.curves.length).sum * 2 ^ env.cfg.enablePreSubdivision := by
    intro geoms
    induction geoms with
    | nil => intro acc; simp
    | cons g gs ih =>
      intro acc
      rw [List.foldl_cons, ih]
      cases hb : g.isBezierCurves <;> cases he : g.isEnabled <;>
        simp [hb, he, inner, List.filter_cons]
      ring
  rw [outer]
  simp [BezierRefList.size, BezierRefList.iter]

/-- C16. For every curve and every depth `d` (with blocks of capacity at least 1
and an associative box union), `subdivideAndAdd(prims, bezier, d)` inserts
exactly the `2^d` segments of the curve into the list and returns the union of
the `bounds()` of exactly those references; hence when every geometry is an
enabled Bezier curve set (and `scene.numCurves` counts their curves, without
overflow of the shift), the initial reference list of `build` holds exactly
`scene.numCurves << presubdivideDepth` references, the value `numPrimitives`. -/
theorem subdivideAndAdd_inserts (env : Env Ref Vec Box Space) (hblock : 1 ≤ env.blockSize)
    (hassoc : ∀ a b c, env.extend (env.extend a b) c = env.extend a (env.extend b c))
    (depth : Nat) (prims : BezierRefList Ref) (bezier : Ref) :
    (segments env depth bezier).length = 2 ^ depth ∧
    List.Perm (subdivideAndAdd env depth prims bezier).2.iter
      (prims.iter ++ segments env depth bezier) ∧
    (subdivideAndAdd env depth prims bezier).2.size = prims.size + 2 ^ depth ∧
    (subdivideAndAdd env depth prims bezier).1 = boundsUnion env (segments env depth bezier) ∧
    (∀ scene : Scene Ref,
      (∀ geom ∈ scene.geometries, geom.isBezierCurves = true ∧ geom.isEnabled = true) →
      scene.numCurves = scene.curveCount →
      scene.numCurves * 2 ^ env.cfg.enablePreSubdivision < 2 ^ 64 →
      (initialCurves env scene).2.2.size
        = (scene.numCurves <<< env.cfg.enablePreSubdivision) % 2 ^ 64) := by
  refine ⟨segments_length env depth bezier, subdivideAndAdd_perm env hblock depth prims bezier,
    subdivideAndAdd_size env hblock depth prims bezier,
    subdivideAndAdd_bounds env hassoc depth prims bezier, ?_⟩
  intro scene hall hnum hlt
  have hfilter : scene.geometries.filter (fun geom => geom.isBezierCurves && geom.isEnabled)
      = scene.geometries := by
    rw [List.filter_eq_self]
    intro g hg
    simp [hall g hg]
  rw [initialCurves_size env hblock, hfilter, Nat.shiftLeft_eq, Nat.mod_eq_of_lt hlt, hnum]
  rfl

/-- A run of C16: the curve 1 subdivided twice into the list holding 9. -/
theorem subdivideAndAdd_inserts_witness :
    1 ≤ exampleEnvAligned.blockSize ∧
    (∀ a b c, exampleEnvAligned.extend (exampleEnvAligned.extend a b) c
      = exampleEnvAligned.extend a (exampleEnvAligned.extend b c)) ∧
    (subdivideAndAdd exampleEnvAligned 2 [[9]] 1).2 = [[7], [9, 4, 5, 6]] ∧
    segments exampleEnvAligned 2 1 = [4, 5, 6, 7] ∧
    ((segments exampleEnvAligned 2 1).length = 2 ^ 2 ∧
      List.Perm (subdivideAndAdd exampleEnvAligned 2 [[9]] 1).2.iter
        (BezierRefList.iter [[9]] ++ segments exampleEnvAligned 2 1) ∧
      (subdivideAndAdd exampleEnvAligned 2 [[9]] 1).2.size = BezierRefList.size [[9]] + 2 ^ 2 ∧
      (subdivideAndAdd exampleEnvAligned 2 [[9]] 1).1
        = boundsUnion exampleEnvAligned (segments exampleEnvAligned 2 1) ∧
      (∀ scene : Scene Nat,
        (∀ geom ∈ scene.geometries, geom.isBezierCurves = true ∧ geom.isEnabled = true) →
        scene.numCurves = scene.curveCount →
        scene.numCurves * 2 ^ exampleEnvAligned.cfg.enablePreSubdivision < 2 ^ 64 →
        (initialCurves exampleEnvAligned scene).2.2.size
          = (scene.numCurves <<< exampleEnvAligned.cfg.enablePreSubdivision) % 2 ^ 64)) :=
  ⟨by decide, fun a b c => max_assoc a b c, rfl, rfl,
    subdivideAndAdd_inserts exampleEnvAligned (by decide) (fun a b c => max_assoc a b c)
      2 [[9]] 1⟩

end SubdivideLemmas

/-! ## Lemmas on the oriented-frame fit -/

section FrameLemmas

variable {Ref Vec Box Space : Type}

theorem spaceBoundsArea_fst (env : Env Ref Vec Box Space) (space : Space)
    (prims : BezierRefList Ref) :
    (spaceBoundsArea env space prims).1 = unionIn env space prims := by
  unfold spaceBoundsArea unionIn
  have : ∀ (l : List Ref) (acc : Box × Flt),
      (l.foldl (fun acc j =>
        let cbounds := env.boundsIn space j
        (env.extend acc.1 cbounds, env.fadd acc.2 (env.halfArea cbounds))) acc).1
      = l.foldl (fun b j => env.extend b (env.boundsIn space j)) acc.1 := by
    intro l
    induction l with
    | nil => intro acc; rfl
    | cons a l ih => intro acc; rw [List.foldl_cons, List.foldl_cons, ih]
  exact this _ _

/-- The outer loop of `computeHairSpaceBounds` visits exactly the qualified
candidates. -/
theorem outer_loop_eq (env : Env Ref Vec Box Space) (prims : BezierRefList Ref) :
    prims.iter.enum.foldl (fun best ki => frameStep env prims prims.size best ki.1 ki.2)
        (initialBest env)
      = (qualifiedCandidates env prims).foldl (candidateStep env prims) (initialBest env) := by
  unfold qualifiedCandidates frameCandidates
  generalize prims.iter.enum = l
  generalize initialBest env = b
  induction l generalizing b with
  | nil => rfl
  | cons x l ih =>
    rw [List.foldl_cons, ih]
    by_cases h1 : x.1 % ((prims.size + 3) / 4) = 0
    · by_cases h2 : Flt.lt (env.chordLength x.2) env.eps = true
      · simp [frameStep, List.filter_cons, h1, h2]
      · simp [frameStep, List.filter_cons, h1, h2, candidateStep, totalHalfArea]
    · simp [frameStep, List.filter_cons, h1]

theorem computeHairSpaceBounds_eq (env : Env Ref Vec Box Space) (prims : BezierRefList Ref)
    (hN : prims.size ≠ 0) :
    computeHairSpaceBounds env prims
      = if Flt.eq ((qualifiedCandidates env prims).foldl (candidateStep env prims)
            (initialBest env)).bestArea Flt.inf
        then worldBounds env prims
        else
          { space := ((qualifiedCandidates env prims).foldl (candidateStep env prims)
              (initialBest env)).bestSpace
            bounds := ((qualifiedCandidates env prims).foldl (candidateStep env prims)
              (initialBest env)).bestBounds } := by
  rw [← outer_loop_eq]
  unfold computeHairSpaceBounds
  simp only [hN, if_false]
  rfl

theorem Flt.le_total_of_not (a b : Flt) (ha : a.isNaN = false) (hb : b.isNaN = false)
    (h : Flt.le a b = false) : Flt.le b a = true := by
  cases a <;> cases b <;> simp_all [Flt.le, Flt.lt, Flt.eq, Flt.isNaN]
  omega

theorem Flt.isNaN_of_not_le_inf (a : Flt) (h : Flt.le a Flt.inf = false) : a.isNaN = true := by
  cases a <;> simp_all [Flt.le, Flt.lt, Flt.eq, Flt.isNaN, Flt.inf]

/-- The outcome of the candidate loop: either no candidate had a comparable
area and the initial values are kept, or the list splits at the last candidate
of minimal area, whose values are kept. -/
theorem candidate_fold_cases (env : Env Ref Vec Box Space) (prims : BezierRefList Ref)
    (L : List Ref) :
    (L.foldl (candidateStep env prims) (initialBest env) = initialBest env ∧
        ∀ q ∈ L, (totalHalfArea env prims q).isNaN = true) ∨
    ∃ pre q post, L = pre ++ q :: post ∧
      (totalHalfArea env prims q).isNaN = false ∧
      (∀ p ∈ pre, (totalHalfArea env prims p).isNaN = true ∨
          Flt.le (totalHalfArea env prims q) (totalHalfArea env prims p) = true) ∧
      (∀ p ∈ post, Flt.le (totalHalfArea env prims p) (totalHalfArea env prims q) = false) ∧
      L.foldl (candidateStep env prims) (initialBest env)
        = { bestArea := totalHalfArea env prims q, bestSpace := env.chordFrame q,
            bestBounds := (spaceBoundsArea env (env.chordFrame q) prims).1 } := by
  induction L using List.reverseRecOn with
  | nil => left; exact ⟨rfl, by simp⟩
  | append_singleton L x ih =>
    rw [List.foldl_append, List.foldl_cons, List.foldl_nil]
    rcases ih with ⟨h0, hall⟩ | ⟨pre, q, post, hL, hq, hpre, hpost, hS⟩
    · rw [h0]
      by_cases hx : Flt.le (totalHalfArea env prims x) Flt.inf = true
      · right
        refine ⟨L, x, [], rfl, (Flt.isNaN_of_le _ _ hx).1, ?_, by simp, ?_⟩
        · intro p hp; exact Or.inl (hall p hp)
        · simp [candidateStep, initialBest, hx]
      · left
        have hx' : Flt.le (totalHalfArea env prims x) Flt.inf = false := by simpa using hx
        refine ⟨by simp [candidateStep, initialBest, hx'], ?_⟩
        intro p hp
        rcases List.mem_append.1 hp with hp | hp
        · exact hall p hp
        · rw [List.mem_singleton.1 hp]; exact Flt.isNaN_of_not_le_inf _ hx'
    · rw [hS]
      right
      by_cases hx : Flt.le (totalHalfArea env prims x) (totalHalfArea env prims q) = true
      · have hxn := (Flt.isNaN_of_le _ _ hx).1
        refine ⟨L, x, [], rfl, hxn, ?_, by simp, ?_⟩
        · intro p hp
          rw [hL] at hp
          rcases List.mem_append.1 hp with hp | hp
          · rcases hpre p hp with h | h
            · exact Or.inl h
            · exact Or.inr (Flt.le_trans _ _ _ hx h)
          · rcases List.mem_cons.1 hp with hp | hp
            · rw [hp]; exact Or.inr hx
            · by_cases hpn : (totalHalfArea env prims p).isNaN = true
              · exact Or.inl hpn
              · right
                have hpn' : (totalHalfArea env prims p).isNaN = false := by simpa using hpn
                exact Flt.le_trans _ _ _ hx (Flt.le_total_of_not _ _ hpn' hq (hpost p hp))
        · simp [candidateStep, hx]
      · have hx' : Flt.le (totalHalfArea env prims x) (totalHalfArea env prims q) = false := by
          simpa using hx
        refine ⟨pre, q, post ++ [x], by simp [hL], hq, hpre, ?_, ?_⟩
        · intro p hp
          rcases List.mem_append.1 hp with hp | hp
          · exact hpost p hp
          · rw [List.mem_singleton.1 hp]; exact hx'
        · simp [candidateStep, hx']

theorem mem_frameCandidates (prims : BezierRefList Ref) (k : Nat) (r : Ref) :
    (k, r) ∈ frameCandidates prims ↔ prims.iter[k]? = some r ∧ (prims.size + 3) / 4 ∣ k := by
  unfold frameCandidates
  rw [List.mem_filter, List.mk_mem_enum_iff_getElem?]
  simp [Nat.dvd_iff_mod_eq_zero]

theorem count_multiples (s : Nat) (hs : 1 ≤ s) (n : Nat) :
    ((List.range n).filter fun k => k % s = 0).length = ceilDiv n s := by
  unfold ceilDiv
  induction n with
  | zero =>
    simp
    exact (Nat.div_eq_of_lt (by omega)).symm
  | succ n ih =>
    rw [List.range_succ, List.filter_append, List.length_append, ih]
    have hdm := Nat.div_add_mod n s
    have hlt := Nat.mod_lt n hs
    by_cases h : n % s = 0
    · have e1 : n + s - 1 = (s - 1) + s * (n / s) := by rw [h] at hdm; omega
      have e2 : n + 1 + s - 1 = 0 + s * (n / s + 1) := by rw [h] at hdm; rw [Nat.mul_add]; omega
      rw [e1, e2, Nat.add_mul_div_left _ _ hs, Nat.add_mul_div_left _ _ hs,
        Nat.div_eq_of_lt (by omega)]
      simp [h]
    · have e1 : n + s - 1 = (n % s - 1) + s * (n / s + 1) := by rw [Nat.mul_add]; omega
      have e2 : n + 1 + s - 1 = (n % s) + s * (n / s + 1) := by rw [Nat.mul_add]; omega
      rw [e1, e2, Nat.add_mul_div_left _ _ hs, Nat.add_mul_div_left _ _ hs,
        Nat.div_eq_of_lt (by omega), Nat.div_eq_of_lt hlt]
      simp [h]

theorem enum_filter_fst_length {α : Type} (p : Nat → Bool) (l : List α) :
    (l.enum.filter fun ki => p ki.1).length = ((List.range l.length).filter p).length := by
  have h : ((l.enum.filter fun ki => p ki.1).map Prod.fst) = (List.range l.length).filter p := by
    rw [← List.enum_map_fst, List.filter_map]
    rfl
  rw [← h, List.length_map]

theorem frameCandidates_length (prims : BezierRefList Ref) (hN : 1 ≤ prims.size) :
    (frameCandidates prims).length = ceilDiv prims.size ((prims.size + 3) / 4) := by
  have hs : 1 ≤ (prims.size + 3) / 4 := by omega
  rw [← count_multiples _ hs]
  unfold frameCandidates
  have := enum_filter_fst_length (fun k => decide (k % ((prims.size + 3) / 4) = 0)) prims.iter
  simpa [BezierRefList.size] using this

theorem ceilDiv_stride_le (N : Nat) (hN : 1 ≤ N) : ceilDiv N ((N + 3) / 4) ≤ 4 := by
  unfold ceilDiv
  have hs : 1 ≤ (N + 3) / 4 := by omega
  rw [Nat.div_le_iff_le_mul_add_pred (by omega)]
  have := Nat.div_add_mod (N + 3) 4
  have := Nat.mod_lt (N + 3) (show 4 > 0 by decide)
  omega

end FrameLemmas

/-! ## Claims on the oriented-frame fit -/

section FrameClaims

variable {Ref Vec Box Space : Type}

/-- C19, as stated, fails. The single reference 150 has chord length 1, which
is not below the threshold 1, so it is a sampled candidate with a sufficient
chord; its total half area is `+inf`, trivially the minimum; the frame that
`computeHairSpaceBounds` returns is the identity with the world-space bounds,
not the frame of that candidate. -/
theorem frame_fit_infinite_area :
    qualifiedCandidates exampleFrameEnv [[150]] = [150] ∧
    Flt.le exampleFrameEnv.eps (exampleFrameEnv.chordLength 150) = true ∧
    totalHalfArea exampleFrameEnv [[150]] 150 = Flt.inf ∧
    computeHairSpaceBounds exampleFrameEnv [[150]]
      = { space := exampleFrameEnv.one, bounds := exampleFrameEnv.bounds 150 } ∧
    (computeHairSpaceBounds exampleFrameEnv [[150]]).space ≠ exampleFrameEnv.chordFrame 150 := by
  refine ⟨by decide, by decide, by rfl, by rfl, by decide⟩

/-- C19, amended: for a non-empty list, let the qualified candidates be the
sampled candidates whose chord length is not below the threshold. If all of
their total half areas are NaN (in particular if there is none) the result is
the identity frame with the world-space union of the `bounds()`. Otherwise the
qualified candidates split at a candidate `q` with a non-NaN area such that
every earlier one has a NaN area or an area not below that of `q` and every
later one has no area less than or equal to that of `q` (`q` is the last of
minimal area); the result is the frame of `q` with the union of the bounds in
that frame, unless the area of `q` is `+inf`, when it is again the identity
frame with the world-space bounds. -/
theorem frame_fit_last_minimal (env : Env Ref Vec Box Space) (prims : BezierRefList Ref)
    (hN : prims.size ≠ 0) :
    (qualifiedCandidates env prims = [] →
      computeHairSpaceBounds env prims = worldBounds env prims) ∧
    (((∀ q ∈ qualifiedCandidates env prims, (totalHalfArea env prims q).isNaN = true) ∧
        computeHairSpaceBounds env prims = worldBounds env prims) ∨
     ∃ pre q post, qualifiedCandidates env prims = pre ++ q :: post ∧
      (totalHalfArea env prims q).isNaN = false ∧
      (∀ p ∈ pre, (totalHalfArea env prims p).isNaN = true ∨
          Flt.le (totalHalfArea env prims q) (totalHalfArea env prims p) = true) ∧
      (∀ p ∈ post, Flt.le (totalHalfArea env prims p) (totalHalfArea env prims q) = false) ∧
      computeHairSpaceBounds env prims
        = if totalHalfArea env prims q = Flt.inf then worldBounds env prims
          else { space := env.chordFrame q, bounds := unionIn env (env.chordFrame q) prims }) := by
  have hmain := computeHairSpaceBounds_eq env prims hN
  constructor
  · intro h
    rw [hmain, h]
    rfl
  · rcases candidate_fold_cases env prims (qualifiedCandidates env prims) with
      ⟨h0, hall⟩ | ⟨pre, q, post, hL, hq, hpre, hpost, hS⟩
    · left
      refine ⟨hall, ?_⟩
      rw [hmain, h0]
      rfl
    · right
      refine ⟨pre, q, post, hL, hq, hpre, hpost, ?_⟩
      rw [hmain, hS]
      simp only [spaceBoundsArea_fst]
      by_cases hi : totalHalfArea env prims q = Flt.inf
      · rw [if_pos hi, hi, if_pos (by rfl)]
      · rw [if_neg hi, if_neg]
        rw [Flt.eq_true_iff]
        exact fun h => hi h.1

/-- A run of C19 as amended: of the candidates 103, 101, 102 and 201 the second
and the fourth have the minimal total half area 4, and the frame of the later
one, 201, is returned. -/
theorem frame_fit_last_minimal_witness :
    BezierRefList.size [[103, 101, 102, 201]] ≠ 0 ∧
    qualifiedCandidates exampleFrameEnv [[103, 101, 102, 201]] = [103, 101, 102, 201] ∧
    totalHalfArea exampleFrameEnv [[103, 101, 102, 201]] 101 = Flt.fin 4 ∧
    totalHalfArea exampleFrameEnv [[103, 101, 102, 201]] 201 = Flt.fin 4 ∧
    computeHairSpaceBounds exampleFrameEnv [[103, 101, 102, 201]]
      = { space := exampleFrameEnv.chordFrame 201, bounds := 1 } ∧
    (qualifiedCandidates exampleFrameEnv [[103, 101, 102, 201]] = [] →
      computeHairSpaceBounds exampleFrameEnv [[103, 101, 102, 201]]
        = worldBounds exampleFrameEnv [[103, 101, 102, 201]]) :=
  ⟨by decide, by decide, by rfl, by rfl, by rfl,
    (frame_fit_last_minimal exampleFrameEnv [[103, 101, 102, 201]] (by decide)).1⟩

end FrameClaims

/-! ## Lemmas on the children of a node -/

section NodeChildLemmas

variable {Ref Vec Box Space : Type}

theorem findBestChild_size (env : Env Ref Vec Box Space) (cs : List (Child Ref Box Space))
    (ic : Nat × Child Ref Box Space) (h : findBestChild env cs = some ic) :
    env.cfg.minLeafSize < ic.2.pinfo.size := by
  unfold findBestChild at h
  have key : ∀ (l : List (Nat × Child Ref Box Space)) (b : BestChild Ref Box Space),
      (∀ x, b.bestChild = some x → env.cfg.minLeafSize < x.2.pinfo.size) →
      ∀ x, (l.foldl
        (fun (best : BestChild Ref Box Space) ic =>
          let A := env.halfArea ic.2.bounds.bounds
          if ic.2.pinfo.size ≤ env.cfg.minLeafSize then best
          else if Flt.lt best.bestArea A then { bestArea := A, bestChild := some ic }
          else best) b).bestChild = some x → env.cfg.minLeafSize < x.2.pinfo.size := by
    intro l
    induction l with
    | nil => intro b hb x hx; exact hb x hx
    | cons y l ih =>
      intro b hb x hx
      rw [List.foldl_cons] at hx
      refine ih _ ?_ x hx
      intro z hz
      simp only at hz
      split at hz
      · exact hb z hz
      · rename_i hsz
        split at hz
        · simp only [Option.some.injEq] at hz
          rw [← hz]
          omega
        · exact hb z hz
  exact key cs.enum _ (by intro x hx; simp at hx) ic h

theorem splitChildren_eq (env : Env Ref Vec Box Space) (cs : List (Child Ref Box Space))
    (i : Nat) (o : SplitOut Ref Box) :
    splitChildren env cs i o = cs.set i (leftChild env o) ++ [rightChild env o] := rfl

theorem mem_splitChildren (env : Env Ref Vec Box Space) (cs : List (Child Ref Box Space))
    (i : Nat) (o : SplitOut Ref Box) (c : Child Ref Box Space)
    (h : c ∈ splitChildren env cs i o) :
    c ∈ cs ∨ c = leftChild env o ∨ c = rightChild env o := by
  rw [splitChildren_eq, List.mem_append, List.mem_singleton] at h
  rcases h with h | h
  · rcases List.mem_or_eq_of_mem_set h with h | h
    · exact Or.inl h
    · exact Or.inr (Or.inl h)
  · exact Or.inr (Or.inr h)

/-- The children of a finished split loop that started from the single child
`c0`: either no split was applied and `c0` is the only child, or every child is
the output of a split. `P` is a property of the lists that are split and `Q` one
that every split establishes for its two outputs. -/
theorem splitLoop_children (env : Env Ref Vec Box Space) (c0 : Child Ref Box Space)
    (P Q : Child Ref Box Space → Prop) (hQP : ∀ c, Q c → P c)
    (hstep : ∀ (st : State Ref Box Space) (c : Child Ref Box Space) (k : SplitKind), P c →
      env.cfg.minLeafSize < c.pinfo.size →
      splitChoice (splitCandidates env st.remainingReplications c.prims c.bounds c.pinfo) = some k →
      Q (leftChild env (splitOutput env c.prims c.bounds c.pinfo k)) ∧
      Q (rightChild env (splitOutput env c.prims c.bounds c.pinfo k)))
    (h0 : P c0) (slots : Nat) (st : State Ref Box Space)
    (cs' : List (Child Ref Box Space)) (al' : Bool) (st' : State Ref Box Space)
    (h : splitLoop env slots st [c0] true = (.ok (cs', al'), st')) :
    (cs' = [c0] ∧ al' = true) ∨ (2 ≤ cs'.length ∧ ∀ c ∈ cs', Q c) := by
  have inv := splitLoop_invariant env
    (fun _ cs al => (cs = [c0] ∧ al = true) ∨ (2 ≤ cs.length ∧ ∀ c ∈ cs, Q c))
    (fun _ => True) ?_ (fun _ _ _ _ _ _ _ _ => trivial) slots st [c0] true (Or.inl ⟨rfl, rfl⟩)
  · exact inv.1 cs' al' st' h
  · intro s cs al i c k hI hf hc
    have hmem := findBestChild_mem env cs (i, c) hf
    have hsz := findBestChild_size env cs (i, c) hf
    have hc_mem : c ∈ cs := by
      have := List.mk_mem_enum_iff_getElem?.1 hmem
      obtain ⟨hlt, he⟩ := List.getElem?_eq_some_iff.1 this
      rw [← he]
      exact List.getElem_mem _
    have hPc : P c := by
      rcases hI with ⟨rfl, _⟩ | ⟨_, hQ⟩
      · rw [List.mem_singleton.1 hc_mem]; exact h0
      · exact hQP c (hQ c hc_mem)
    have hQ2 := hstep s c k hPc hsz hc
    right
    constructor
    · rw [splitChildren_length]
      have : 1 ≤ cs.length := List.length_pos_of_mem hc_mem
      omega
    · intro d hd
      rcases hI with ⟨rfl, _⟩ | ⟨_, hQ⟩
      · have hi : i = 0 := by
          have := List.mk_mem_enum_iff_getElem?.1 hmem
          have hlt := (List.getElem?_eq_some_iff.1 this).1
          simpa using hlt
        subst hi
        rw [splitChildren_eq] at hd
        simp only [List.set_cons_zero, List.singleton_append, List.mem_cons,
          List.mem_singleton, List.not_mem_nil, or_false] at hd
        rcases hd with rfl | rfl
        · exact hQ2.1
        · exact hQ2.2
      · rcases mem_splitChildren env cs i _ d hd with hd | rfl | rfl
        · exact hQ d hd
        · exact hQ2.1
        · exact hQ2.2

theorem findBestChild_single (env : Env Ref Vec Box Space) (c0 : Child Ref Box Space)
    (hsz : env.cfg.minLeafSize < c0.pinfo.size)
    (harea : Flt.lt Flt.neg_inf (env.halfArea c0.bounds.bounds) = true) :
    findBestChild env [c0] = some (0, c0) := by
  have : ¬ c0.pinfo.size ≤ env.cfg.minLeafSize := by omega
  simp [findBestChild, List.enum, List.enumFrom, this, harea]

/-- A split loop with a free slot that starts from a single child that can be
split ends with two children or more. -/
theorem splitLoop_two (env : Env Ref Vec Box Space) (c0 : Child Ref Box Space)
    (hsz : env.cfg.minLeafSize < c0.pinfo.size)
    (harea : Flt.lt Flt.neg_inf (env.halfArea c0.bounds.bounds) = true)
    (slots : Nat) (st : State Ref Box Space)
    (cs' : List (Child Ref Box Space)) (al' : Bool) (st' : State Ref Box Space)
    (h : splitLoop env (slots + 1) st [c0] true = (.ok (cs', al'), st')) :
    2 ≤ cs'.length := by
  have hf := findBestChild_single env c0 hsz harea
  cases hc : splitChoice (splitCandidates env st.remainingReplications c0.prims c0.bounds c0.pinfo) with
  | none =>
    have hs := split_of_none env st c0.prims c0.bounds c0.pinfo true hc
    simp [splitLoop, hf, hs] at h
  | some k =>
    have hs := split_of_choice env st c0.prims c0.bounds c0.pinfo true k hc
    simp only [splitLoop, hf, hs] at h
    have := (splitLoop_length env slots _ _ _ cs' al' st' h).1
    rw [splitChildren_length] at this
    simpa using this

theorem nodeRef_numChildren (cs : List (Child Ref Box Space)) (al : Bool) :
    (nodeRef cs al).numChildren = cs.length := by
  cases al <;> simp [nodeRef, NodeRef.numChildren]

theorem enum_map_map {α β γ : Type} (l : List α) (g : Nat × α → β) (f : β → γ) (h : α → γ)
    (hfg : ∀ ic, f (g ic) = h ic.2) : (l.enum.map g).map f = l.map h := by
  rw [List.map_map]
  have : f ∘ g = h ∘ Prod.snd := by
    funext ic
    exact hfg ic
  rw [this, ← List.map_map, List.enum_map_snd]

theorem alignedTasks_geomBounds (env : Env Ref Vec Box Space) (task : BuildTask Ref Box Space)
    (cs : List (Child Ref Box Space)) :
    (alignedTasks env task cs).map (fun t => t.pinfo.geomBounds)
      = cs.map fun c => c.pinfo.geomBounds :=
  enum_map_map cs _ (fun t : BuildTask Ref Box Space => t.pinfo.geomBounds)
    (fun c => c.pinfo.geomBounds) (fun _ => rfl)

theorem unalignedTasks_bounds (env : Env Ref Vec Box Space) (task : BuildTask Ref Box Space)
    (cs : List (Child Ref Box Space)) :
    (unalignedTasks task cs).map (fun t => computeHairSpaceBounds env t.prims)
      = cs.map fun c => computeHairSpaceBounds env c.prims :=
  enum_map_map cs _ (fun t : BuildTask Ref Box Space => computeHairSpaceBounds env t.prims)
    (fun c => computeHairSpaceBounds env c.prims) (fun _ => rfl)

theorem nodeTasks_mem (env : Env Ref Vec Box Space) (task : BuildTask Ref Box Space)
    (cs : List (Child Ref Box Space)) (al : Bool) (t : BuildTask Ref Box Space)
    (ht : t ∈ nodeTasks env task cs al) :
    ∃ c ∈ cs, t.pinfo = c.pinfo ∧ t.prims = c.prims :=
  (nodeTasks_sizes env task cs al).2 t ht

/-- The bounds that `computeHairSpaceBounds` returns are the union of the bounds
of the references in the space it returns, when `bounds()` is the bounds in the
identity frame. -/
theorem computeHairSpaceBounds_union (env : Env Ref Vec Box Space)
    (hone : ∀ r, env.boundsIn env.one r = env.bounds r) (prims : BezierRefList Ref) :
    (computeHairSpaceBounds env prims).bounds
      = unionIn env (computeHairSpaceBounds env prims).space prims := by
  have hworld : (worldBounds env prims).bounds = unionIn env (worldBounds env prims).space prims := by
    simp only [worldBounds, unionIn, hone]
  by_cases hN : prims.size = 0
  · have hi : prims.iter = [] := List.length_eq_zero.1 hN
    simp [computeHairSpaceBounds, hN, unionIn, hi]
  · rw [computeHairSpaceBounds_eq env prims hN]
    by_cases hb : Flt.eq ((qualifiedCandidates env prims).foldl (candidateStep env prims)
        (initialBest env)).bestArea Flt.inf = true
    · rw [if_pos hb]; exact hworld
    · rw [if_neg hb]
      rcases candidate_fold_cases env prims (qualifiedCandidates env prims) with
        ⟨h0, _⟩ | ⟨pre, q, post, _, _, _, _, hS⟩
      · exact absurd (by rw [h0]; rfl) hb
      · simp only [hS, spaceBoundsArea_fst]

theorem exampleHalve_nonempty (prims : BezierRefList Nat) (h : 2 ≤ prims.size) :
    1 ≤ (exampleHalve prims).lprims.size ∧ 1 ≤ (exampleHalve prims).rprims.size := by
  simp only [BezierRefList.size, BezierRefList.iter] at h
  simp only [exampleHalve, BezierRefList.size, BezierRefList.iter, List.flatten_cons,
    List.flatten_nil, List.append_nil, List.length_take, List.length_drop]
  omega

theorem exampleEnv_sides (cfg : BVH4HairBuilder2) (sah : Flt) (budget : Int)
    (prims : BezierRefList Nat) (bounds : NAABBox3fa Int Unit) (pinfo : PrimInfo Int)
    (k : SplitKind) (h : 2 ≤ prims.size) :
    (splitOutput (exampleEnv cfg sah budget) prims bounds pinfo k).consistent ∧
    1 ≤ (splitOutput (exampleEnv cfg sah budget) prims bounds pinfo k).lprims.size ∧
    1 ≤ (splitOutput (exampleEnv cfg sah budget) prims bounds pinfo k).rprims.size := by
  have hh := exampleHalve_nonempty prims h
  have hd : 1 ≤ (exampleDuplicate prims).lprims.size ∧ 1 ≤ (exampleDuplicate prims).rprims.size :=
    ⟨by simp only [exampleDuplicate]; omega, by simp only [exampleDuplicate]; omega⟩
  cases k
  · exact ⟨⟨rfl, rfl⟩, hh⟩
  · exact ⟨⟨rfl, rfl⟩, hh⟩
  · exact ⟨⟨rfl, rfl⟩, hd⟩
  · exact ⟨⟨rfl, rfl⟩, hh⟩
  · exact ⟨⟨rfl, rfl⟩, hh⟩

theorem foldl_extend_encloses (env : Env Ref Vec Box Space) (encl : Box → Box → Prop)
    (hl : ∀ a b, encl a (env.extend a b)) (hr : ∀ a b, encl b (env.extend a b))
    (htrans : ∀ a b c, encl a b → encl b c → encl a c) (f : Ref → Box)
    (l : List Ref) (acc : Box) (r : Ref) (h : r ∈ l) :
    encl (f r) (l.foldl (fun b j => env.extend b (f j)) acc) := by
  have aux : ∀ (l : List Ref) (acc x : Box), encl x acc →
      encl x (l.foldl (fun b j => env.extend b (f j)) acc) := by
    intro l
    induction l with
    | nil => intro acc x hx; exact hx
    | cons a l ih =>
      intro acc x hx
      rw [List.foldl_cons]
      exact ih _ x (htrans _ _ _ hx (hl acc (f a)))
  induction l generalizing acc with
  | nil => simp at h
  | cons a l ih =>
    rw [List.foldl_cons]
    rcases List.mem_cons.1 h with rfl | h
    · exact aux l _ _ (hr acc (f r))
    · exact ih _ h

end NodeChildLemmas

/-! ## Claims on the children of a node -/

section NodeChildClaims

variable {Ref Vec Box Space : Type}

/-- C15, as stated, fails. With a half area that is NaN for the bounds of the
task, the comparison `A > bestArea` of the child search is false, no child is
selected, the loop is left by its `break` before any split, and `processTask`
emits an aligned node with the single child that holds the list of the task. -/
theorem node_single_child :
    ¬ enforcedLeaf exampleEnvNaN (exampleTask [1, 2]) ∧
    processTask exampleEnvNaN (exampleState 0) (exampleTask [1, 2])
      = (.ok [{ dst := [0], depth := 1, pinfo := examplePrimInfo [[1, 2]], prims := [[1, 2]],
                bounds := { space := (), bounds := 1 } }],
          { remainingReplications := 0
            writes := [{ dst := [], depth := 0, ref := NodeRef.alignedNode [1] }]
            history := [] }) ∧
    (NodeRef.alignedNode [1] : NodeRef Nat Int Unit).numChildren = 1 := by
  refine ⟨by decide, by rfl, by rfl⟩

/-- C15, amended: when the half area of the bounds of the task compares greater
than `neg_inf` (it is neither NaN nor `-inf`), a `processTask` that returns
gives no child task for an enforced leaf and between two and four child tasks
for an interior node, which holds as many children. If moreover the prim-info
of the task counts its references and every split of a list that its prim-info
counts and that is larger than `minLeafSize` returns two non-empty sides with
prim-infos that count them, every child task has a non-empty list. -/
theorem node_children_count (env : Env Ref Vec Box Space) (st st' : State Ref Box Space)
    (task : BuildTask Ref Box Space) (tasks : List (BuildTask Ref Box Space))
    (harea : Flt.lt Flt.neg_inf (env.halfArea task.bounds.bounds) = true)
    (h : processTask env st task = (.ok tasks, st')) :
    (enforcedLeaf env task → tasks = [] ∧
      ∃ ref, st'.writes = { dst := task.dst, depth := task.depth, ref := ref } :: st.writes ∧
        ref.isLeaf = true ∧ ref.numChildren = 0) ∧
    (¬ enforcedLeaf env task →
      2 ≤ tasks.length ∧ tasks.length ≤ 4 ∧
      (∃ ref, st'.writes.head? = some { dst := task.dst, depth := task.depth, ref := ref } ∧
        ref.isLeaf = false ∧ ref.numChildren = tasks.length) ∧
      (task.pinfo.size = task.prims.size →
        (∀ prims bounds pinfo k, pinfo.size = prims.size → env.cfg.minLeafSize < pinfo.size →
          (splitOutput env prims bounds pinfo k).consistent ∧
          1 ≤ (splitOutput env prims bounds pinfo k).lprims.size ∧
          1 ≤ (splitOutput env prims bounds pinfo k).rprims.size) →
        ∀ t ∈ tasks, 1 ≤ t.prims.size)) := by
  rcases processTask_cases env st task with ⟨hl, ⟨e, _, hp⟩ | ⟨ref, hlf, hp⟩⟩ |
    ⟨hn, cs, al, st1, hloop, hp⟩ | ⟨hn, e, st1, hloop, hp⟩
  · rw [hp] at h; simp at h
  · rw [hp] at h
    simp only [Prod.mk.injEq, Except.ok.injEq] at h
    obtain ⟨rfl, rfl⟩ := h
    refine ⟨fun _ => ⟨rfl, ref, rfl, ?_⟩, fun hn => absurd hl hn⟩
    obtain ⟨indexed, rfl⟩ := leaf_ok env task.prims ref hlf
    exact ⟨rfl, rfl⟩
  · rw [hp] at h
    simp only [Prod.mk.injEq, Except.ok.injEq] at h
    obtain ⟨rfl, rfl⟩ := h
    refine ⟨fun hl => absurd hl hn, fun _ => ?_⟩
    have hsz : env.cfg.minLeafSize < task.pinfo.size := by
      unfold enforcedLeaf at hn
      omega
    have h2 := splitLoop_two env _ hsz harea 2 st cs al st1 hloop
    have h4 := (splitLoop_length env _ st _ true cs al st1 hloop).2
    rw [nodeTasks_length]
    refine ⟨h2, by simpa [initialChildren, BVH4Hair.N] using h4, ⟨nodeRef cs al, rfl, ?_, ?_⟩, ?_⟩
    · rw [nodeRef_isLeaf]
    · rw [nodeRef_numChildren]
    · intro htask hsides t ht
      have hch := splitLoop_children env
        { pinfo := task.pinfo, bounds := task.bounds, prims := task.prims }
        (fun c => c.pinfo.size = c.prims.size)
        (fun c => c.pinfo.size = c.prims.size ∧ 1 ≤ c.prims.size)
        (fun c hc => hc.1)
        (fun s c k hc hs _ => by
          obtain ⟨hcons, hL, hR⟩ := hsides c.prims c.bounds c.pinfo k hc hs
          exact ⟨⟨hcons.1, hL⟩, ⟨hcons.2, hR⟩⟩)
        htask _ st cs al st1 hloop
      obtain ⟨c, hc, _, hprims⟩ := nodeTasks_mem env task cs al t ht
      rw [hprims]
      rcases hch with ⟨rfl, _⟩ | ⟨_, hQ⟩
      · simp at h2
      · exact (hQ c hc).2
  · rw [hp] at h; simp at h

/-- A run of C15 as amended: the task over the references 1 and 2 gets an
aligned node with two children, each holding one reference. -/
theorem node_children_count_witness :
    Flt.lt Flt.neg_inf (exampleEnvAligned.halfArea (exampleTask [1, 2]).bounds.bounds) = true ∧
    processTask exampleEnvAligned (exampleState 0) (exampleTask [1, 2])
      = (.ok exampleChildTasks,
          { remainingReplications := 0
            writes := [{ dst := [], depth := 0, ref := NodeRef.alignedNode [1, 1] }]
            history := [Event.apply SplitKind.alignedObject,
              Event.find SplitKind.alignedObject] }) ∧
    ¬ enforcedLeaf exampleEnvAligned (exampleTask [1, 2]) ∧
    2 ≤ exampleChildTasks.length ∧ exampleChildTasks.length ≤ 4 ∧
    (NodeRef.alignedNode [1, 1] : NodeRef Nat Int Unit).numChildren = exampleChildTasks.length ∧
    ∀ t ∈ exampleChildTasks, 1 ≤ t.prims.size :=
  have hthm := (node_children_count exampleEnvAligned (exampleState 0)
      { remainingReplications := 0
        writes := [{ dst := [], depth := 0, ref := NodeRef.alignedNode [1, 1] }]
        history := [Event.apply SplitKind.alignedObject, Event.find SplitKind.alignedObject] }
      (exampleTask [1, 2]) exampleChildTasks (by decide) (by rfl)).2 (by decide)
  ⟨by decide, by rfl, by decide, hthm.1, hthm.2.1, by rfl,
    hthm.2.2.2 (by rfl) (fun prims bounds pinfo k hcons hsz =>
      exampleEnv_sides _ _ _ prims bounds pinfo k (by
        have : exampleEnvAligned.cfg.minLeafSize = 1 := rfl
        rw [this, hcons] at hsz
        exact hsz))⟩

/-- C20: in the node that `processTask` emits for a task that is no enforced
leaf, child `i` belongs to the returned task `i`, whose list is the final list
of the child. An unaligned node stores for every child, slot 0 included, the
value of `computeHairSpaceBounds` on that final list; these bounds are the
union of the bounds of the references in the stored frame and enclose each of
them. An aligned node stores the `geomBounds` of the prim-info of each child,
which enclose the world-space bounds of its references when the prim-infos of
the task and of the split outputs do. Enclosure is any transitive relation under
which `extend` encloses both of its arguments, and `bounds()` is taken to be the
bounds in the identity frame. -/
theorem node_bounds_enclose (env : Env Ref Vec Box Space) (encl : Box → Box → Prop)
    (hl : ∀ a b, encl a (env.extend a b)) (hr : ∀ a b, encl b (env.extend a b))
    (htrans : ∀ a b c, encl a b → encl b c → encl a c)
    (hone : ∀ r, env.boundsIn env.one r = env.bounds r)
    (hinfo : ∀ prims bounds pinfo k,
      (∀ r ∈ (splitOutput env prims bounds pinfo k).lprims.iter,
        encl (env.bounds r) (splitOutput env prims bounds pinfo k).linfo.geomBounds) ∧
      (∀ r ∈ (splitOutput env prims bounds pinfo k).rprims.iter,
        encl (env.bounds r) (splitOutput env prims bounds pinfo k).rinfo.geomBounds))
    (st st' : State Ref Box Space) (task : BuildTask Ref Box Space)
    (tasks : List (BuildTask Ref Box Space))
    (htask : ∀ r ∈ task.prims.iter, encl (env.bounds r) task.pinfo.geomBounds)
    (hn : ¬ enforcedLeaf env task)
    (h : processTask env st task = (.ok tasks, st')) :
    ∃ ref, st'.writes.head? = some { dst := task.dst, depth := task.depth, ref := ref } ∧
      ((ref = NodeRef.unalignedNode (tasks.map fun t => computeHairSpaceBounds env t.prims) ∧
        ∀ t ∈ tasks,
          t.bounds = computeHairSpaceBounds env t.prims ∧
          (computeHairSpaceBounds env t.prims).bounds
            = unionIn env (computeHairSpaceBounds env t.prims).space t.prims ∧
          ∀ r ∈ t.prims.iter,
            encl (env.boundsIn (computeHairSpaceBounds env t.prims).space r)
              (computeHairSpaceBounds env t.prims).bounds) ∨
       (ref = NodeRef.alignedNode (tasks.map fun t => t.pinfo.geomBounds) ∧
        ∀ t ∈ tasks, ∀ r ∈ t.prims.iter, encl (env.bounds r) t.pinfo.geomBounds)) := by
  rcases processTask_cases env st task with ⟨hlf, _⟩ |
    ⟨_, cs, al, st1, hloop, hp⟩ | ⟨_, e, st1, hloop, hp⟩
  · exact absurd hlf hn
  · rw [hp] at h
    simp only [Prod.mk.injEq, Except.ok.injEq] at h
    obtain ⟨rfl, rfl⟩ := h
    refine ⟨nodeRef cs al, rfl, ?_⟩
    have hch := splitLoop_children env
      { pinfo := task.pinfo, bounds := task.bounds, prims := task.prims }
      (fun c => ∀ r ∈ c.prims.iter, encl (env.bounds r) c.pinfo.geomBounds)
      (fun c => (∀ r ∈ c.prims.iter, encl (env.bounds r) c.pinfo.geomBounds) ∧
        c.bounds = computeHairSpaceBounds env c.prims)
      (fun c hc => hc.1)
      (fun s c k _ _ _ =>
        ⟨⟨(hinfo c.prims c.bounds c.pinfo k).1, rfl⟩, ⟨(hinfo c.prims c.bounds c.pinfo k).2, rfl⟩⟩)
      htask _ st cs al st1 hloop
    cases al with
    | true =>
      right
      constructor
      · simp only [nodeRef, nodeTasks, if_true]
        rw [alignedTasks_geomBounds]
      · intro t ht r hr
        obtain ⟨c, hc, hpi, hprims⟩ := nodeTasks_mem env task cs true t ht
        rw [hprims] at hr
        rw [hpi]
        rcases hch with ⟨rfl, _⟩ | ⟨_, hQ⟩
        · rw [List.mem_singleton.1 hc] at hr ⊢
          exact htask r hr
        · exact (hQ c hc).1 r hr
    | false =>
      left
      rcases hch with ⟨_, hal⟩ | ⟨_, hQ⟩
      · simp at hal
      · constructor
        · simp only [nodeRef, nodeTasks, Bool.false_eq_true, if_false]
          rw [unalignedTasks_bounds]
          congr 1
          exact List.map_congr_left fun c hc => (hQ c hc).2
        · intro t ht
          have hb : t.bounds = computeHairSpaceBounds env t.prims := by
            simp only [nodeTasks, unalignedTasks, Bool.false_eq_true, if_false,
              List.mem_map] at ht
            obtain ⟨ic, hic, rfl⟩ := ht
            have hmem : ic.2 ∈ cs := by
              have := List.mk_mem_enum_iff_getElem?.1 (show (ic.1, ic.2) ∈ cs.enum from hic)
              obtain ⟨hlt, he⟩ := List.getElem?_eq_some_iff.1 this
              rw [← he]
              exact List.getElem_mem _
            exact (hQ ic.2 hmem).2
          refine ⟨hb, computeHairSpaceBounds_union env hone t.prims, ?_⟩
          intro r hmem
          rw [computeHairSpaceBounds_union env hone t.prims]
          exact foldl_extend_encloses env encl hl hr htrans _ _ _ r hmem
  · rw [hp] at h; simp at h

/-- A run of C20: the unaligned node of the task over the references 1 and 2
stores for both children the recomputed bounds of their one-reference lists. -/
theorem node_bounds_enclose_witness :
    ¬ enforcedLeaf exampleEnvUnaligned (exampleTask [1, 2]) ∧
    processTask exampleEnvUnaligned (exampleState 0) (exampleTask [1, 2])
      = (.ok exampleChildTasks,
          { remainingReplications := 0
            writes := [{ dst := [], depth := 0,
                         ref := NodeRef.unalignedNode
                           [{ space := (), bounds := 1 }, { space := (), bounds := 1 }] }]
            history := [Event.apply SplitKind.unalignedObject, Event.find SplitKind.strand,
              Event.find SplitKind.unalignedObject] }) ∧
    exampleChildTasks.map (fun t => computeHairSpaceBounds exampleEnvUnaligned t.prims)
      = [{ space := (), bounds := 1 }, { space := (), bounds := 1 }] ∧
    ∃ ref : NodeRef Nat Int Unit,
      ([{ dst := [], depth := 0,
          ref := NodeRef.unalignedNode
            [{ space := (), bounds := 1 }, { space := (), bounds := 1 }] }]
        : List (Write Nat Int Unit)).head?
        = some { dst := (exampleTask [1, 2]).dst, depth := (exampleTask [1, 2]).depth,
                 ref := ref } ∧
      ((ref = NodeRef.unalignedNode
          (exampleChildTasks.map fun t => computeHairSpaceBounds exampleEnvUnaligned t.prims) ∧
        ∀ t ∈ exampleChildTasks,
          t.bounds = computeHairSpaceBounds exampleEnvUnaligned t.prims ∧
          (computeHairSpaceBounds exampleEnvUnaligned t.prims).bounds
            = unionIn exampleEnvUnaligned
                (computeHairSpaceBounds exampleEnvUnaligned t.prims).space t.prims ∧
          ∀ r ∈ t.prims.iter,
            exampleEnvUnaligned.boundsIn
                (computeHairSpaceBounds exampleEnvUnaligned t.prims).space r
              ≤ (computeHairSpaceBounds exampleEnvUnaligned t.prims).bounds) ∨
       (ref = NodeRef.alignedNode (exampleChildTasks.map fun t => t.pinfo.geomBounds) ∧
        ∀ t ∈ exampleChildTasks, ∀ r ∈ t.prims.iter,
          exampleEnvUnaligned.bounds r ≤ t.pinfo.geomBounds)) :=
  ⟨by decide, by rfl, by rfl,
    node_bounds_enclose exampleEnvUnaligned (fun a b => a ≤ b)
      (fun a b => le_max_left a b) (fun a b => le_max_right a b)
      (fun _ _ _ h1 h2 => le_trans h1 h2) (fun _ => rfl)
      (fun prims bounds pinfo k => by
        cases k <;> exact ⟨fun _ _ => le_refl _, fun _ _ => le_refl _⟩)
      (exampleState 0)
      { remainingReplications := 0
        writes := [{ dst := [], depth := 0,
                     ref := NodeRef.unalignedNode
                       [{ space := (), bounds := 1 }, { space := (), bounds := 1 }] }]
        history := [Event.apply SplitKind.unalignedObject, Event.find SplitKind.strand,
          Event.find SplitKind.unalignedObject] }
      (exampleTask [1, 2]) exampleChildTasks (fun _ _ => le_refl _) (by decide) (by rfl)⟩

end NodeChildClaims

/-! ## Lemmas on the tasks of the task loop -/

section TaskLoopLemmas

variable {Ref Vec Box Space : Type}

theorem popLargest_mem (l : List (BuildTask Ref Box Space)) (m : BuildTask Ref Box Space)
    (rest : List (BuildTask Ref Box Space)) (h : popLargest l = some (m, rest)) :
    m ∈ l ∧ ∀ x ∈ rest, x ∈ l := by
  induction l generalizing m rest with
  | nil => simp [popLargest] at h
  | cons t ts ih =>
    unfold popLargest at h
    cases hp : popLargest ts with
    | none =>
      simp only [hp, Option.some.injEq, Prod.mk.injEq] at h
      obtain ⟨rfl, rfl⟩ := h
      exact ⟨List.mem_cons_self _ _, by simp⟩
    | some mr =>
      obtain ⟨m1, r1⟩ := mr
      obtain ⟨hm, hr⟩ := ih m1 r1 hp
      simp only [hp] at h
      split at h
      · simp only [Option.some.injEq, Prod.mk.injEq] at h
        obtain ⟨rfl, rfl⟩ := h
        refine ⟨List.mem_cons_of_mem _ hm, ?_⟩
        intro x hx
        rcases List.mem_cons.1 hx with rfl | hx
        · exact List.mem_cons_self _ _
        · exact List.mem_cons_of_mem _ (hr x hx)
      · simp only [Option.some.injEq, Prod.mk.injEq] at h
        obtain ⟨rfl, rfl⟩ := h
        exact ⟨List.mem_cons_self _ _, fun x hx => List.mem_cons_of_mem _ hx⟩

/-- A property of the state and a property of the tasks that `processTask`
keeps are kept by `recurseTask`. -/
theorem recurseTask_inv (env : Env Ref Vec Box Space) (J : State Ref Box Space → Prop)
    (T : BuildTask Ref Box Space → Prop)
    (hproc : ∀ st task, J st → T task →
      J (processTask env st task).2 ∧
      ∀ tasks, (processTask env st task).1 = .ok tasks → ∀ c ∈ tasks, T c)
    (fuel : Nat) (st : State Ref Box Space) (task : BuildTask Ref Box Space)
    (h : J st) (hT : T task) : J (recurseTask env fuel st task).2 :=
  (recurseTask_bound env J T (fun _ => 0) (fun _ => 0) (fun _ _ => le_refl _)
    (fun s t hs ht =>
      ⟨(hproc s t hs ht).1,
        fun tasks htasks => ⟨(hproc s t hs ht).2 tasks htasks, by simp⟩,
        fun _ _ => by simp⟩)
    fuel st task h hT).1

/-- A property of the state and a property of the tasks that `processTask`
keeps are kept by the task loop. -/
theorem task_build_parallel_inv (env : Env Ref Vec Box Space) (J : State Ref Box Space → Prop)
    (T : BuildTask Ref Box Space → Prop)
    (hproc : ∀ st task, J st → T task →
      J (processTask env st task).2 ∧
      ∀ tasks, (processTask env st task).1 = .ok tasks → ∀ c ∈ tasks, T c)
    (recFuel fuel : Nat) (w : Worker Ref Box Space) (h : J w.st) (hT : ∀ t ∈ w.tasks, T t) :
    J (task_build_parallel env recFuel fuel w).2.st := by
  induction fuel generalizing w with
  | zero => exact h
  | succ fuel ih =>
    unfold task_build_parallel
    split
    · exact h
    · cases hp : popLargest w.tasks with
      | none => exact ih w h hT
      | some mr =>
        obtain ⟨task, tasks⟩ := mr
        obtain ⟨hm, hrest⟩ := popLargest_mem _ _ _ hp
        have hTt := hT task hm
        have hTr : ∀ x ∈ tasks, T x := fun x hx => hT x (hrest x hx)
        simp only
        split
        · have hr := recurseTask_inv env J T hproc recFuel w.st task h hTt
          rcases hrr : recurseTask env recFuel w.st task with ⟨r, st1⟩
          rw [hrr] at hr
          cases r with
          | error e => exact hr
          | ok u => exact ih _ hr hTr
        · have hr := hproc w.st task h hTt
          rcases hrr : processTask env w.st task with ⟨r, st1⟩
          rw [hrr] at hr
          cases r with
          | error e => exact hr.1
          | ok ctasks =>
            refine ih _ hr.1 ?_
            intro x hx
            rcases List.mem_append.1 hx with hx | hx
            · exact hTr x hx
            · exact hr.2 ctasks rfl x hx

/-- What `processTask` does to the stores: it adds one store through the slot of
the task, a leaf of the first `min N maxLeafBlocks` references of the list for
an enforced leaf and a node otherwise, or none when it fails. -/
theorem processTask_writes (env : Env Ref Vec Box Space) (st : State Ref Box Space)
    (task : BuildTask Ref Box Space) :
    (processTask env st task).2.writes = st.writes ∨
    ∃ ref, (processTask env st task).2.writes
        = { dst := task.dst, depth := task.depth, ref := ref } :: st.writes ∧
      (ref.isLeaf = false ∨
        ∃ indexed, ref = NodeRef.leaf indexed
          (task.prims.iter.take (min task.prims.size env.maxLeafBlocks))) := by
  have inv := splitLoop_invariant env (fun s _ _ => s.writes = st.writes)
    (fun s => s.writes = st.writes)
    (fun s _ _ _ c k hs _ _ => hs)
    (fun s _ _ _ c hs _ _ => hs)
    (BVH4Hair.N - 1) st (initialChildren task) true rfl
  rcases processTask_cases env st task with ⟨_, ⟨e, _, hp⟩ | ⟨ref, hlf, hp⟩⟩ |
    ⟨_, cs, al, st1, hloop, hp⟩ | ⟨_, e, st1, hloop, hp⟩
  · left; rw [hp]
  · right
    obtain ⟨indexed, hr⟩ := leaf_ok env task.prims ref hlf
    exact ⟨ref, by rw [hp], Or.inr ⟨indexed, hr⟩⟩
  · right
    refine ⟨nodeRef cs al, ?_, Or.inl (nodeRef_isLeaf cs al)⟩
    rw [hp]
    simp only [inv.1 cs al st1 hloop]
  · left
    rw [hp]
    exact (inv.2 e st1 hloop).1

theorem processTask_leavesBounded (env : Env Ref Vec Box Space) (st : State Ref Box Space)
    (task : BuildTask Ref Box Space) (h : leavesBounded env st) :
    leavesBounded env (processTask env st task).2 := by
  rcases processTask_writes env st task with hw | ⟨ref, hw, href⟩
  · unfold leavesBounded
    rw [hw]
    exact h
  · unfold leavesBounded
    rw [hw]
    intro w hmem indexed prims hwr
    rcases List.mem_cons.1 hmem with rfl | hmem
    · simp only at hwr
      rcases href with href | ⟨i2, href⟩
      · rw [hwr] at href; simp [NodeRef.isLeaf] at href
      · rw [hwr] at href
        simp only [NodeRef.leaf.injEq] at href
        rw [href.2, List.length_take]
        omega
    · exact h w hmem indexed prims hwr

/-- The children of a task whose prim-info counts its non-empty list, when the
split routines return non-empty sides that their prim-infos count: each has a
prim-info that counts its non-empty list. -/
theorem processTask_tasks_nonempty (env : Env Ref Vec Box Space)
    (hsides : ∀ prims bounds pinfo k, pinfo.size = prims.size →
      env.cfg.minLeafSize < pinfo.size →
      (splitOutput env prims bounds pinfo k).consistent ∧
      1 ≤ (splitOutput env prims bounds pinfo k).lprims.size ∧
      1 ≤ (splitOutput env prims bounds pinfo k).rprims.size)
    (st : State Ref Box Space) (task : BuildTask Ref Box Space)
    (hT : task.pinfo.size = task.prims.size ∧ 1 ≤ task.prims.size)
    (tasks : List (BuildTask Ref Box Space))
    (h : (processTask env st task).1 = .ok tasks) :
    ∀ c ∈ tasks, c.pinfo.size = c.prims.size ∧ 1 ≤ c.prims.size := by
  rcases processTask_cases env st task with ⟨_, ⟨e, _, hp⟩ | ⟨ref, hlf, hp⟩⟩ |
    ⟨_, cs, al, st1, hloop, hp⟩ | ⟨_, e, st1, hloop, hp⟩
  · rw [hp] at h; simp at h
  · rw [hp] at h
    simp only [Except.ok.injEq] at h
    subst h
    simp
  · rw [hp] at h
    simp only [Except.ok.injEq] at h
    subst h
    have hch := splitLoop_children env
      { pinfo := task.pinfo, bounds := task.bounds, prims := task.prims }
      (fun c => c.pinfo.size = c.prims.size)
      (fun c => c.pinfo.size = c.prims.size ∧ 1 ≤ c.prims.size)
      (fun c hc => hc.1)
      (fun s c k hc hs _ => by
        obtain ⟨hcons, hL, hR⟩ := hsides c.prims c.bounds c.pinfo k hc hs
        exact ⟨⟨hcons.1, hL⟩, ⟨hcons.2, hR⟩⟩)
      hT.1 _ st cs al st1 hloop
    intro t ht
    obtain ⟨c, hc, hpi, hprims⟩ := nodeTasks_mem env task cs al t ht
    rw [hpi, hprims]
    rcases hch with ⟨rfl, _⟩ | ⟨_, hQ⟩
    · rw [List.mem_singleton.1 hc]; exact hT
    · exact hQ c hc
  · rw [hp] at h; simp at h

theorem processTask_leavesFilled (env : Env Ref Vec Box Space) (hml : 1 ≤ env.maxLeafBlocks)
    (st : State Ref Box Space) (task : BuildTask Ref Box Space)
    (hT : task.pinfo.size = task.prims.size ∧ 1 ≤ task.prims.size)
    (h : leavesFilled env st) : leavesFilled env (processTask env st task).2 := by
  rcases processTask_writes env st task with hw | ⟨ref, hw, href⟩
  · unfold leavesFilled
    rw [hw]
    exact h
  · unfold leavesFilled
    rw [hw]
    intro w hmem indexed prims hwr
    rcases List.mem_cons.1 hmem with rfl | hmem
    · simp only at hwr
      rcases href with href | ⟨i2, href⟩
      · rw [hwr] at href; simp [NodeRef.isLeaf] at href
      · rw [hwr] at href
        simp only [NodeRef.leaf.injEq] at href
        rw [href.2, List.length_take]
        have := hT.2
        simp only [BezierRefList.size] at this ⊢
        omega
    · exact h w hmem indexed prims hwr

end TaskLoopLemmas

/-! ## Claims on the leaves of a build -/

section LeafSizeClaims

variable {Ref Vec Box Space : Type}

/-- C13, as stated, fails. With an object split that puts every reference on
its left side, the build of the two curves 7 and 8 completes and its last store
is a leaf without any reference, in the fourth slot of the root node: `leaf` was
called on the empty right side of a split. -/
theorem leaf_empty_side :
    (exampleScene [7, 8]).numCurves = 2 ∧
    (build exampleEnvLopsided (exampleScene [7, 8]) 3).1 = .ok () ∧
    (build exampleEnvLopsided (exampleScene [7, 8]) 3).2.st.writes.head?
      = some { dst := [3], depth := 1, ref := NodeRef.leaf false [] } ∧
    leaf exampleEnvLopsided [] = (.ok (NodeRef.leaf false []), []) := by
  refine ⟨by rfl, by rfl, by rfl, by rfl⟩

/-- C13, amended: every leaf stored by a build holds at most `maxLeafBlocks`
references. If moreover `maxLeafBlocks` is at least 1, the initial reference
list is not empty, and every split of a list that its prim-info counts and that
is larger than `minLeafSize` returns two non-empty sides with prim-infos that
count them, every leaf stored by the build holds at least one reference: no
stored leaf comes from a call of `leaf` on an empty list. -/
theorem leaves_hold_references (env : Env Ref Vec Box Space) (scene : Scene Ref) (fuel : Nat) :
    leavesBounded env (build env scene fuel).2.st ∧
    (1 ≤ env.maxLeafBlocks →
      1 ≤ (initialCurves env scene).2.2.size →
      (∀ prims bounds pinfo k, pinfo.size = prims.size →
        env.cfg.minLeafSize < pinfo.size →
        (splitOutput env prims bounds pinfo k).consistent ∧
        1 ≤ (splitOutput env prims bounds pinfo k).lprims.size ∧
        1 ≤ (splitOutput env prims bounds pinfo k).rprims.size) →
      leavesFilled env (build env scene fuel).2.st) := by
  constructor
  · unfold build
    simp only
    split
    · intro w hw; simp [BVH4Hair.init] at hw
    · exact task_build_parallel_preserves env (leavesBounded env)
        (fun s t hs => processTask_leavesBounded env s t hs) _ fuel _
        (by intro w hw; simp [BVH4Hair.init] at hw)
  · intro hml hne hsides
    unfold build
    simp only
    split
    · intro w hw; simp [BVH4Hair.init] at hw
    · refine task_build_parallel_inv env (leavesFilled env)
        (fun t => t.pinfo.size = t.prims.size ∧ 1 ≤ t.prims.size)
        (fun s t hs ht => ⟨processTask_leavesFilled env hml s t ht hs,
          fun tasks htasks => processTask_tasks_nonempty env hsides s t ht tasks htasks⟩)
        _ fuel _ (by intro w hw; simp [BVH4Hair.init] at hw) ?_
      intro t ht
      simp only [List.mem_singleton] at ht
      subst ht
      exact ⟨initialPrimInfo_num env _, hne⟩

/-- A run of C13 as amended: the build of the curves 7 and 8 with the halving
split stores two leaves of one reference each. -/
theorem leaves_hold_references_witness :
    1 ≤ exampleEnvAligned.maxLeafBlocks ∧
    1 ≤ (initialCurves exampleEnvAligned (exampleScene [7, 8])).2.2.size ∧
    (build exampleEnvAligned (exampleScene [7, 8]) 3).2.st.writes
      = [{ dst := [1], depth := 1, ref := NodeRef.leaf false [8] },
         { dst := [0], depth := 1, ref := NodeRef.leaf false [7] },
         { dst := [], depth := 0, ref := NodeRef.alignedNode [1, 1] }] ∧
    leavesBounded exampleEnvAligned (build exampleEnvAligned (exampleScene [7, 8]) 3).2.st ∧
    leavesFilled exampleEnvAligned (build exampleEnvAligned (exampleScene [7, 8]) 3).2.st :=
  ⟨by decide, by decide, by rfl,
    (leaves_hold_references exampleEnvAligned (exampleScene [7, 8]) 3).1,
    (leaves_hold_references exampleEnvAligned (exampleScene [7, 8]) 3).2 (by decide) (by decide)
      (fun prims bounds pinfo k hcons hsz =>
        exampleEnv_sides _ _ _ prims bounds pinfo k (by
          have : exampleEnvAligned.cfg.minLeafSize = 1 := rfl
          rw [this, hcons] at hsz
          exact hsz))⟩

end LeafSizeClaims

/-! ## Lists on which every candidate costs `+inf` -/

section FallbackLemmas

variable {Ref Vec Box Space : Type}

/-- When every candidate that `split` computes costs `+inf`, the fallback split
is chosen. -/
theorem splitChoice_all_inf (env : Env Ref Vec Box Space) (rem : Int)
    (prims : BezierRefList Ref) (bounds : NAABBox3fa Box Space) (pinfo : PrimInfo Box)
    (hinf : ∀ k, computed env rem k = true → candidateCost env prims bounds pinfo k = Flt.inf) :
    splitChoice (splitCandidates env rem prims bounds pinfo) = some SplitKind.fallback := by
  have hAO := hinf SplitKind.alignedObject
  have hSP := hinf SplitKind.alignedSpatial
  have hUO := hinf SplitKind.unalignedObject
  have hST := hinf SplitKind.strand
  simp only [computed, candidateCost] at hAO hSP hUO hST
  have hbest : (splitCandidates env rem prims bounds pinfo).bestSAH = Flt.inf := by
    unfold splitCandidates
    simp only
    by_cases h1 : env.cfg.enableAlignedObjectSplits = true <;>
      by_cases h2 : spatialEnabled env rem = true <;>
      by_cases h3 : env.cfg.enableUnalignedObjectSplits = true <;>
      by_cases h4 : env.cfg.enableStrandSplits = true <;>
      simp only [h1, h2, h3, h4, if_true, if_false, hAO, hSP, hUO, hST, Bool.false_eq_true,
        Flt.min_inf_left, not_false_eq_true]
  unfold splitChoice
  rw [hbest]
  simp [Flt.eq, Flt.inf]

/-- A task that is no enforced leaf, on an input for which every candidate costs
`+inf`: the split loop ends, only fallback splits are applied, the node is
aligned, nothing is stored before the node and the replication counter is not
changed; the children hold the references of the task when the fallback split
distributes those of its list. -/
theorem splitLoop_all_inf (env : Env Ref Vec Box Space)
    (hinf : ∀ rem prims bounds pinfo k, computed env rem k = true →
      candidateCost env prims bounds pinfo k = Flt.inf)
    (slots : Nat) (st : State Ref Box Space) (c0 : Child Ref Box Space) :
    ∃ cs st1, splitLoop env slots st [c0] true = (.ok (cs, true), st1) ∧
      st1.writes = st.writes ∧ st1.remainingReplications = st.remainingReplications ∧
      (∀ k, Event.apply k ∈ st1.history → Event.apply k ∈ st.history ∨ k = SplitKind.fallback) ∧
      ((∀ prims, (env.fallbackFind prims).lprims.size + (env.fallbackFind prims).rprims.size
          = prims.size) →
        (cs.map fun c => c.prims.size).sum = c0.prims.size) := by
  obtain ⟨cs, al, st1, hloop⟩ := splitLoop_ok env
    (fun rem prims bounds pinfo k hk => by rw [hinf rem prims bounds pinfo k hk]; rfl)
    slots st [c0] true
  have inv := splitLoop_invariant env
    (fun s cs al => al = true ∧ s.writes = st.writes ∧
      s.remainingReplications = st.remainingReplications ∧
      (∀ k, Event.apply k ∈ s.history → Event.apply k ∈ st.history ∨ k = SplitKind.fallback) ∧
      ((∀ prims, (env.fallbackFind prims).lprims.size + (env.fallbackFind prims).rprims.size
          = prims.size) →
        (cs.map fun c => c.prims.size).sum = c0.prims.size))
    (fun _ => True) ?_ (fun _ _ _ _ _ _ _ _ => trivial) slots st [c0] true
    ⟨rfl, rfl, rfl, fun k hk => Or.inl hk, fun _ => by simp⟩
  · obtain ⟨hal, hw, hr, hh, hs⟩ := inv.1 cs al st1 hloop
    subst hal
    exact ⟨cs, st1, hloop, hw, hr, hh, hs⟩
  · intro s cs al i c k ⟨hal, hw, hr, hh, hs⟩ hf hc
    have hk : k = SplitKind.fallback := by
      have := splitChoice_all_inf env s.remainingReplications c.prims c.bounds c.pinfo
        (hinf s.remainingReplications c.prims c.bounds c.pinfo)
      rw [this] at hc
      simp only [Option.some.injEq] at hc
      exact hc.symm
    subst hk
    refine ⟨by simp [hal, SplitKind.isUnaligned], hw, ?_, ?_, ?_⟩
    · simp only [splitState]
      rw [if_neg (by decide)]
      exact hr
    · intro k hk
      simp only [splitState, List.mem_cons, List.mem_append] at hk
      rcases hk with hk | hk | hk
      · right
        simp only [Event.apply.injEq] at hk
        exact hk
      · exact absurd hk (apply_not_mem_findEvents env _ k)
      · exact hh k hk
    · intro hfb
      have hmem := List.mk_mem_enum_iff_getElem?.1 (findBestChild_mem env cs (i, c) hf)
      have hsum := sum_map_set (fun c => c.prims.size) cs i c
        (leftChild env (splitOutput env c.prims c.bounds c.pinfo SplitKind.fallback)) hmem
      have hfb' := hfb c.prims
      have hs' := hs hfb
      rw [splitChildren_eq, List.map_append, List.sum_append]
      simp only [List.map_cons, List.map_nil, List.sum_cons, List.sum_nil, leftChild, rightChild,
        splitOutput] at hsum ⊢
      omega

theorem alignedTasks_sizes (env : Env Ref Vec Box Space) (task : BuildTask Ref Box Space)
    (cs : List (Child Ref Box Space)) :
    (alignedTasks env task cs).map (fun t => t.prims.size) = cs.map fun c => c.prims.size :=
  enum_map_map cs _ (fun t : BuildTask Ref Box Space => t.prims.size)
    (fun c => c.prims.size) (fun _ => rfl)

end FallbackLemmas

/-! ## Claims on identical curves -/

section FallbackClaims

variable {Ref Vec Box Space : Type}

/-- C14, as stated, fails. With `maxLeafBlocks = 4`, the build of eight curves
for which every `find` returns the split SAH `+inf` completes with an aligned
node of four children in the root, not a leaf, and all eight references reach
the leaves: the fallback split divides every list, and none is dropped. -/
theorem identical_curves_kept :
    exampleEnvIdentical.maxLeafBlocks = 4 ∧
    (∀ rem prims bounds pinfo k, computed exampleEnvIdentical rem k = true →
      candidateCost exampleEnvIdentical prims bounds pinfo k = Flt.inf) ∧
    (initialCurves exampleEnvIdentical (exampleScene [1, 2, 3, 4, 5, 6, 7, 8])).2.2.size = 8 ∧
    (build exampleEnvIdentical (exampleScene [1, 2, 3, 4, 5, 6, 7, 8]) 3).1 = .ok () ∧
    (build exampleEnvIdentical (exampleScene [1, 2, 3, 4, 5, 6, 7, 8]) 3).2.root
      = some (NodeRef.alignedNode [1, 1, 1, 1]) ∧
    leafRefs (build exampleEnvIdentical (exampleScene [1, 2, 3, 4, 5, 6, 7, 8]) 3).2.st.writes
      = 8 := by
  refine ⟨by rfl, ?_, by rfl, by rfl, by rfl, by rfl⟩
  intro rem prims bounds pinfo k _
  cases k <;> rfl

/-- C14, amended: for an input of `2 * maxLeafBlocks` curves on which every
candidate that `split` computes costs `+inf`, with `minLeafSize` below
`2 * maxLeafBlocks`, a positive `maxBuildDepth` and a half area of the root
bounds that compares greater than `neg_inf`, the root task is no enforced leaf:
`processTask` returns, applies fallback splits only, leaves
`remainingReplications` as it is, and stores in the root an aligned node with
between two and four children. When the fallback split distributes the
references of its list, the children hold all `2 * maxLeafBlocks` references:
none is dropped at the root. -/
theorem identical_curves_root_node (env : Env Ref Vec Box Space)
    (hinf : ∀ rem prims bounds pinfo k, computed env rem k = true →
      candidateCost env prims bounds pinfo k = Flt.inf)
    (scene : Scene Ref) (st : State Ref Box Space)
    (hsize : (initialCurves env scene).2.2.size = 2 * env.maxLeafBlocks)
    (hmin : env.cfg.minLeafSize < 2 * env.maxLeafBlocks) (hdepth : 0 < env.maxBuildDepth)
    (harea : Flt.lt Flt.neg_inf (env.halfArea (rootTask env scene).bounds.bounds) = true) :
    ¬ enforcedLeaf env (rootTask env scene) ∧
    ∃ tasks st' bounds, processTask env st (rootTask env scene) = (.ok tasks, st') ∧
      st'.writes = { dst := [], depth := 0, ref := NodeRef.alignedNode bounds } :: st.writes ∧
      bounds.length = tasks.length ∧ 2 ≤ tasks.length ∧ tasks.length ≤ 4 ∧
      (∀ k, Event.apply k ∈ st'.history →
        Event.apply k ∈ st.history ∨ k = SplitKind.fallback) ∧
      st'.remainingReplications = st.remainingReplications ∧
      ((∀ prims, (env.fallbackFind prims).lprims.size + (env.fallbackFind prims).rprims.size
          = prims.size) →
        (tasks.map fun t => t.prims.size).sum = 2 * env.maxLeafBlocks) := by
  have hsz : (rootTask env scene).pinfo.size = 2 * env.maxLeafBlocks := by
    rw [← hsize]
    exact initialPrimInfo_num env _
  have hn : ¬ enforcedLeaf env (rootTask env scene) := by
    unfold enforcedLeaf
    rw [hsz]
    have : (rootTask env scene).depth = 0 := rfl
    rw [this]
    omega
  refine ⟨hn, ?_⟩
  obtain ⟨cs, st1, hloop, hw, hr, hh, hs⟩ := splitLoop_all_inf env hinf (BVH4Hair.N - 1) st
    { pinfo := (rootTask env scene).pinfo, bounds := (rootTask env scene).bounds,
      prims := (rootTask env scene).prims }
  have hp := processTask_node env st st1 (rootTask env scene) hn cs true hloop
  have h2 := splitLoop_two env _ (by rw [hsz]; exact hmin) harea 2 st cs true st1 hloop
  have h4 := (splitLoop_length env _ st _ true cs true st1 hloop).2
  refine ⟨_, _, cs.map fun c => c.pinfo.geomBounds, hp, ?_, ?_, ?_, ?_, hh, hr, ?_⟩
  · simp only [nodeRef, if_true, hw]
    rfl
  · rw [nodeTasks_length, List.length_map]
  · rw [nodeTasks_length]; exact h2
  · rw [nodeTasks_length]; simpa [BVH4Hair.N] using h4
  · intro hfb
    simp only [nodeTasks, if_true]
    rw [alignedTasks_sizes, hs hfb]
    exact hsize

/-- A run of C14 as amended: the root task of eight curves whose candidates all
cost `+inf` gets an aligned node with four children that hold 1, 4, 2 and 1
references. -/
theorem identical_curves_root_node_witness :
    (∀ rem prims bounds pinfo k, computed exampleEnvIdentical rem k = true →
      candidateCost exampleEnvIdentical prims bounds pinfo k = Flt.inf) ∧
    (initialCurves exampleEnvIdentical (exampleScene [1, 2, 3, 4, 5, 6, 7, 8])).2.2.size
      = 2 * exampleEnvIdentical.maxLeafBlocks ∧
    ((processTask exampleEnvIdentical (exampleState 1)
        (rootTask exampleEnvIdentical (exampleScene [1, 2, 3, 4, 5, 6, 7, 8]))).1.toOption.map
      fun tasks => tasks.map fun t => t.prims) = some [[[5]], [[1, 2, 3, 4]], [[7, 8]], [[6]]] ∧
    ¬ enforcedLeaf exampleEnvIdentical
      (rootTask exampleEnvIdentical (exampleScene [1, 2, 3, 4, 5, 6, 7, 8])) :=
  have hinf : ∀ rem prims bounds pinfo k, computed exampleEnvIdentical rem k = true →
      candidateCost exampleEnvIdentical prims bounds pinfo k = Flt.inf := by
    intro rem prims bounds pinfo k _
    cases k <;> rfl
  ⟨hinf, by rfl, by rfl,
    (identical_curves_root_node exampleEnvIdentical hinf (exampleScene [1, 2, 3, 4, 5, 6, 7, 8])
      (exampleState 1) (by rfl) (by decide) (by decide) (by decide)).1⟩

end FallbackClaims

/-! ## Lemmas on runs without spatial splits -/

section FrameRuleLemmas

variable {Ref Vec Box Space : Type}

theorem popLargest_perm (l : List (BuildTask Ref Box Space)) (m : BuildTask Ref Box Space)
    (rest : List (BuildTask Ref Box Space)) (h : popLargest l = some (m, rest)) :
    List.Perm l (m :: rest) := by
  induction l generalizing m rest with
  | nil => simp [popLargest] at h
  | cons t ts ih =>
    unfold popLargest at h
    cases hp : popLargest ts with
    | none =>
      simp only [hp, Option.some.injEq, Prod.mk.injEq] at h
      obtain ⟨rfl, rfl⟩ := h
      cases ts with
      | nil => exact List.Perm.refl _
      | cons a as =>
        unfold popLargest at hp
        cases hq : popLargest as with
        | none => simp [hq] at hp
        | some mr =>
          simp only [hq] at hp
          split at hp <;> simp at hp
    | some mr =>
      obtain ⟨m1, r1⟩ := mr
      have hperm := ih m1 r1 hp
      simp only [hp] at h
      split at h
      · simp only [Option.some.injEq, Prod.mk.injEq] at h
        obtain ⟨rfl, rfl⟩ := h
        exact (List.Perm.cons t hperm).trans (List.Perm.swap _ _ _)
      · simp only [Option.some.injEq, Prod.mk.injEq] at h
        obtain ⟨rfl, rfl⟩ := h
        exact List.Perm.refl _

end FrameRuleLemmas

/-! ## The order of the tasks -/

section OrderClaims

variable {Ref Vec Box Space : Type}

end OrderClaims

/-! ## Lemmas on the counter update of the spatial split -/

section CounterLemmas

variable {Ref Vec Box Space : Type}

/-- The value that `atomic_add` stores for the `size_t` difference
`p - l - r`: the counter minus the number of added references, as a signed
64-bit word. -/
theorem atomic_add_sizeSub (rem : Int) (p l r : Nat) :
    atomic_add rem (sizeSub (sizeSub p l) r) = wrap64 (rem - ((l : Int) + r - p)) := by
  unfold atomic_add sizeSub wrap64
  norm_num at *
  omega

theorem wrap64_of_range (x : Int) (h1 : -2 ^ 63 ≤ x) (h2 : x < 2 ^ 63) : wrap64 x = x := by
  unfold wrap64
  norm_num at *
  omega

end CounterLemmas

/-! ## Claims on the dispatcher and the sampling stride -/

section DispatchClaims

variable {Ref Vec Box Space : Type}

/-- C21: a `split` that returns has applied one kind `k`. If `k` is the aligned
spatial split, `remainingReplications` afterwards is the value that
`atomic_add` stores for the `size_t` difference `|parent| - |L| - |R|` of the
prim-info sizes; this is the value before minus `|L| + |R| - |parent|` as a
signed 64-bit word, and it is that difference itself when the difference is in
the range of the word. If `k` is any other
kind, `remainingReplications` is unchanged. -/
theorem split_updates_replications (env : Env Ref Vec Box Space)
    (st st' : State Ref Box Space) (prims : BezierRefList Ref)
    (bounds : NAABBox3fa Box Space) (pinfo : PrimInfo Box) (isAligned isAligned' : Bool)
    (o : SplitOut Ref Box)
    (h : split env st prims bounds pinfo isAligned = (.ok (o, isAligned'), st')) :
    ∃ k, splitChoice (splitCandidates env st.remainingReplications prims bounds pinfo) = some k ∧
      o = splitOutput env prims bounds pinfo k ∧
      st'.history = Event.apply k :: (findEvents env st.remainingReplications ++ st.history) ∧
      (k = SplitKind.alignedSpatial →
        st'.remainingReplications
          = atomic_add st.remainingReplications
              (sizeSub (sizeSub pinfo.size o.linfo.size) o.rinfo.size) ∧
        st'.remainingReplications
          = wrap64 (st.remainingReplications
              - ((o.linfo.size : Int) + o.rinfo.size - pinfo.size)) ∧
        (-2 ^ 63 ≤ st.remainingReplications
            - ((o.linfo.size : Int) + o.rinfo.size - pinfo.size) →
          st.remainingReplications
            - ((o.linfo.size : Int) + o.rinfo.size - pinfo.size) < 2 ^ 63 →
          st'.remainingReplications
            = st.remainingReplications
              - ((o.linfo.size : Int) + o.rinfo.size - pinfo.size))) ∧
      (k ≠ SplitKind.alignedSpatial →
        st'.remainingReplications = st.remainingReplications) := by
  cases hc : splitChoice (splitCandidates env st.remainingReplications prims bounds pinfo) with
  | none =>
    rw [split_of_none env st prims bounds pinfo isAligned hc] at h
    simp at h
  | some k =>
    rw [split_of_choice env st prims bounds pinfo isAligned k hc] at h
    simp only [Prod.mk.injEq, Except.ok.injEq] at h
    obtain ⟨⟨ho, _⟩, hst⟩ := h
    subst ho hst
    refine ⟨k, rfl, rfl, rfl, ?_, ?_⟩
    · intro hk
      have hrem : (splitState env st prims bounds pinfo k).remainingReplications
          = atomic_add st.remainingReplications
              (sizeSub (sizeSub pinfo.size (splitOutput env prims bounds pinfo k).linfo.size)
                (splitOutput env prims bounds pinfo k).rinfo.size) := by
        simp [splitState, hk]
      have hw := atomic_add_sizeSub st.remainingReplications pinfo.size
        (splitOutput env prims bounds pinfo k).linfo.size
        (splitOutput env prims bounds pinfo k).rinfo.size
      refine ⟨hrem, hrem.trans hw, ?_⟩
      intro h1 h2
      rw [hrem, hw, wrap64_of_range _ h1 h2]
    · intro hk
      simp [splitState, hk]

/-- A run of C21: with a counter of 1, the spatial split of the references 1
and 2 puts both on each side, and the counter drops by `2 + 2 - 2` to -1. -/
theorem split_updates_replications_witness :
    split exampleEnvSpatial (exampleState 1) [[1, 2]] { space := (), bounds := 1 }
        (examplePrimInfo [[1, 2]]) true
      = (.ok (exampleDuplicate [[1, 2]], true),
          { remainingReplications := -1, writes := [],
            history := [Event.apply SplitKind.alignedSpatial,
              Event.find SplitKind.alignedSpatial] }) ∧
    ∃ k, splitChoice (splitCandidates exampleEnvSpatial (exampleState 1).remainingReplications
        [[1, 2]] { space := (), bounds := 1 } (examplePrimInfo [[1, 2]])) = some k ∧
      exampleDuplicate [[1, 2]]
        = splitOutput exampleEnvSpatial [[1, 2]] { space := (), bounds := 1 }
            (examplePrimInfo [[1, 2]]) k ∧
      (k = SplitKind.alignedSpatial →
        (-1 : Int) = atomic_add (exampleState 1).remainingReplications
          (sizeSub (sizeSub (examplePrimInfo [[1, 2]]).size
            (exampleDuplicate [[1, 2]]).linfo.size) (exampleDuplicate [[1, 2]]).rinfo.size)) :=
  have h := split_updates_replications exampleEnvSpatial (exampleState 1)
    { remainingReplications := -1, writes := [],
      history := [Event.apply SplitKind.alignedSpatial, Event.find SplitKind.alignedSpatial] }
    [[1, 2]] { space := (), bounds := 1 } (examplePrimInfo [[1, 2]]) true true
    (exampleDuplicate [[1, 2]]) (by rfl)
  ⟨by rfl, by
    obtain ⟨k, h1, h2, _, h4, _⟩ := h
    exact ⟨k, h1, h2, fun hk => (h4 hk).1⟩⟩

/-- C23: on every input for which no candidate that `split` computes is NaN,
`split` returns, having applied exactly one kind `k` of the five, and does not
raise the internal error. The minimum `bestSAH` is `+inf`, and then `k` is the
fallback split, or it is the cost of a computed candidate, the one of `k`. -/
theorem split_no_internal_error (env : Env Ref Vec Box Space) (st : State Ref Box Space)
    (prims : BezierRefList Ref) (bounds : NAABBox3fa Box Space) (pinfo : PrimInfo Box)
    (isAligned : Bool)
    (hnan : ∀ k, computed env st.remainingReplications k = true →
      (candidateCost env prims bounds pinfo k).isNaN = false) :
    (split env st prims bounds pinfo isAligned).1
      ≠ .error (Err.runtime "bvh4hair_builder: internal error") ∧
    ∃ k, split env st prims bounds pinfo isAligned
        = (.ok (splitOutput env prims bounds pinfo k, isAligned && !k.isUnaligned),
            splitState env st prims bounds pinfo k) ∧
      (splitState env st prims bounds pinfo k).history
        = Event.apply k :: (findEvents env st.remainingReplications ++ st.history) ∧
      (∀ j, Event.apply j ∉ findEvents env st.remainingReplications) ∧
      ((splitCandidates env st.remainingReplications prims bounds pinfo).bestSAH = Flt.inf ∧
          k = SplitKind.fallback ∨
        computed env st.remainingReplications k = true ∧
          candidateCost env prims bounds pinfo k
            = (splitCandidates env st.remainingReplications prims bounds pinfo).bestSAH) := by
  obtain ⟨k, hk, hcost, hfb, _⟩ :=
    splitChoice_min env st.remainingReplications prims bounds pinfo hnan
  have hs := split_of_choice env st prims bounds pinfo isAligned k hk
  refine ⟨by rw [hs]; simp, k, hs, rfl,
    fun j => apply_not_mem_findEvents env st.remainingReplications j, ?_⟩
  by_cases hf : k = SplitKind.fallback
  · exact Or.inl ⟨hfb.1 hf, hf⟩
  · right
    rcases splitChoice_computed env st.remainingReplications prims bounds pinfo k hk with h | h
    · exact absurd h hf
    · refine ⟨h, ?_⟩
      rw [← hcost, splitCandidates_cost, h]
      rfl

/-- A run of C23: with all four kinds enabled and every candidate at cost 4,
`split` applies the aligned object split. -/
theorem split_no_internal_error_witness :
    (∀ k, computed exampleEnvAll (exampleState 1).remainingReplications k = true →
      (candidateCost exampleEnvAll [[1, 2]] { space := (), bounds := 1 }
        (examplePrimInfo [[1, 2]]) k).isNaN = false) ∧
    (split exampleEnvAll (exampleState 1) [[1, 2]] { space := (), bounds := 1 }
        (examplePrimInfo [[1, 2]]) true).1
      = .ok (exampleHalve [[1, 2]], true) ∧
    (split exampleEnvAll (exampleState 1) [[1, 2]] { space := (), bounds := 1 }
        (examplePrimInfo [[1, 2]]) true).1
      ≠ .error (Err.runtime "bvh4hair_builder: internal error") :=
  ⟨fun k _ => by cases k <;> rfl, by rfl,
    (split_no_internal_error exampleEnvAll (exampleState 1) [[1, 2]]
      { space := (), bounds := 1 } (examplePrimInfo [[1, 2]]) true
      (fun k _ => by cases k <;> rfl)).1⟩

end DispatchClaims

/-! ## The balance of references over a build -/

section BuildBalanceLemmas

variable {Ref Vec Box Space : Type}

end BuildBalanceLemmas

section BuildBalanceClaims

variable {Ref Vec Box Space : Type}

end BuildBalanceClaims

/-! ## The sampling stride in the loop of the frame fit -/

section StrideLemmas

variable {Ref Vec Box Space : Type}

/-- The body of the outer loop of `computeHairSpaceBounds` at the index `k`. -/
theorem frameStep_eq (env : Env Ref Vec Box Space) (prims : BezierRefList Ref)
    (best : BestFrame Box Space) (k : Nat) (i : Ref) :
    frameStep env prims prims.size best k i
      = if k % ((prims.size + 3) / 4) = 0 then
          (if Flt.lt (env.chordLength i) env.eps then best
           else if Flt.le (spaceBoundsArea env (env.chordFrame i) prims).2 best.bestArea then
             { bestArea := (spaceBoundsArea env (env.chordFrame i) prims).2
               bestSpace := env.chordFrame i
               bestBounds := (spaceBoundsArea env (env.chordFrame i) prims).1 }
           else best)
        else best := by
  unfold frameStep
  by_cases h : k % ((prims.size + 3) / 4) = 0
  · simp only [h, ne_eq, not_true_eq_false, if_false, if_true]
  · simp only [h, ne_eq, not_false_eq_true, if_true, if_false]

/-- The outer loop of `computeHairSpaceBounds` is the loop over the references
that pass the stride test. -/
theorem outer_loop_candidates (env : Env Ref Vec Box Space) (prims : BezierRefList Ref)
    (b : BestFrame Box Space) :
    prims.iter.enum.foldl (fun best ki => frameStep env prims prims.size best ki.1 ki.2) b
      = ((frameCandidates prims).map Prod.snd).foldl
          (fun best i => frameStep env prims prims.size best 0 i) b := by
  unfold frameCandidates
  generalize prims.iter.enum = l
  induction l generalizing b with
  | nil => rfl
  | cons x l ih =>
    rw [List.foldl_cons, ih]
    by_cases h1 : x.1 % ((prims.size + 3) / 4) = 0
    · simp only [List.filter_cons, h1, decide_True, if_true, List.map_cons, List.foldl_cons]
      rw [frameStep_eq env prims b x.1, frameStep_eq env prims b 0]
      simp only [h1, Nat.zero_mod, if_true]
    · simp only [List.filter_cons, h1, decide_False, Bool.false_eq_true, if_false]
      rw [frameStep_eq env prims b x.1]
      simp only [h1, if_false]

end StrideLemmas

section StrideClaims

variable {Ref Vec Box Space : Type}

/-- C24: for a list of `N >= 1` references the stride `(N + 3) / 4` that the loop
of `computeHairSpaceBounds` takes as modulus is at least 1. The body of the loop
leaves the best frame as it is at an index that is no multiple of the stride and
examines the reference (chord test, then the areas of all references in its
frame) at a multiple; index 0, the first reference in iteration order, is one.
The result of `computeHairSpaceBounds` is the one of the loop over the references
at the multiples of the stride, and there are `ceilDiv N ((N + 3) / 4)` of them,
at most 4. -/
theorem frame_stride_positive (env : Env Ref Vec Box Space) (prims : BezierRefList Ref)
    (hN : 1 ≤ prims.size) :
    1 ≤ (prims.size + 3) / 4 ∧
    (∀ best k i, frameStep env prims prims.size best k i
      = if k % ((prims.size + 3) / 4) = 0 then
          (if Flt.lt (env.chordLength i) env.eps then best
           else if Flt.le (spaceBoundsArea env (env.chordFrame i) prims).2 best.bestArea then
             { bestArea := (spaceBoundsArea env (env.chordFrame i) prims).2
               bestSpace := env.chordFrame i
               bestBounds := (spaceBoundsArea env (env.chordFrame i) prims).1 }
           else best)
        else best) ∧
    (∃ r, prims.iter.enum.head? = some (0, r) ∧ 0 % ((prims.size + 3) / 4) = 0 ∧
      (0, r) ∈ frameCandidates prims) ∧
    (∀ k r, (k, r) ∈ frameCandidates prims ↔
      prims.iter[k]? = some r ∧ k % ((prims.size + 3) / 4) = 0) ∧
    computeHairSpaceBounds env prims
      = (if Flt.eq (((frameCandidates prims).map Prod.snd).foldl
            (fun best i => frameStep env prims prims.size best 0 i)
            { bestArea := Flt.inf, bestSpace := env.one, bestBounds := env.emptyBox }).bestArea
            Flt.inf
        then
          { space := env.one
            bounds := prims.iter.foldl (fun b j => env.extend b (env.bounds j)) env.emptyBox }
        else
          { space := (((frameCandidates prims).map Prod.snd).foldl
              (fun best i => frameStep env prims prims.size best 0 i)
              { bestArea := Flt.inf, bestSpace := env.one, bestBounds := env.emptyBox }).bestSpace
            bounds := (((frameCandidates prims).map Prod.snd).foldl
              (fun best i => frameStep env prims prims.size best 0 i)
              { bestArea := Flt.inf, bestSpace := env.one,
                bestBounds := env.emptyBox }).bestBounds }) ∧
    (frameCandidates prims).length = ceilDiv prims.size ((prims.size + 3) / 4) ∧
    ceilDiv prims.size ((prims.size + 3) / 4) ≤ 4 := by
  have hmem : ∀ k r, (k, r) ∈ frameCandidates prims ↔
      prims.iter[k]? = some r ∧ k % ((prims.size + 3) / 4) = 0 := by
    intro k r
    rw [mem_frameCandidates, Nat.dvd_iff_mod_eq_zero]
  refine ⟨by omega, frameStep_eq env prims, ?_, hmem, ?_,
    frameCandidates_length prims hN, ceilDiv_stride_le _ hN⟩
  · cases hi : prims.iter with
    | nil =>
      simp only [BezierRefList.size, hi, List.length_nil] at hN
      omega
    | cons r rest =>
      refine ⟨r, by simp [List.enum, List.enumFrom], Nat.zero_mod _, ?_⟩
      rw [hmem, hi]
      simp
  · have h0 : prims.size ≠ 0 := by omega
    rw [← outer_loop_candidates]
    unfold computeHairSpaceBounds
    simp only [h0, if_false]

/-- A run of C24: of nine references the stride is `(9 + 3) / 4 = 3` and the
references at the indices 0, 3 and 6 are examined; the frame of the one at index
3, the only one with a total half area of 9, is returned. -/
theorem frame_stride_positive_witness :
    1 ≤ BezierRefList.size [[103, 102, 103, 101], [105, 106, 102, 108], [109]] ∧
    (BezierRefList.size [[103, 102, 103, 101], [105, 106, 102, 108], [109]] + 3) / 4 = 3 ∧
    frameCandidates [[103, 102, 103, 101], [105, 106, 102, 108], [109]]
      = [(0, 103), (3, 101), (6, 102)] ∧
    computeHairSpaceBounds exampleFrameEnv [[103, 102, 103, 101], [105, 106, 102, 108], [109]]
      = { space := exampleFrameEnv.chordFrame 101, bounds := 1 } ∧
    1 ≤ (BezierRefList.size [[103, 102, 103, 101], [105, 106, 102, 108], [109]] + 3) / 4 ∧
    (frameCandidates [[103, 102, 103, 101], [105, 106, 102, 108], [109]]).length
      = ceilDiv (BezierRefList.size [[103, 102, 103, 101], [105, 106, 102, 108], [109]])
          ((BezierRefList.size [[103, 102, 103, 101], [105, 106, 102, 108], [109]] + 3) / 4) :=
  ⟨by decide, by decide, by decide, by rfl,
    (frame_stride_positive exampleFrameEnv
      [[103, 102, 103, 101], [105, 106, 102, 108], [109]] (by decide)).1,
    (frame_stride_positive exampleFrameEnv
      [[103, 102, 103, 101], [105, 106, 102, 108], [109]] (by decide)).2.2.2.2.2.1⟩

end StrideClaims

/-! ## The task loop returns -/

section LoopReturnsLemmas

variable {Ref Vec Box Space : Type}

end LoopReturnsLemmas

section LoopReturnsClaims

variable {Ref Vec Box Space : Type}

end LoopReturnsClaims

/-! ## Lemmas on the counter of active tasks -/

section PoolLemmas

variable {Ref Box Space : Type}

theorem sum_map_set_weight (l : List (Pc Ref Box Space)) (i : Nat) (a b : Pc Ref Box Space)
    (h : l[i]? = some a) :
    ((l.set i b).map Pc.weight).sum = (l.map Pc.weight).sum - a.weight + b.weight := by
  induction l generalizing i with
  | nil => simp at h
  | cons x l ih =>
    cases i with
    | zero =>
      simp only [List.getElem?_cons_zero, Option.some.injEq] at h
      subst h
      simp only [List.set_cons_zero, List.map_cons, List.sum_cons]
      omega
    | succ i =>
      simp only [List.getElem?_cons_succ] at h
      have := ih i h
      simp only [List.set_cons_succ, List.map_cons, List.sum_cons]
      omega

theorem Pool.step_balanced (p p' : Pool Ref Box Space) (i : Nat)
    (ctasks : List (BuildTask Ref Box Space)) (h : p.balanced)
    (hs : p.step i ctasks = some p') : p'.balanced := by
  unfold Pool.balanced at h ⊢
  unfold Pool.step at hs
  cases hw : p.workers[i]? with
  | none => simp [hw] at hs
  | some pc =>
    have hset := fun b => sum_map_set_weight p.workers i pc b hw
    simp only [hw] at hs
    cases pc with
    | loopHead =>
      simp only at hs
      split at hs <;>
        (simp only [Option.some.injEq] at hs; subst hs; simp only [hset, Pc.weight]; omega)
    | entered =>
      simp only at hs
      cases hm : p.mutex with
      | some j => simp [hm] at hs
      | none =>
        simp only [hm, Option.some.injEq] at hs
        subst hs
        simp only [hset, Pc.weight]
        omega
    | locked =>
      simp only at hs
      cases hp : popLargest p.tasks with
      | none =>
        simp only [hp, Option.some.injEq] at hs
        subst hs
        simp only [hset, Pc.weight]
        omega
      | some mr =>
        obtain ⟨task, rest⟩ := mr
        simp only [hp, Option.some.injEq] at hs
        subst hs
        have hlen : p.tasks.length = rest.length + 1 := by
          rw [(popLargest_perm _ _ _ hp).length_eq]; rfl
        simp only [hset, Pc.weight]
        rw [hlen] at h
        push_cast at h
        omega
    | popped task =>
      simp only [Option.some.injEq] at hs
      subst hs
      simp only [hset, Pc.weight]
      omega
    | taken task =>
      simp only at hs
      split at hs <;>
        (simp only [Option.some.injEq] at hs; subst hs; simp only [hset, Pc.weight]; omega)
    | recursing task =>
      simp only [Option.some.injEq] at hs
      subst hs
      simp only [hset, Pc.weight]
      omega
    | processing task =>
      simp only [Option.some.injEq] at hs
      subst hs
      simp only [hset, Pc.weight]
      omega
    | processed cs =>
      simp only at hs
      cases hm : p.mutex with
      | some j => simp [hm] at hs
      | none =>
        simp only [hm, Option.some.injEq] at hs
        subst hs
        simp only [hset, Pc.weight]
        omega
    | pushing cs =>
      cases cs with
      | nil =>
        simp only [Option.some.injEq] at hs
        subst hs
        simp only [hset, Pc.weight]
        omega
      | cons c cs =>
        simp only [Option.some.injEq] at hs
        subst hs
        simp only [hset, Pc.weight]
        omega
    | counted c cs =>
      simp only [Option.some.injEq] at hs
      subst hs
      simp only [hset, Pc.weight, List.length_append, List.length_singleton]
      push_cast
      omega
    | decremented =>
      simp only [Option.some.injEq] at hs
      subst hs
      simp only [hset, Pc.weight]
      omega
    | finished => simp at hs

theorem Pool.run_balanced (p : Pool Ref Box Space)
    (schedule : List (Nat × List (BuildTask Ref Box Space))) (h : p.balanced) :
    (p.run schedule).balanced := by
  induction schedule generalizing p with
  | nil => exact h
  | cons m schedule ih =>
    obtain ⟨i, ctasks⟩ := m
    unfold Pool.run
    cases hs : p.step i ctasks with
    | none => exact ih p h
    | some p' => exact ih p' (Pool.step_balanced p p' i ctasks h hs)

theorem Pool.initial_balanced (task : BuildTask Ref Box Space) (threadCount : Nat) :
    (Pool.initial task threadCount).balanced := by
  unfold Pool.balanced Pool.initial
  have : ((List.replicate threadCount (Pc.loopHead : Pc Ref Box Space)).map Pc.weight).sum
      = 0 := by
    induction threadCount with
    | zero => rfl
    | succ n ih =>
      rw [List.replicate_succ, List.map_cons, List.sum_cons, ih]
      rfl
  rw [this]
  simp

theorem Pc.weight_nonneg (pc : Pc Ref Box Space) : 0 ≤ pc.weight := by
  cases pc <;> simp [Pc.weight]

theorem sum_weight_nonneg (l : List (Pc Ref Box Space)) : 0 ≤ (l.map Pc.weight).sum := by
  induction l with
  | nil => simp
  | cons x l ih =>
    have := Pc.weight_nonneg x
    simp only [List.map_cons, List.sum_cons]
    omega

theorem weight_zero_of_sum (l : List (Pc Ref Box Space)) (h : (l.map Pc.weight).sum ≤ 0) :
    ∀ pc ∈ l, pc.weight = 0 := by
  induction l with
  | nil => intro pc hpc; simp at hpc
  | cons x l ih =>
    have h1 := Pc.weight_nonneg x
    have h2 := sum_weight_nonneg l
    simp only [List.map_cons, List.sum_cons] at h
    intro pc hpc
    rcases List.mem_cons.1 hpc with rfl | hpc
    · omega
    · exact ih (by omega) pc hpc

theorem Pc.busy_of_weight_zero (pc : Pc Ref Box Space) (h : pc.weight = 0)
    (hb : pc.busy = true) : pc.isRecursing = true := by
  cases pc <;> simp_all [Pc.weight, Pc.busy, Pc.isRecursing]

end PoolLemmas

/-! ## Claims on the counter of active tasks -/

section PoolClaims

variable {Ref Box Space : Type}

/-- C22, as stated, fails. Two workers start on a root task of two references.
The first takes the task, executes `atomic_add(&numActiveTasks,-1)` (line 167)
and enters `recurseTask`; the second then tests `while (numActiveTasks)` and
leaves the loop: `numActiveTasks` is 0 while the task is still being processed
by the first worker. -/
theorem counter_zero_while_recursing :
    (exampleTask [1, 2]).pinfo.size < 512 ∧
    ((Pool.initial (exampleTask [1, 2]) 2).run
        [(0, []), (0, []), (0, []), (0, []), (0, []), (1, [])]).numActiveTasks = 0 ∧
    ((Pool.initial (exampleTask [1, 2]) 2).run
        [(0, []), (0, []), (0, []), (0, []), (0, []), (1, [])]).workers
      = [Pc.recursing (exampleTask [1, 2]), Pc.finished] ∧
    (Pc.recursing (exampleTask [1, 2])).busy = true := by
  refine ⟨by decide, by rfl, by rfl, by rfl⟩

/-- C22, amended: at every point of every run of any number of workers, under
every interleaving of their statements and whatever child tasks `processTask`
returns, `numActiveTasks` is the number of queued tasks plus, for every worker,
one for a task that it has taken and for which it has not yet executed its
`atomic_add(&numActiveTasks,-1)`, and one for a child that it has counted and not
yet pushed. A child is counted before it is pushed, and the counter is
decremented for a task under `processTask` after its children are pushed, but for
a task below the threshold before `recurseTask` is called. Hence the counter is
never below the number of queued tasks, and `numActiveTasks = 0` implies that the
queue is empty and that a worker that still holds a task is in `recurseTask`,
which pushes no task. -/
theorem counter_covers_queue (task : BuildTask Ref Box Space) (threadCount : Nat)
    (schedule : List (Nat × List (BuildTask Ref Box Space))) :
    ((Pool.initial task threadCount).run schedule).numActiveTasks
      = ((Pool.initial task threadCount).run schedule).tasks.length
        + (((Pool.initial task threadCount).run schedule).workers.map Pc.weight).sum ∧
    (((Pool.initial task threadCount).run schedule).tasks.length : Int)
      ≤ ((Pool.initial task threadCount).run schedule).numActiveTasks ∧
    (((Pool.initial task threadCount).run schedule).numActiveTasks = 0 →
      ((Pool.initial task threadCount).run schedule).tasks = [] ∧
      ∀ pc ∈ ((Pool.initial task threadCount).run schedule).workers,
        pc.weight = 0 ∧ (pc.busy = true → pc.isRecursing = true)) := by
  have hb := Pool.run_balanced _ schedule (Pool.initial_balanced task threadCount)
  unfold Pool.balanced at hb
  have hw := sum_weight_nonneg ((Pool.initial task threadCount).run schedule).workers
  refine ⟨hb, by omega, ?_⟩
  intro h0
  have hlen : ((Pool.initial task threadCount).run schedule).tasks.length = 0 := by omega
  refine ⟨List.length_eq_zero.1 hlen, ?_⟩
  intro pc hpc
  have hz := weight_zero_of_sum _ (by omega) pc hpc
  exact ⟨hz, Pc.busy_of_weight_zero pc hz⟩

end PoolClaims

end Embree
